import Mathlib

/-
Verification of the order-dispatch core of order-api-microservices.

The Go sources are shallowly embedded as follows:
  * float64 money/geometry values become exact rationals;
  * time.Now() becomes an explicit tick parameter;
  * Go string-typed enums (OrderStatus, OrderType, PaymentMethod) stay strings,
    with the Go constants reproduced;
  * protobuf enums are open int32 values and are modelled as Int;
  * the Postgres orders table becomes a list of Order rows, keyed by ID;
  * fallible gRPC handlers return Except Code over the gRPC status codes used.
-/

namespace OrderApi

/- Data model: services/order/internal/model/order.go -/

abbrev OrderStatus := String

def StatusCreated : OrderStatus := "CREATED"

def StatusPaymentPending : OrderStatus := "PAYMENT_PENDING"

def StatusPaymentComplete : OrderStatus := "PAYMENT_COMPLETED"

def StatusProviderAssigned : OrderStatus := "PROVIDER_ASSIGNED"

def StatusProviderAccepted : OrderStatus := "PROVIDER_ACCEPTED"

def StatusProviderRejected : OrderStatus := "PROVIDER_REJECTED"

def StatusInProgress : OrderStatus := "IN_PROGRESS"

def StatusPickedUp : OrderStatus := "PICKED_UP"

def StatusInTransit : OrderStatus := "IN_TRANSIT"

def StatusArrived : OrderStatus := "ARRIVED"

def StatusDelivered : OrderStatus := "DELIVERED"

def StatusCompleted : OrderStatus := "COMPLETED"

def StatusCancelled : OrderStatus := "CANCELLED"

def StatusRefunded : OrderStatus := "REFUNDED"

def StatusDisputed : OrderStatus := "DISPUTED"

abbrev OrderType := String

def TypeRide : OrderType := "RIDE"

def TypeFoodDelivery : OrderType := "FOOD_DELIVERY"

def TypePackageDelivery : OrderType := "PACKAGE_DELIVERY"

def TypeGroceryDelivery : OrderType := "GROCERY_DELIVERY"

def TypeServiceBooking : OrderType := "SERVICE_BOOKING"

abbrev PaymentMethod := String

def PaymentCreditCard : PaymentMethod := "CREDIT_CARD"

def PaymentDebitCard : PaymentMethod := "DEBIT_CARD"

def PaymentDigitalWallet : PaymentMethod := "DIGITAL_WALLET"

def PaymentCash : PaymentMethod := "CASH"

def PaymentCrypto : PaymentMethod := "CRYPTO"

/-- model.Location; AdditionalInfo's Go map is carried as an association list. -/
structure Location where
  Latitude : ℚ
  Longitude : ℚ
  Address : String
  PostalCode : String
  City : String
  Country : String
  AdditionalInfo : List (String × String)
deriving DecidableEq, Repr

/-- model.OrderItem. -/
structure OrderItem where
  ItemID : String
  Name : String
  Quantity : Int
  Price : ℚ
  Properties : List (String × String)
deriving DecidableEq, Repr

/-- model.StatusHistory: one entry of the append-only status audit trail. -/
structure StatusHistory where
  Status : OrderStatus
  UpdatedBy : String
  Notes : String
  Timestamp : Nat
deriving DecidableEq, Repr

abbrev StatusHistories := List StatusHistory

/-- model.Order: the central aggregate. -/
structure Order where
  ID : String
  UserID : String
  ProviderID : String
  OrderType : OrderType
  Status : OrderStatus
  PickupLocation : Location
  DestinationLocation : Location
  Items : List OrderItem
  TotalPrice : ℚ
  PlatformFee : ℚ
  ProviderFee : ℚ
  TransactionID : String
  BlockchainTxHash : String
  PaymentMethod : PaymentMethod
  Notes : String
  CreatedAt : Nat
  UpdatedAt : Nat
  StatusHistory : StatusHistories
deriving DecidableEq, Repr

/-- model.OrderLocation: a provider position report row. -/
structure OrderLocation where
  ID : String
  OrderID : String
  ProviderID : String
  Latitude : ℚ
  Longitude : ℚ
  Timestamp : Nat
deriving DecidableEq, Repr

/-- Order.AddStatusHistory: sets the current status, bumps UpdatedAt and appends
one history entry carrying the same status. -/
def Order.AddStatusHistory (o : Order) (status : OrderStatus) (updatedBy notes : String)
    (now : Nat) : Order :=
  { o with
    Status := status
    UpdatedAt := now
    StatusHistory := o.StatusHistory ++
      [{ Status := status, UpdatedBy := updatedBy, Notes := notes, Timestamp := now }] }

/-- Order.CalculateFees: platform fee is 10 percent and provider fee 80 percent
of the total price. -/
def Order.CalculateFees (o : Order) : Order :=
  { o with PlatformFee := o.TotalPrice * (0.1 : ℚ), ProviderFee := o.TotalPrice * (0.8 : ℚ) }

/- gRPC status codes used by the order service handlers. -/

inductive Code where
  | invalidArgument
  | notFound
  | permissionDenied
  | failedPrecondition
  | internal
deriving DecidableEq, Repr

/- Protobuf-side inputs (proto3 enums are open, hence Int). -/

/-- pb.OrderItem as received in a CreateOrder request. -/
structure PbOrderItem where
  ItemId : String
  Name : String
  Quantity : Int
  Price : ℚ
  Properties : List (String × String)
deriving DecidableEq, Repr

/-- pb.CreateOrderRequest. -/
structure CreateOrderRequest where
  UserId : String
  OrderType : Int
  PickupLocation : Option Location
  DestinationLocation : Option Location
  Items : List PbOrderItem
  PaymentMethod : Int
  Notes : String
deriving DecidableEq, Repr

/-- convertOrderType: proto enum value to domain order type; every value outside
the five recognized ones (RIDE=1 .. SERVICE_BOOKING=5) falls to TypeRide. -/
def convertOrderType (ot : Int) : OrderType :=
  if ot = 1 then TypeRide
  else if ot = 2 then TypeFoodDelivery
  else if ot = 3 then TypePackageDelivery
  else if ot = 4 then TypeGroceryDelivery
  else if ot = 5 then TypeServiceBooking
  else TypeRide

/-- convertOrderStatusFromProto: proto enum value to domain status; the default
branch (including UNSPECIFIED=0) yields StatusCreated. -/
def convertOrderStatusFromProto (os : Int) : OrderStatus :=
  if os = 1 then StatusCreated
  else if os = 2 then StatusPaymentPending
  else if os = 3 then StatusPaymentComplete
  else if os = 4 then StatusProviderAssigned
  else if os = 5 then StatusProviderAccepted
  else if os = 6 then StatusProviderRejected
  else if os = 7 then StatusInProgress
  else if os = 8 then StatusPickedUp
  else if os = 9 then StatusInTransit
  else if os = 10 then StatusArrived
  else if os = 11 then StatusDelivered
  else if os = 12 then StatusCompleted
  else if os = 13 then StatusCancelled
  else if os = 14 then StatusRefunded
  else if os = 15 then StatusDisputed
  else StatusCreated

/-- convertPaymentMethod: proto enum value to domain payment method; every value
outside the five recognized ones falls to PaymentCreditCard. -/
def convertPaymentMethod (pm : Int) : PaymentMethod :=
  if pm = 1 then PaymentCreditCard
  else if pm = 2 then PaymentDebitCard
  else if pm = 3 then PaymentDigitalWallet
  else if pm = 4 then PaymentCash
  else if pm = 5 then PaymentCrypto
  else PaymentCreditCard

/-- convertLocation: a nil location pointer becomes the zero Location. -/
def convertLocation (loc : Option Location) : Location :=
  match loc with
  | none => { Latitude := 0, Longitude := 0, Address := "", PostalCode := "",
              City := "", Country := "", AdditionalInfo := [] }
  | some l => l

/-- convertOrderItems: request items to domain items, field by field. -/
def convertOrderItems (items : List PbOrderItem) : List OrderItem :=
  items.map fun item =>
    { ItemID := item.ItemId, Name := item.Name, Quantity := item.Quantity,
      Price := item.Price, Properties := item.Properties }

/-- calculateTotalPrice: running sum of price times quantity over the items. -/
def calculateTotalPrice (items : List OrderItem) : ℚ :=
  items.foldl (fun total item => total + item.Price * (item.Quantity : ℚ)) 0

/-- estimateArrivalMinutes: the squared coordinate difference scaled by 111 is
taken as a pseudo-distance, divided by a 30 units-per-hour speed and converted
to minutes. -/
def estimateArrivalMinutes (location : OrderLocation) (destination : Location) : ℚ :=
  let dLat := destination.Latitude - location.Latitude
  let dLon := destination.Longitude - location.Longitude
  let distance := (dLat * dLat + dLon * dLon) * 111
  let averageSpeed : ℚ := 30
  (distance / averageSpeed) * 60

/- Provider matcher: services/order/internal/service (matcher part). -/

/-- service.Provider as returned by the provider directory. -/
structure Provider where
  ID : String
  Name : String
  Rating : ℚ
  ServiceTypes : List String
  Location : Location
  IsAvailable : Bool
  Distance : ℚ
deriving DecidableEq, Repr

/-- distanceScoreI of the sortProvidersByScore comparator: distance normalized
by an assumed 10km maximum. -/
def distanceScore (p : Provider) : ℚ :=
  1 - min (p.Distance / 10) 1

/-- ratingScoreI of the sortProvidersByScore comparator: rating on a 0-5 scale. -/
def ratingScore (p : Provider) : ℚ :=
  p.Rating / 5

/-- The weighted score of the sortProvidersByScore comparator: 70 percent
distance, 30 percent rating. -/
def providerScore (p : Provider) : ℚ :=
  0.7 * distanceScore p + 0.3 * ratingScore p

/-- The less function passed to sort.Slice in sortProvidersByScore:
scoreI greater than scoreJ. -/
def scoreLess (x y : Provider) : Bool :=
  decide (providerScore x > providerScore y)

/-- orderTypeToServiceType: order type to provider-directory service type. -/
def orderTypeToServiceType (orderType : OrderType) : String :=
  if orderType = TypeRide then "ride"
  else if orderType = TypeFoodDelivery then "food_delivery"
  else if orderType = TypePackageDelivery then "package_delivery"
  else if orderType = TypeGroceryDelivery then "grocery_delivery"
  else if orderType = TypeServiceBooking then "service_booking"
  else "general"

/- Embedding of Go 1.21 sort.Slice (sort/zsortfunc.go): pdqsort over an indexed
sequence, modelled on lists; data.Swap and data.Less become swapL and lessAt.
Loops that move an index become fuel or index recursion; the fuel supplied at
the top level strictly exceeds the number of iterations Go can perform. -/

/-- data.Swap: exchange the elements at two indices (no-op out of bounds). -/
def swapL (l : List α) (i j : Nat) : List α :=
  match l.get? i, l.get? j with
  | some xi, some xj => (l.set i xj).set j xi
  | _, _ => l

/-- data.Less on indices: compare the elements at two indices. -/
def lessAt (lt : α → α → Bool) (l : List α) (i j : Nat) : Bool :=
  match l.get? i, l.get? j with
  | some xi, some xj => lt xi xj
  | _, _ => false

/-- Inner loop of insertionSort_func: bubble the element at index j left while
it is less than its left neighbour, stopping at index a. -/
def insertionSortInner (lt : α → α → Bool) (a : Nat) (l : List α) (j : Nat) : List α :=
  if a < j then
    if lessAt lt l j (j - 1) then insertionSortInner lt a (swapL l j (j - 1)) (j - 1) else l
  else l
termination_by j
decreasing_by omega

/-- Outer loop of insertionSort_func over indices a+1 to b-1. -/
def insertionSortOuter (lt : α → α → Bool) (a b : Nat) (l : List α) (i : Nat) : List α :=
  if i < b then insertionSortOuter lt a b (insertionSortInner lt a l i) (i + 1) else l
termination_by b - i
decreasing_by omega

/-- insertionSort_func on the index range a to b. -/
def insertionSortGo (lt : α → α → Bool) (l : List α) (a b : Nat) : List α :=
  insertionSortOuter lt a b l (a + 1)

/-- siftDown_func: sift the root down a max-heap laid out at offset first; the
child moves to the right sibling when that sibling is greater. -/
def siftDownGo (lt : α → α → Bool) (first hi : Nat) (l : List α) (root : Nat) : List α :=
  if 2 * root + 1 < hi then
    if 2 * root + 2 < hi ∧ lessAt lt l (first + (2 * root + 1)) (first + (2 * root + 2)) = true then
      if lessAt lt l (first + root) (first + (2 * root + 2)) = true then
        siftDownGo lt first hi (swapL l (first + root) (first + (2 * root + 2))) (2 * root + 2)
      else l
    else
      if lessAt lt l (first + root) (first + (2 * root + 1)) = true then
        siftDownGo lt first hi (swapL l (first + root) (first + (2 * root + 1))) (2 * root + 1)
      else l
  else l
termination_by hi - root
decreasing_by all_goals omega

/-- Heap-construction loop of heapSort_func, from index i down to 0. -/
def heapifyLoop (lt : α → α → Bool) (first hi : Nat) (l : List α) (i : Nat) : List α :=
  let l2 := siftDownGo lt first hi l i
  if i = 0 then l2 else heapifyLoop lt first hi l2 (i - 1)
termination_by i
decreasing_by omega

/-- Pop loop of heapSort_func: move the maximum to the end, then restore. -/
def heapPopLoop (lt : α → α → Bool) (first : Nat) (l : List α) (i : Nat) : List α :=
  let l2 := siftDownGo lt first i (swapL l first (first + i)) 0
  if i = 0 then l2 else heapPopLoop lt first l2 (i - 1)
termination_by i
decreasing_by omega

/-- heapSort_func on the index range a to b. -/
def heapSortGo (lt : α → α → Bool) (l : List α) (a b : Nat) : List α :=
  let first := a
  let hi := b - a
  let l := heapifyLoop lt first hi l ((hi - 1) / 2)
  if hi = 0 then l else heapPopLoop lt first l (hi - 1)

/-- reverseRange_func: reverse the index range a to b in place. -/
def reverseRangeLoop (l : List α) (i j : Nat) : List α :=
  if i < j then reverseRangeLoop (swapL l i j) (i + 1) (j - 1) else l
termination_by j - i
decreasing_by omega

/-- reverseRange_func entry point. -/
def reverseRangeGo (l : List α) (a b : Nat) : List α :=
  reverseRangeLoop l a (b - 1)

/-- order2_func: the two indices in comparator order, counting a swap. -/
def order2Go (lt : α → α → Bool) (l : List α) (a b swaps : Nat) : Nat × Nat × Nat :=
  if lessAt lt l b a then (b, a, swaps + 1) else (a, b, swaps)

/-- median_func: index of the median of three elements, counting swaps. -/
def medianGo (lt : α → α → Bool) (l : List α) (a b c swaps : Nat) : Nat × Nat :=
  let p1 := order2Go lt l a b swaps
  let p2 := order2Go lt l p1.2.1 c p1.2.2
  let p3 := order2Go lt l p1.1 p2.1 p2.2.2
  (p3.2.1, p3.2.2)

/-- medianAdjacent_func: median of the element and its two neighbours. -/
def medianAdjacentGo (lt : α → α → Bool) (l : List α) (a swaps : Nat) : Nat × Nat :=
  medianGo lt l (a - 1) a (a + 1) swaps

/-- The hints choosePivot_func can return. -/
inductive SortHint where
  | unknown
  | increasing
  | decreasing
deriving DecidableEq, Repr

/-- choosePivot_func: pivot index via (approximate) median, plus a sortedness
hint derived from the number of comparator inversions seen. -/
def choosePivotGo (lt : α → α → Bool) (l : List α) (a b : Nat) : Nat × SortHint :=
  let len := b - a
  let i0 := a + len / 4 * 1
  let j0 := a + len / 4 * 2
  let k0 := a + len / 4 * 3
  let js : Nat × Nat :=
    if 8 ≤ len then
      if 50 ≤ len then
        let mi := medianAdjacentGo lt l i0 0
        let mj := medianAdjacentGo lt l j0 mi.2
        let mk := medianAdjacentGo lt l k0 mj.2
        medianGo lt l mi.1 mj.1 mk.1 mk.2
      else
        medianGo lt l i0 j0 k0 0
    else (j0, 0)
  let hint := if js.2 = 0 then SortHint.increasing
    else if js.2 = 12 then SortHint.decreasing
    else SortHint.unknown
  (js.1, hint)

/-- First inner loop of partialInsertionSort_func: advance i while the element
at i is not less than its left neighbour. -/
def advanceWhileOrdered (lt : α → α → Bool) (l : List α) (b i : Nat) : Nat :=
  if i < b ∧ lessAt lt l i (i - 1) = false then advanceWhileOrdered lt l b (i + 1) else i
termination_by b - i
decreasing_by omega

/-- Left-shift loop of partialInsertionSort_func. -/
def shiftLeftLoop (lt : α → α → Bool) (l : List α) (j : Nat) : List α :=
  if 1 ≤ j then
    if lessAt lt l j (j - 1) then shiftLeftLoop lt (swapL l j (j - 1)) (j - 1) else l
  else l
termination_by j
decreasing_by omega

/-- Right-shift loop of partialInsertionSort_func. -/
def shiftRightLoop (lt : α → α → Bool) (b : Nat) (l : List α) (j : Nat) : List α :=
  if j < b then
    if lessAt lt l j (j - 1) then shiftRightLoop lt b (swapL l j (j - 1)) (j + 1) else l
  else l
termination_by b - j
decreasing_by omega

/-- Step loop of partialInsertionSort_func, at most maxSteps = 5 rounds; returns
whether the range ended fully sorted, together with the (possibly mutated)
sequence. -/
def maybeInsStep (lt : α → α → Bool) (a b : Nat) (l : List α) (i steps : Nat) :
    Bool × List α :=
  if steps = 0 then (false, l)
  else
    let i := advanceWhileOrdered lt l b i
    if i = b then (true, l)
    else if b - a < 50 then (false, l)
    else
      let l := swapL l i (i - 1)
      let l := if 2 ≤ i - a then shiftLeftLoop lt l (i - 1) else l
      let l := if 2 ≤ b - i then shiftRightLoop lt b l (i + 1) else l
      maybeInsStep lt a b l i (steps - 1)
termination_by steps
decreasing_by omega

/-- partialInsertionSort_func: partially sorts a nearly-sorted range, reporting
whether it finished. -/
def maybeInsertionSortGo (lt : α → α → Bool) (l : List α) (a b : Nat) : Bool × List α :=
  maybeInsStep lt a b l (a + 1) 5

/-- First scan of partition_func: advance i over elements less than the pivot
stored at index a. -/
def partScanRight (lt : α → α → Bool) (l : List α) (a i j : Nat) : Nat :=
  if i ≤ j ∧ lessAt lt l i a = true then partScanRight lt l a (i + 1) j else i
termination_by (j + 1) - i
decreasing_by omega

/-- Second scan of partition_func: retreat j over elements not less than the
pivot stored at index a. -/
def partScanLeft (lt : α → α → Bool) (l : List α) (a i j : Nat) : Nat :=
  if j = 0 then 0
  else if i ≤ j ∧ lessAt lt l j a = false then partScanLeft lt l a i (j - 1) else j
termination_by j
decreasing_by omega

/-- Main loop of partition_func after the first crossing swap. -/
def partitionLoop (lt : α → α → Bool) (a : Nat) (l : List α) (i j fuel : Nat) :
    Nat × List α :=
  if fuel = 0 then (j, l)
  else
    let i := partScanRight lt l a i j
    let j := partScanLeft lt l a i j
    if j < i then (j, l)
    else partitionLoop lt a (swapL l i j) (i + 1) (j - 1) (fuel - 1)
termination_by fuel
decreasing_by omega

/-- partition_func: Hoare-style partition around the pivot, which is first
swapped to index a; returns the final pivot position, whether the range was
already partitioned, and the permuted sequence. -/
def partitionGo (lt : α → α → Bool) (l : List α) (a b pivot : Nat) :
    Nat × Bool × List α :=
  let l := swapL l a pivot
  let i := a + 1
  let j := b - 1
  let i := partScanRight lt l a i j
  let j := partScanLeft lt l a i j
  if j < i then (j, true, swapL l j a)
  else
    let l := swapL l i j
    let r := partitionLoop lt a l (i + 1) (j - 1) b
    (r.1, false, swapL r.2 r.1 a)

/-- First scan of partitionEqual_func: advance i over elements equal to the
pivot (pivot not less than element). -/
def partEqScanRight (lt : α → α → Bool) (l : List α) (a i j : Nat) : Nat :=
  if i ≤ j ∧ lessAt lt l a i = false then partEqScanRight lt l a (i + 1) j else i
termination_by (j + 1) - i
decreasing_by omega

/-- Second scan of partitionEqual_func: retreat j over elements greater than
the pivot. -/
def partEqScanLeft (lt : α → α → Bool) (l : List α) (a i j : Nat) : Nat :=
  if j = 0 then 0
  else if i ≤ j ∧ lessAt lt l a j = true then partEqScanLeft lt l a i (j - 1) else j
termination_by j
decreasing_by omega

/-- Main loop of partitionEqual_func. -/
def partitionEqualLoop (lt : α → α → Bool) (a : Nat) (l : List α) (i j fuel : Nat) :
    Nat × List α :=
  if fuel = 0 then (i, l)
  else
    let i := partEqScanRight lt l a i j
    let j := partEqScanLeft lt l a i j
    if j < i then (i, l)
    else partitionEqualLoop lt a (swapL l i j) (i + 1) (j - 1) (fuel - 1)
termination_by fuel
decreasing_by omega

/-- partitionEqual_func: skips over elements equal to the pivot, returning the
first index past the equal run. -/
def partitionEqualGo (lt : α → α → Bool) (l : List α) (a b pivot : Nat) :
    Nat × List α :=
  let l := swapL l a pivot
  partitionEqualLoop lt a l (a + 1) (b - 1) b

/-- bits.Len for the pdqsort depth limit. -/
def bitsLen (n : Nat) : Nat :=
  if n = 0 then 0 else Nat.log2 n + 1

/-- One xorshift step of sort's deterministic pattern-breaking randomness,
on 64-bit words. -/
def xorshiftNext (r : Nat) : Nat :=
  let r := (r ^^^ (r <<< 13)) % 2 ^ 64
  let r := (r ^^^ (r >>> 7)) % 2 ^ 64
  (r ^^^ (r <<< 17)) % 2 ^ 64

/-- breakPatterns_func: swap three elements around the midpoint with
pseudo-random partners (xorshift seeded with the range length). -/
def breakPatternsGo (l : List α) (a b : Nat) : List α :=
  let len := b - a
  if 8 ≤ len then
    let r1 := xorshiftNext len
    let r2 := xorshiftNext r1
    let r3 := xorshiftNext r2
    let modulus := 2 ^ bitsLen len
    let idx := a + len / 4 * 2 - 1
    let pick := fun (rv : Nat) =>
      let other := rv % modulus
      if len ≤ other then other - len else other
    let l := swapL l (idx - 1) (a + pick r1)
    let l := swapL l idx (a + pick r2)
    swapL l (idx + 1) (a + pick r3)
  else l

/-- pdqsort_func: the Go 1.21 sort.Slice algorithm. The loop continuation and
the recursive call on the shorter side both consume one unit of fuel; the fuel
given by sortSliceGo exceeds any chain the algorithm can perform. -/
def pdqsortGo (lt : α → α → Bool) (fuel : Nat) (l : List α)
    (a b limit : Nat) (wasBalanced wasPartitioned : Bool) : List α :=
  if hf : fuel = 0 then l
  else
    let length := b - a
    if length ≤ 12 then insertionSortGo lt l a b
    else if limit = 0 then heapSortGo lt l a b
    else
      let l := if wasBalanced then l else breakPatternsGo l a b
      let limit := if wasBalanced then limit else limit - 1
      let pv := choosePivotGo lt l a b
      let l2 := if pv.2 = SortHint.decreasing then reverseRangeGo l a b else l
      let pivot := if pv.2 = SortHint.decreasing then (b - 1) - (pv.1 - a) else pv.1
      let hint := if pv.2 = SortHint.decreasing then SortHint.increasing else pv.2
      let rest := fun (l3 : List α) =>
        if 0 < a ∧ lessAt lt l3 (a - 1) pivot = false then
          let pe := partitionEqualGo lt l3 a b pivot
          pdqsortGo lt (fuel - 1) pe.2 pe.1 b limit wasBalanced wasPartitioned
        else
          let pr := partitionGo lt l3 a b pivot
          let mid := pr.1
          let alreadyPartitioned := pr.2.1
          let l4 := pr.2.2
          let leftLen := mid - a
          let rightLen := b - mid
          let balanceThreshold := length / 8
          let wasBalanced2 := decide (balanceThreshold ≤ min leftLen rightLen)
          if leftLen < rightLen then
            let l5 := pdqsortGo lt (fuel - 1) l4 a mid limit true true
            pdqsortGo lt (fuel - 1) l5 (mid + 1) b limit wasBalanced2 alreadyPartitioned
          else
            let l5 := pdqsortGo lt (fuel - 1) l4 (mid + 1) b limit true true
            pdqsortGo lt (fuel - 1) l5 a mid limit wasBalanced2 alreadyPartitioned
      if wasBalanced = true ∧ wasPartitioned = true ∧ hint = SortHint.increasing then
        let ms := maybeInsertionSortGo lt l2 a b
        if ms.1 then ms.2 else rest ms.2
      else rest l2
termination_by fuel
decreasing_by all_goals omega

/-- sort.Slice: pdqsort over the whole sequence with depth limit bits.Len. -/
def sortSliceGo (lt : α → α → Bool) (l : List α) : List α :=
  pdqsortGo lt (2 * l.length + 2) l 0 l.length (bitsLen l.length) true true

/-- sortProvidersByScore: sort.Slice with the weighted-score comparator. -/
def sortProvidersByScore (providers : List Provider) : List Provider :=
  sortSliceGo scoreLess providers

/-- The final truncation of FindBestProviders: keep at most maxProviders. -/
def limitProviders (maxProviders : Nat) (providers : List Provider) : List Provider :=
  if maxProviders < providers.length then providers.take maxProviders else providers

/-- FindBestProviders of the ProviderMatcher. The provider-directory call is
abstracted as the function find taking location, radius and service type; the
returned list also carries the radii actually queried, in order. -/
def FindBestProviders (find : Location → ℚ → String → Except String (List Provider))
    (order : Order) (maxProviders : Nat) : Except String (List Provider × List ℚ) :=
  let serviceType := orderTypeToServiceType order.OrderType
  let location := order.PickupLocation
  match find location 5 serviceType with
  | .error e => .error e
  | .ok providers =>
    let widened : Except String (List Provider × List ℚ) :=
      if providers.length < maxProviders then
        match find location 10 serviceType with
        | .error e => .error e
        | .ok providers2 => .ok (providers2, [5, 10])
      else .ok (providers, [5])
    match widened with
    | .error e => .error e
    | .ok pr => .ok (limitProviders maxProviders (sortProvidersByScore pr.1), pr.2)

/-- ProviderMatcher.AssignProvider: set the provider and append a
PROVIDER_ASSIGNED history entry. -/
def ProviderMatcher.AssignProvider (order : Order) (providerID : String) (now : Nat) : Order :=
  let order := { order with ProviderID := providerID }
  let order := order.AddStatusHistory StatusProviderAssigned "system"
    ("Provider " ++ providerID ++ " assigned") now
  { order with UpdatedAt := now }

/- Repository: services/order/internal/repository/order_repository.go, over a
list-of-rows orders table. -/

namespace OrderRepository

/-- GetOrderByID: first row with the given ID, none for ErrOrderNotFound. -/
def GetOrderByID (store : List Order) (orderID : String) : Option Order :=
  store.find? fun o => o.ID = orderID

/-- UpdateOrder: whole-row UPDATE of the order keyed by its ID, bumping
updated_at; unlike UpdateOrderStatus it runs in no locking transaction. -/
def UpdateOrder (store : List Order) (order : Order) (now : Nat) : List Order :=
  let order := { order with UpdatedAt := now }
  store.map fun x => if x.ID = order.ID then order else x

/-- The read-modify-write body of UpdateOrderStatus, applied to the row the
transaction has locked with SELECT FOR UPDATE: append one history entry and
set the status and updated_at. -/
def updateStatusRow (o : Order) (status : OrderStatus) (updatedBy notes : String)
    (now : Nat) : Order :=
  { o with
    Status := status
    StatusHistory := o.StatusHistory ++
      [{ Status := status, UpdatedBy := updatedBy, Notes := notes, Timestamp := now }]
    UpdatedAt := now }

/-- UpdateOrderStatus: the locked transaction as one atomic store step; the row
with the given ID is read and rewritten with no interleaving possible. -/
def UpdateOrderStatus (store : List Order) (orderID : String) (status : OrderStatus)
    (updatedBy notes : String) (now : Nat) : List Order :=
  store.map fun x => if x.ID = orderID then updateStatusRow x status updatedBy notes now else x

end OrderRepository

/- Service handlers: store-level embeddings of the gRPC methods. Each returns
the response and the resulting orders table; error responses leave the table
untouched, mirroring the handlers returning before any write. -/

namespace OrderService

/-- CreateOrder: validates the request, derives prices and fees, and returns
the freshly built order (its row is appended to the table by the caller). -/
def CreateOrder (req : CreateOrderRequest) (orderID : String) (now : Nat) :
    Except Code Order :=
  if req.UserId = "" then .error .invalidArgument
  else if req.PickupLocation = none ∨ req.DestinationLocation = none then
    .error .invalidArgument
  else
    let order : Order :=
      { ID := orderID
        UserID := req.UserId
        ProviderID := ""
        OrderType := convertOrderType req.OrderType
        Status := StatusCreated
        PickupLocation := convertLocation req.PickupLocation
        DestinationLocation := convertLocation req.DestinationLocation
        Items := convertOrderItems req.Items
        TotalPrice := 0
        PlatformFee := 0
        ProviderFee := 0
        TransactionID := ""
        BlockchainTxHash := ""
        PaymentMethod := convertPaymentMethod req.PaymentMethod
        Notes := req.Notes
        CreatedAt := now
        UpdatedAt := now
        StatusHistory := [] }
    let order := { order with TotalPrice := calculateTotalPrice order.Items }
    let order := order.CalculateFees
    let order := { order with StatusHistory :=
      [{ Status := StatusCreated, UpdatedBy := "system", Notes := "Order created",
         Timestamp := now }] }
    .ok order

/-- UpdateOrderStatus handler: fetch, run the locked status transaction, then
re-fetch and return the updated order. -/
def UpdateOrderStatus (store : List Order) (orderID : String) (statusRaw : Int)
    (updatedBy notes : String) (now : Nat) : Except Code Order × List Order :=
  if orderID = "" then (.error .invalidArgument, store)
  else
    match OrderRepository.GetOrderByID store orderID with
    | none => (.error .notFound, store)
    | some _ =>
      let newStatus := convertOrderStatusFromProto statusRaw
      let store2 := OrderRepository.UpdateOrderStatus store orderID newStatus updatedBy notes now
      match OrderRepository.GetOrderByID store2 orderID with
      | none => (.error .internal, store2)
      | some updated => (.ok updated, store2)

/-- CancelOrder handler: NotFound when absent, FailedPrecondition on a terminal
status, otherwise the locked status transaction to CANCELLED with the supplied
actor and reason. -/
def CancelOrder (store : List Order) (orderID cancelledBy reason : String) (now : Nat) :
    Except Code Order × List Order :=
  if orderID = "" then (.error .invalidArgument, store)
  else
    match OrderRepository.GetOrderByID store orderID with
    | none => (.error .notFound, store)
    | some order =>
      if order.Status = StatusCompleted ∨ order.Status = StatusCancelled ∨
          order.Status = StatusRefunded then
        (.error .failedPrecondition, store)
      else
        let store2 := OrderRepository.UpdateOrderStatus store orderID StatusCancelled
          cancelledBy reason now
        match OrderRepository.GetOrderByID store2 orderID with
        | none => (.error .internal, store2)
        | some updated => (.ok updated, store2)

/-- The in-memory part of AcceptOrder once the order has been read: permission
check against the assigned provider, then a PROVIDER_ACCEPTED history entry. -/
def AcceptOrderLocal (order : Order) (providerID : String) (now : Nat) :
    Except Code Order :=
  if order.ProviderID ≠ providerID then .error .permissionDenied
  else .ok (order.AddStatusHistory StatusProviderAccepted providerID
    "Provider accepted the order" now)

/-- AcceptOrder handler: GetOrderByID, the local transition, then a plain
UpdateOrder write of the locally modified copy (no locking transaction). -/
def AcceptOrder (store : List Order) (orderID providerID : String) (now : Nat) :
    Except Code Order × List Order :=
  if orderID = "" ∨ providerID = "" then (.error .invalidArgument, store)
  else
    match OrderRepository.GetOrderByID store orderID with
    | none => (.error .notFound, store)
    | some order =>
      match AcceptOrderLocal order providerID now with
      | .error c => (.error c, store)
      | .ok updated => (.ok updated, OrderRepository.UpdateOrder store updated now)

/-- The in-memory part of RejectOrder once the order has been read: permission
check, a PROVIDER_REJECTED history entry, and the provider ID cleared to allow
reassignment. -/
def RejectOrderLocal (order : Order) (providerID reason : String) (now : Nat) :
    Except Code Order :=
  if order.ProviderID ≠ providerID then .error .permissionDenied
  else
    let order := order.AddStatusHistory StatusProviderRejected providerID reason now
    .ok { order with ProviderID := "" }

/-- RejectOrder handler: GetOrderByID, the local transition, then a plain
UpdateOrder write (no locking transaction); the asynchronous rematch runs
after the response and is not part of the synchronous result. -/
def RejectOrder (store : List Order) (orderID providerID reason : String) (now : Nat) :
    Except Code Order × List Order :=
  if orderID = "" ∨ providerID = "" then (.error .invalidArgument, store)
  else
    match OrderRepository.GetOrderByID store orderID with
    | none => (.error .notFound, store)
    | some order =>
      match RejectOrderLocal order providerID reason now with
      | .error c => (.error c, store)
      | .ok updated => (.ok updated, OrderRepository.UpdateOrder store updated now)

/-- AssignProvider handler; the matcher result is passed in as the list of
matched providers. A non-empty request provider ID is a manual override;
otherwise the first matched provider is selected, and an empty match list is
NotFound. The final write is a plain UpdateOrder (no locking transaction). -/
def AssignProvider (store : List Order) (orderID reqProviderID : String)
    (matched : List Provider) (now : Nat) : Except Code Order × List Order :=
  if orderID = "" then (.error .invalidArgument, store)
  else
    match OrderRepository.GetOrderByID store orderID with
    | none => (.error .notFound, store)
    | some order =>
      let selected : Except Code String :=
        if reqProviderID ≠ "" then .ok reqProviderID
        else
          match matched with
          | [] => .error .notFound
          | p :: _ => .ok p.ID
      match selected with
      | .error c => (.error c, store)
      | .ok pid =>
        let updated := ProviderMatcher.AssignProvider order pid now
        (.ok updated, OrderRepository.UpdateOrder store updated now)

end OrderService

/- Concurrency model for the status-mutation claims: a handler's interaction
with the store is its sequence of store calls. UpdateOrderStatus is one atomic
step (the row is locked for the whole read-modify-write); AcceptOrder,
RejectOrder and AssignProvider's final write are a GetOrderByID followed by an
independent UpdateOrder, so two such handlers can both read before either
writes. The executions below follow the read-read-write-write schedule. -/

/-- Two concurrent AcceptOrder calls on the same order under the
read-read-write-write schedule: both GetOrderByID reads see the initial table,
then the two UpdateOrder writes land in order. Returns both responses and the
final table. -/
def acceptInterleavedRRWW (store : List Order) (orderID pid1 pid2 : String)
    (now1 now2 : Nat) : (Except Code Order × Except Code Order) × List Order :=
  match OrderRepository.GetOrderByID store orderID with
  | none => ((.error .notFound, .error .notFound), store)
  | some order =>
    let r1 := OrderService.AcceptOrderLocal order pid1 now1
    let r2 := OrderService.AcceptOrderLocal order pid2 now2
    let store := match r1 with
      | .ok o1 => OrderRepository.UpdateOrder store o1 now1
      | .error _ => store
    let store := match r2 with
      | .ok o2 => OrderRepository.UpdateOrder store o2 now2
      | .error _ => store
    ((r1, r2), store)

/-- Two concurrent automatic AssignProvider final writes on the same order
under the read-read-write-write schedule. -/
def assignInterleavedRRWW (store : List Order) (orderID pid1 pid2 : String)
    (now1 now2 : Nat) : List Order :=
  match OrderRepository.GetOrderByID store orderID with
  | none => store
  | some order =>
    let o1 := ProviderMatcher.AssignProvider order pid1 now1
    let o2 := ProviderMatcher.AssignProvider order pid2 now2
    let store := OrderRepository.UpdateOrder store o1 now1
    OrderRepository.UpdateOrder store o2 now2

/- List queries: services/order/internal/repository, ListUserOrders and
ListProviderOrders. The SQL is modelled on the rows list: WHERE filter,
COUNT before pagination, ORDER BY created_at DESC, OFFSET and LIMIT. -/

/-- The WHERE clause of ListUserOrders: user match plus the optional exact
status filter (empty status means no filter, as in Go). -/
def matchesUser (userID : String) (status : OrderStatus) (o : Order) : Bool :=
  o.UserID = userID && (status = "" || o.Status = status)

/-- The WHERE clause of ListProviderOrders. -/
def matchesProvider (providerID : String) (status : OrderStatus) (o : Order) : Bool :=
  o.ProviderID = providerID && (status = "" || o.Status = status)

/-- ORDER BY created_at DESC. -/
def sortByCreatedAtDesc (orders : List Order) : List Order :=
  orders.mergeSort fun x y => decide (y.CreatedAt ≤ x.CreatedAt)

/-- Page normalization of the list queries: pages below 1 become 1. -/
def normalizePage (page : Int) : Int :=
  if page < 1 then 1 else page

/-- Limit normalization of the list queries: limits outside 1..100 become the
default 10. -/
def normalizeLimit (limit : Int) : Int :=
  if limit < 1 ∨ limit > 100 then 10 else limit

/-- ListUserOrders: the page of matching orders by creation time descending,
plus the total matching count. -/
def ListUserOrders (store : List Order) (userID : String) (page limit : Int)
    (status : OrderStatus) : List Order × Nat :=
  let matching := store.filter (matchesUser userID status)
  let total := matching.length
  let page := normalizePage page
  let limit := normalizeLimit limit
  let offset := (page - 1) * limit
  (((sortByCreatedAtDesc matching).drop offset.toNat).take limit.toNat, total)

/-- ListProviderOrders: as ListUserOrders, keyed by provider. -/
def ListProviderOrders (store : List Order) (providerID : String) (page limit : Int)
    (status : OrderStatus) : List Order × Nat :=
  let matching := store.filter (matchesProvider providerID status)
  let total := matching.length
  let page := normalizePage page
  let limit := normalizeLimit limit
  let offset := (page - 1) * limit
  (((sortByCreatedAtDesc matching).drop offset.toNat).take limit.toNat, total)

/- Derived notions used only in theorem statements, plus concrete fixtures. -/

/-- The squared angular difference between a position report and a target,
the quantity estimateArrivalMinutes actually scales. -/
def angularDistSq (location : OrderLocation) (destination : Location) : ℚ :=
  let dLat := destination.Latitude - location.Latitude
  let dLon := destination.Longitude - location.Longitude
  dLat * dLat + dLon * dLon

/-- Modelled from the claim's words, for comparison with providerScore: the
weighted score with BOTH factors clamped into the interval 0 to 1. The code
clamps only the distance factor from above (via the min), so the two differ
for out-of-scale ratings. -/
def clampedScoreSpec (p : Provider) : ℚ :=
  0.7 * min (max (1 - min (p.Distance / 10) 1) 0) 1 + 0.3 * min (max (p.Rating / 5) 0) 1

/-- A location fixture. -/
def exLoc (name : String) (lat lon : ℚ) : Location :=
  { Latitude := lat, Longitude := lon, Address := name, PostalCode := "", City := "",
    Country := "", AdditionalInfo := [] }

/-- A provider fixture at a given distance and rating. -/
def exProvider (id : String) (distance rating : ℚ) : Provider :=
  { ID := id, Name := id, Rating := rating, ServiceTypes := ["ride"],
    Location := exLoc id 0 0, IsAvailable := true, Distance := distance }

/-- The creation request of the concrete pricing scenario: two items of price
10 quantity 2 and price 5 quantity 1. -/
def exCreateReq : CreateOrderRequest :=
  { UserId := "user-1"
    OrderType := 1
    PickupLocation := some (exLoc "pickup" 1 2)
    DestinationLocation := some (exLoc "dest" 3 4)
    Items :=
      [{ ItemId := "i1", Name := "first", Quantity := 2, Price := 10, Properties := [] },
       { ItemId := "i2", Name := "second", Quantity := 1, Price := 5, Properties := [] }]
    PaymentMethod := 1
    Notes := "" }

/-- An order fixture with an assigned provider and a two-entry history. -/
def exAssigned : Order :=
  { ID := "order-1"
    UserID := "user-1"
    ProviderID := "prov-1"
    OrderType := TypeRide
    Status := StatusProviderAssigned
    PickupLocation := exLoc "pickup" 1 2
    DestinationLocation := exLoc "dest" 3 4
    Items := []
    TotalPrice := 25
    PlatformFee := 2.5
    ProviderFee := 20
    TransactionID := ""
    BlockchainTxHash := ""
    PaymentMethod := PaymentCreditCard
    Notes := ""
    CreatedAt := 1
    UpdatedAt := 2
    StatusHistory :=
      [{ Status := StatusCreated, UpdatedBy := "system", Notes := "Order created", Timestamp := 1 },
       { Status := StatusProviderAssigned, UpdatedBy := "system", Notes := "Provider prov-1 assigned", Timestamp := 2 }]
  }

/-- Thirteen providers, all at distance 0 and with ratings on the 0 to 5
scale, three of which tie at rating 3; the list is large enough that
sort.Slice leaves its insertion-sort path. The tied providers enter in the
order pa, pb, pc. -/
def exTieProviders : List Provider :=
  [exProvider "pa" 0 3, exProvider "q01" 0 5, exProvider "q02" 0 4,
   exProvider "pb" 0 3, exProvider "q04" 0 2, exProvider "q05" 0 1,
   exProvider "q06" 0 4, exProvider "q07" 0 5, exProvider "q08" 0 2,
   exProvider "q09" 0 0, exProvider "q10" 0 1, exProvider "pc" 0 3,
   exProvider "q12" 0 0]

/-- The order created from the concrete pricing scenario, written out. -/
def exCreatedOrder : Order :=
  { ID := "order-1", UserID := "user-1", ProviderID := "", OrderType := TypeRide,
    Status := StatusCreated, PickupLocation := exLoc "pickup" 1 2,
    DestinationLocation := exLoc "dest" 3 4,
    Items := [{ ItemID := "i1", Name := "first", Quantity := 2, Price := 10, Properties := [] },
              { ItemID := "i2", Name := "second", Quantity := 1, Price := 5, Properties := [] }],
    TotalPrice := 25, PlatformFee := 2.5, ProviderFee := 20, TransactionID := "",
    BlockchainTxHash := "", PaymentMethod := PaymentCreditCard, Notes := "",
    CreatedAt := 7, UpdatedAt := 7,
    StatusHistory := [{ Status := StatusCreated, UpdatedBy := "system",
                        Notes := "Order created", Timestamp := 7 }] }

/-- A position-report fixture. -/
def exReport (id : String) (lat lon : ℚ) : OrderLocation :=
  { ID := id, OrderID := "order-1", ProviderID := "prov-1", Latitude := lat,
    Longitude := lon, Timestamp := 3 }

/-- A provider-directory fixture: nobody within radius 5, one provider at the
widened radius. -/
def exFind (_loc : Location) (radius : ℚ) (_serviceType : String) :
    Except String (List Provider) :=
  if radius = 5 then .ok [] else .ok [exProvider "pw" 0 ((4 : ℕ) : ℚ)]

/-- Reversed-prefix helper characterizing the insertion-sort inner loop: walk
left (through the reversed prefix) past elements the new one is less than,
then drop in behind the first element it is not less than. -/
def insertRevAux (lt : α → α → Bool) (x : α) : List α → List α
  | [] => [x]
  | y :: ys => if lt x y then y :: insertRevAux lt x ys else x :: y :: ys

/-- The insertion-sort inner loop's effect on the prefix before index j: the
new element bubbles left from the right end, so ties keep it to the right. -/
def insertRight (lt : α → α → Bool) (p : List α) (x : α) : List α :=
  (insertRevAux lt x p.reverse).reverse

/-- The functional reading of Go's insertionSort_func on a whole list. -/
def insertSortedRight (lt : α → α → Bool) (l : List α) : List α :=
  l.foldl (insertRight lt) []

/- Proof-support predicates for the sortedness verification of sort.Slice. -/

/-- The footprint of one in-place pass over the index range a to b: the result
is a permutation of the input, indices outside the range are untouched, and any
property shared by all values stored in the range is preserved. -/
def RangeOp (l l' : List α) (a b : Nat) : Prop :=
  l'.Perm l ∧
  (∀ i, i < a ∨ b ≤ i → l'.get? i = l.get? i) ∧
  ∀ P : α → Prop, (∀ k x, a ≤ k → k < b → l.get? k = some x → P x) →
    ∀ k x, a ≤ k → k < b → l'.get? k = some x → P x

/-- The index range a to b of l is sorted: no later element is less than an
earlier one. -/
def SortedRange (lt : α → α → Bool) (l : List α) (a b : Nat) : Prop :=
  ∀ i j x y, a ≤ i → i < j → j < b → l.get? i = some x → l.get? j = some y →
    lt y x = false

/-- Membership of k in the subtree rooted at root in the implicit binary-heap
layout, where the parent of k is (k-1)/2. -/
def isDesc (root k : Nat) : Bool :=
  if k < root then false
  else if k = root then true
  else isDesc root ((k - 1) / 2)
termination_by k
decreasing_by omega

/-- What one siftDown pass guarantees: a permutation, positions outside the
subtree untouched, any property of the subtree values preserved, and the heap
property at and below the root. -/
def SiftDownConcl (lt : α → α → Bool) (l l' : List α) (first hi root : Nat) : Prop :=
  l'.Perm l ∧
  (∀ i, (∀ k, isDesc root k = true → k < hi → i ≠ first + k) →
    l'.get? i = l.get? i) ∧
  (∀ (P : α → Prop), (∀ k x, isDesc root k = true → k < hi →
      l.get? (first + k) = some x → P x) →
    ∀ k x, isDesc root k = true → k < hi → l'.get? (first + k) = some x → P x) ∧
  (∀ r c x y, root ≤ r → c < hi → (c = 2 * r + 1 ∨ c = 2 * r + 2) →
    l'.get? (first + r) = some x → l'.get? (first + c) = some y → lt x y = false)

/- Theorems. -/

/- Generic facts about get?, set and swapL used by the sortedness proof. -/

theorem get?_some_lt {l : List α} {i : Nat} {x : α} (h : l.get? i = some x) :
    i < l.length := by
  by_contra hc
  rw [List.get?_eq_none.2 (by omega)] at h
  exact Option.noConfusion h

theorem exists_get?_eq {l : List α} {i : Nat} (h : i < l.length) :
    ∃ x, l.get? i = some x := by
  rw [List.get?_eq_get h]
  exact ⟨_, rfl⟩

theorem set_get?_self {l : List α} {i : Nat} {x : α} (hx : l.get? i = some x) :
    l.set i x = l := by
  have h : i < l.length := get?_some_lt hx
  apply List.ext_get
  · simp
  intro n h1 h2
  rw [List.get_eq_getElem, List.get_eq_getElem, List.getElem_set]
  rcases eq_or_ne i n with rfl | hne
  · rw [if_pos rfl]
    have h3 := List.get?_eq_get h
    rw [hx] at h3
    have h4 : some ((l.get ⟨i, h⟩ : α)) = some x := h3.symm
    have h5 : (l.get ⟨i, h⟩ : α) = x := Option.some_injective _ h4
    rw [← h5]
    rfl
  · rw [if_neg hne]

theorem swapL_length (l : List α) (i j : Nat) : (swapL l i j).length = l.length := by
  unfold swapL
  split
  · simp
  · rfl

theorem swapL_get?_fst {l : List α} {i j : Nat} {xi xj : α} (hi : l.get? i = some xi)
    (hj : l.get? j = some xj) : (swapL l i j).get? i = some xj := by
  unfold swapL
  rw [hi, hj]
  rcases eq_or_ne j i with rfl | hne
  · rw [List.get?_set_eq_of_lt]
    · have : xi = xj := by rw [hi] at hj; exact Option.some_injective _ hj
      rw [this]
    · simp [get?_some_lt hi]
  · rw [List.get?_set_ne _ _ hne, List.get?_set_eq_of_lt]
    exact get?_some_lt hi

theorem swapL_get?_snd {l : List α} {i j : Nat} {xi xj : α} (hi : l.get? i = some xi)
    (hj : l.get? j = some xj) : (swapL l i j).get? j = some xi := by
  unfold swapL
  rw [hi, hj]
  rw [List.get?_set_eq_of_lt]
  simp [get?_some_lt hj]

theorem swapL_get?_other {l : List α} {i j k : Nat} (hk1 : k ≠ i) (hk2 : k ≠ j) :
    (swapL l i j).get? k = l.get? k := by
  unfold swapL
  split
  · rw [List.get?_set_ne _ _ (Ne.symm hk2), List.get?_set_ne _ _ (Ne.symm hk1)]
  · rfl

theorem set_cons_perm (t : List α) : ∀ (j : Nat) (xj a : α), t.get? j = some xj →
    (xj :: t.set j a).Perm (a :: t) := by
  induction t with
  | nil =>
    intro j xj a h
    rw [List.get?_eq_none.2 (by simp)] at h
    exact Option.noConfusion h
  | cons b t' ih =>
    intro j xj a h
    cases j with
    | zero =>
      simp only [List.get?] at h
      injection h with h
      subst h
      simpa [List.set] using List.Perm.swap a b t'
    | succ j =>
      simp only [List.get?] at h
      simp only [List.set]
      exact ((List.Perm.swap b xj _).trans ((ih j xj a h).cons b)).trans
        (List.Perm.swap a b t')

theorem swap_sets_perm : ∀ (l : List α) (i j : Nat) (xi xj : α),
    l.get? i = some xi → l.get? j = some xj →
    ((l.set i xj).set j xi).Perm l := by
  intro l
  induction l with
  | nil =>
    intro i j xi xj hi _
    rw [List.get?_eq_none.2 (by simp)] at hi
    exact Option.noConfusion hi
  | cons a t ih =>
    intro i j xi xj hi hj
    cases i with
    | zero =>
      simp only [List.get?] at hi
      injection hi with hi
      subst hi
      cases j with
      | zero =>
        simp only [List.get?] at hj
        injection hj with hj
        subst hj
        simp [List.set]
      | succ j =>
        simp only [List.get?] at hj
        simp only [List.set]
        exact set_cons_perm t j xj a hj
    | succ i =>
      cases j with
      | zero =>
        simp only [List.get?] at hi hj
        injection hj with hj
        subst hj
        simp only [List.set]
        exact set_cons_perm t i xi a hi
      | succ j =>
        simp only [List.get?] at hi hj
        simp only [List.set]
        exact (ih i j xi xj hi hj).cons a

theorem swapL_perm (l : List α) (i j : Nat) : (swapL l i j).Perm l := by
  unfold swapL
  split
  next xi xj hi hj => exact swap_sets_perm l i j xi xj hi hj
  next => exact List.Perm.refl l

theorem RangeOp.refl (l : List α) (a b : Nat) : RangeOp l l a b :=
  ⟨List.Perm.refl l, fun _ _ => rfl, fun _ hP => hP⟩

theorem RangeOp.trans {l l' l'' : List α} {a b : Nat} (h1 : RangeOp l l' a b)
    (h2 : RangeOp l' l'' a b) : RangeOp l l'' a b :=
  ⟨h2.1.trans h1.1, fun i hi => (h2.2.1 i hi).trans (h1.2.1 i hi),
   fun P hP => h2.2.2 P (h1.2.2 P hP)⟩

theorem RangeOp.mono {l l' : List α} {a b a' b' : Nat} (h : RangeOp l l' a b)
    (ha : a' ≤ a) (hb : b ≤ b') : RangeOp l l' a' b' := by
  refine ⟨h.1, fun i hi => h.2.1 i (by omega), fun P hP k x hk1 hk2 hx => ?_⟩
  by_cases hin : a ≤ k ∧ k < b
  · exact h.2.2 P (fun m y hm1 hm2 hy => hP m y (by omega) (by omega) hy) k x hin.1 hin.2 hx
  · rw [h.2.1 k (by omega)] at hx
    exact hP k x hk1 hk2 hx

theorem RangeOp.length {l l' : List α} {a b : Nat} (h : RangeOp l l' a b) :
    l'.length = l.length :=
  h.1.length_eq

theorem swapL_rangeOp {l : List α} {a b i j : Nat} (hi1 : a ≤ i) (hi2 : i < b)
    (hj1 : a ≤ j) (hj2 : j < b) (hb : b ≤ l.length) :
    RangeOp l (swapL l i j) a b := by
  obtain ⟨xi, hxi⟩ := exists_get?_eq (l := l) (i := i) (by omega)
  obtain ⟨xj, hxj⟩ := exists_get?_eq (l := l) (i := j) (by omega)
  refine ⟨swapL_perm l i j, fun k hk => swapL_get?_other (by omega) (by omega),
    fun P hP k x hk1 hk2 hx => ?_⟩
  rcases eq_or_ne k i with rfl | hki
  · rw [swapL_get?_fst hxi hxj] at hx
    injection hx with hx
    subst hx
    exact hP j xj hj1 hj2 hxj
  · rcases eq_or_ne k j with rfl | hkj
    · rw [swapL_get?_snd hxi hxj] at hx
      injection hx with hx
      subst hx
      exact hP i xi hi1 hi2 hxi
    · rw [swapL_get?_other hki hkj] at hx
      exact hP k x hk1 hk2 hx

/-- lessAt on in-bounds indices is the comparator on the stored values. -/
theorem lessAt_eq {lt : α → α → Bool} {l : List α} {i j : Nat} {x y : α}
    (hx : l.get? i = some x) (hy : l.get? j = some y) : lessAt lt l i j = lt x y := by
  unfold lessAt
  rw [hx, hy]

theorem sortedRange_vacuous {lt : α → α → Bool} {l : List α} {a b : Nat}
    (h : b ≤ a + 1) : SortedRange lt l a b := by
  intro i j x y hi hij hj _ _
  omega

theorem sortedRange_mono {lt : α → α → Bool} {l : List α} {a b a' b' : Nat}
    (h : SortedRange lt l a b) (ha : a ≤ a') (hb : b' ≤ b) :
    SortedRange lt l a' b' := by
  intro i j x y hi hij hj hx hy
  exact h i j x y (by omega) hij (by omega) hx hy

theorem lt_irrefl_of_asym {lt : α → α → Bool}
    (hasym : ∀ x y, lt x y = true → lt y x = false) (x : α) : lt x x = false := by
  by_cases h : lt x x = true
  · have h2 := hasym x x h
    rw [h] at h2
    exact absurd h2 (by simp)
  · simpa using h

theorem sortedRange_of_adjacent {lt : α → α → Bool}
    (hneg : ∀ x y z, lt x y = false → lt y z = false → lt x z = false)
    {l : List α} {a b : Nat}
    (h : ∀ k x y, a < k → k < b → l.get? (k - 1) = some x → l.get? k = some y →
      lt y x = false) :
    SortedRange lt l a b := by
  have key : ∀ (d i : Nat), ∀ x y, a ≤ i → i + d + 1 < b → l.get? i = some x →
      l.get? (i + d + 1) = some y → lt y x = false := by
    intro d
    induction d with
    | zero =>
      intro i x y hi hb hx hy
      exact h (i + 1) x y (by omega) hb (by simpa using hx) hy
    | succ d ih =>
      intro i x y hi hb hx hy
      obtain ⟨z, hz⟩ := exists_get?_eq (l := l) (i := i + d + 1)
        (by have := get?_some_lt hy; omega)
      have h1 := ih i x z hi (by omega) hx hz
      have h2 := h (i + d + 2) z y (by omega) hb (by simpa using hz) hy
      exact hneg y z x h2 h1
  intro i j x y hi hij hj hx hy
  have hji : i + (j - i - 1) + 1 = j := by omega
  rw [← hji] at hj hy
  exact key (j - i - 1) i x y hi hj hx hy

theorem partScanRight_spec (lt : α → α → Bool) (l : List α) (a i j : Nat) :
    i ≤ partScanRight lt l a i j ∧ partScanRight lt l a i j ≤ max i (j + 1) ∧
      (∀ k, i ≤ k → k < partScanRight lt l a i j → lessAt lt l k a = true) ∧
      (partScanRight lt l a i j ≤ j → lessAt lt l (partScanRight lt l a i j) a = false) := by
  unfold partScanRight
  by_cases h : i ≤ j ∧ lessAt lt l i a = true
  · obtain ⟨h1, h2⟩ := h
    rw [if_pos ⟨h1, h2⟩]
    have ih := partScanRight_spec lt l a (i + 1) j
    refine ⟨by omega, by omega, fun k hk1 hk2 => ?_, ih.2.2.2⟩
    rcases eq_or_ne k i with rfl | hne
    · exact h2
    · exact ih.2.2.1 k (by omega) hk2
  · rw [if_neg h]
    refine ⟨le_refl i, by omega, fun k hk1 hk2 => by omega, fun hij => ?_⟩
    rcases Bool.eq_false_or_eq_true (lessAt lt l i a) with ht | hf
    · exact absurd ⟨hij, ht⟩ h
    · exact hf
termination_by (j + 1) - i
decreasing_by omega

theorem partScanLeft_spec (lt : α → α → Bool) (l : List α) (a i j : Nat) :
    partScanLeft lt l a i j ≤ j ∧
      (i - 1 ≤ j → i - 1 ≤ partScanLeft lt l a i j) ∧
      (∀ k, partScanLeft lt l a i j < k → k ≤ j → lessAt lt l k a = false) ∧
      (1 ≤ i → i ≤ partScanLeft lt l a i j →
        lessAt lt l (partScanLeft lt l a i j) a = true) ∧
      (j < i → partScanLeft lt l a i j = j) := by
  unfold partScanLeft
  by_cases h0 : j = 0
  · subst h0
    rw [if_pos rfl]
    exact ⟨le_refl 0, by omega, fun k hk1 hk2 => by omega, fun hi1 hi2 => by omega,
      fun _ => rfl⟩
  · rw [if_neg h0]
    by_cases h : i ≤ j ∧ lessAt lt l j a = false
    · obtain ⟨h1, h2⟩ := h
      rw [if_pos ⟨h1, h2⟩]
      have ih := partScanLeft_spec lt l a i (j - 1)
      refine ⟨by omega, fun hj => ih.2.1 (by omega), fun k hk1 hk2 => ?_, ih.2.2.2.1,
        fun hji => absurd h1 (by omega)⟩
      rcases eq_or_ne k j with rfl | hne
      · exact h2
      · exact ih.2.2.1 k hk1 (by omega)
    · rw [if_neg h]
      refine ⟨le_refl j, by omega, fun k hk1 hk2 => by omega, fun hi1 hij => ?_,
        fun _ => rfl⟩
      rcases Bool.eq_false_or_eq_true (lessAt lt l j a) with ht | hf
      · exact ht
      · exact absurd ⟨hij, hf⟩ h
termination_by j
decreasing_by omega

theorem partEqScanRight_spec (lt : α → α → Bool) (l : List α) (a i j : Nat) :
    i ≤ partEqScanRight lt l a i j ∧ partEqScanRight lt l a i j ≤ max i (j + 1) ∧
      (∀ k, i ≤ k → k < partEqScanRight lt l a i j → lessAt lt l a k = false) ∧
      (partEqScanRight lt l a i j ≤ j →
        lessAt lt l a (partEqScanRight lt l a i j) = true) := by
  unfold partEqScanRight
  by_cases h : i ≤ j ∧ lessAt lt l a i = false
  · obtain ⟨h1, h2⟩ := h
    rw [if_pos ⟨h1, h2⟩]
    have ih := partEqScanRight_spec lt l a (i + 1) j
    refine ⟨by omega, by omega, fun k hk1 hk2 => ?_, ih.2.2.2⟩
    rcases eq_or_ne k i with rfl | hne
    · exact h2
    · exact ih.2.2.1 k (by omega) hk2
  · rw [if_neg h]
    refine ⟨le_refl i, by omega, fun k hk1 hk2 => by omega, fun hij => ?_⟩
    rcases Bool.eq_false_or_eq_true (lessAt lt l a i) with ht | hf
    · exact ht
    · exact absurd ⟨hij, hf⟩ h
termination_by (j + 1) - i
decreasing_by omega

theorem partEqScanLeft_spec (lt : α → α → Bool) (l : List α) (a i j : Nat) :
    partEqScanLeft lt l a i j ≤ j ∧
      (i - 1 ≤ j → i - 1 ≤ partEqScanLeft lt l a i j) ∧
      (∀ k, partEqScanLeft lt l a i j < k → k ≤ j → lessAt lt l a k = true) ∧
      (1 ≤ i → i ≤ partEqScanLeft lt l a i j →
        lessAt lt l a (partEqScanLeft lt l a i j) = false) := by
  unfold partEqScanLeft
  by_cases h0 : j = 0
  · subst h0
    rw [if_pos rfl]
    exact ⟨le_refl 0, by omega, fun k hk1 hk2 => by omega, fun hi1 hi2 => by omega⟩
  · rw [if_neg h0]
    by_cases h : i ≤ j ∧ lessAt lt l a j = true
    · obtain ⟨h1, h2⟩ := h
      rw [if_pos ⟨h1, h2⟩]
      have ih := partEqScanLeft_spec lt l a i (j - 1)
      refine ⟨by omega, fun hj => ih.2.1 (by omega), fun k hk1 hk2 => ?_, ih.2.2.2⟩
      rcases eq_or_ne k j with rfl | hne
      · exact h2
      · exact ih.2.2.1 k hk1 (by omega)
    · rw [if_neg h]
      refine ⟨le_refl j, by omega, fun k hk1 hk2 => by omega, fun hi1 hij => ?_⟩
      rcases Bool.eq_false_or_eq_true (lessAt lt l a j) with ht | hf
      · exact absurd ⟨hij, ht⟩ h
      · exact hf
termination_by j
decreasing_by omega

theorem sortedRange_congr {lt : α → α → Bool} {l l' : List α} {a b : Nat}
    (h : ∀ i, a ≤ i → i < b → l'.get? i = l.get? i)
    (hs : SortedRange lt l a b) : SortedRange lt l' a b := by
  intro i j x y hi hij hj hx hy
  refine hs i j x y hi hij hj ?_ ?_
  · rw [← h i hi (by omega)]
    exact hx
  · rw [← h j (by omega) hj]
    exact hy

theorem sortedRange_snoc {lt : α → α → Bool} {l : List α} {a j : Nat}
    (hs : SortedRange lt l a j)
    (htop : ∀ i x y, a ≤ i → i < j → l.get? i = some x → l.get? j = some y →
      lt y x = false) :
    SortedRange lt l a (j + 1) := by
  intro i j' x y hi hij hj' hx hy
  rcases eq_or_ne j' j with rfl | hne
  · exact htop i x y hi hij hx hy
  · exact hs i j' x y hi hij (by omega) hx hy

theorem insertionSortInner_rangeSpec {lt : α → α → Bool}
    (hasym : ∀ x y, lt x y = true → lt y x = false)
    (hneg : ∀ x y z, lt x y = false → lt y z = false → lt x z = false)
    (l : List α) (a b j : Nat)
    (hb : b ≤ l.length) (hj1 : a ≤ j) (hj2 : j < b)
    (hsorted : SortedRange lt l a j) :
    RangeOp l (insertionSortInner lt a l j) a (j + 1) ∧
      SortedRange lt (insertionSortInner lt a l j) a (j + 1) := by
  unfold insertionSortInner
  by_cases haj : a < j
  · rw [if_pos haj]
    obtain ⟨y, hy⟩ := exists_get?_eq (l := l) (i := j) (by omega)
    obtain ⟨z, hz⟩ := exists_get?_eq (l := l) (i := j - 1) (by omega)
    by_cases hless : lessAt lt l j (j - 1) = true
    · rw [if_pos hless]
      have hlt : lt y z = true := by rw [lessAt_eq hy hz] at hless; exact hless
      have hswap : RangeOp l (swapL l j (j - 1)) a (j + 1) :=
        swapL_rangeOp (by omega) (by omega) (by omega) (by omega) (by omega)
      have hsorted2 : SortedRange lt (swapL l j (j - 1)) a (j - 1) := by
        refine sortedRange_congr (fun i hi1 hi2 => ?_) (sortedRange_mono hsorted le_rfl (by omega))
        exact swapL_get?_other (by omega) (by omega)
      have ih := insertionSortInner_rangeSpec hasym hneg (swapL l j (j - 1)) a b (j - 1)
        (by rw [swapL_length]; exact hb) (by omega) (by omega) hsorted2
      refine ⟨hswap.trans (ih.1.mono le_rfl (by omega)), ?_⟩
      have hjval : (insertionSortInner lt a (swapL l j (j - 1)) (j - 1)).get? j = some z := by
        rw [ih.1.2.1 j (by omega), swapL_get?_fst hy hz]
      refine sortedRange_snoc (sortedRange_mono ih.2 le_rfl (by omega)) ?_
      intro i x y' hi hij hx hy'
      rw [hjval] at hy'
      injection hy' with hy'
      subst hy'
      refine ih.1.2.2 (fun v => lt z v = false) ?_ i x hi (by omega) hx
      intro k v hk1 hk2 hv
      rcases eq_or_ne k (j - 1) with rfl | hne
      · rw [swapL_get?_snd hy hz] at hv
        injection hv with hv
        subst hv
        exact hasym _ _ hlt
      · rw [swapL_get?_other (by omega) hne] at hv
        exact hsorted k (j - 1) v z hk1 (by omega) (by omega) hv hz
    · rw [if_neg hless]
      refine ⟨RangeOp.refl l a (j + 1), sortedRange_snoc hsorted ?_⟩
      intro i x y' hi hij hx hy'
      rw [hy] at hy'
      injection hy' with hy'
      subst hy'
      have hyz : lt y z = false := by
        rw [lessAt_eq hy hz] at hless
        simpa using hless
      rcases eq_or_ne i (j - 1) with rfl | hne
      · rw [hz] at hx
        injection hx with hx
        subst hx
        exact hyz
      · have hzx := hsorted i (j - 1) x z hi (by omega) (by omega) hx hz
        exact hneg y z x hyz hzx
  · rw [if_neg haj]
    exact ⟨RangeOp.refl l a (j + 1), sortedRange_vacuous (by omega)⟩
termination_by j
decreasing_by omega

theorem insertionSortOuter_rangeSpec {lt : α → α → Bool}
    (hasym : ∀ x y, lt x y = true → lt y x = false)
    (hneg : ∀ x y z, lt x y = false → lt y z = false → lt x z = false)
    (l : List α) (a b i : Nat)
    (hb : b ≤ l.length) (hi : a ≤ i) (hsorted : SortedRange lt l a i) :
    RangeOp l (insertionSortOuter lt a b l i) a b ∧
      SortedRange lt (insertionSortOuter lt a b l i) a b := by
  unfold insertionSortOuter
  by_cases hib : i < b
  · rw [if_pos hib]
    have hinner := insertionSortInner_rangeSpec hasym hneg l a b i hb hi hib hsorted
    have ih := insertionSortOuter_rangeSpec hasym hneg (insertionSortInner lt a l i) a b
      (i + 1) (by rw [hinner.1.length]; exact hb) (by omega) hinner.2
    exact ⟨(hinner.1.mono le_rfl (by omega)).trans ih.1, ih.2⟩
  · rw [if_neg hib]
    exact ⟨RangeOp.refl l a b, sortedRange_mono hsorted le_rfl (by omega)⟩
termination_by b - i
decreasing_by omega

theorem insertionSortGo_rangeSpec {lt : α → α → Bool}
    (hasym : ∀ x y, lt x y = true → lt y x = false)
    (hneg : ∀ x y z, lt x y = false → lt y z = false → lt x z = false)
    (l : List α) (a b : Nat) (hb : b ≤ l.length) :
    RangeOp l (insertionSortGo lt l a b) a b ∧
      SortedRange lt (insertionSortGo lt l a b) a b := by
  unfold insertionSortGo
  exact insertionSortOuter_rangeSpec hasym hneg l a b (a + 1) hb (by omega)
    (sortedRange_vacuous (by omega))

theorem isDesc_self (root : Nat) : isDesc root root = true := by
  unfold isDesc
  rw [if_neg (by omega), if_pos rfl]

theorem isDesc_lt_false {root k : Nat} (h : k < root) : isDesc root k = false := by
  unfold isDesc
  rw [if_pos h]

theorem isDesc_eq_parent {root k : Nat} (h : root < k) :
    isDesc root k = isDesc root ((k - 1) / 2) := by
  conv_lhs => unfold isDesc
  rw [if_neg (by omega), if_neg (by omega)]

theorem isDesc_ge {root k : Nat} (h : isDesc root k = true) : root ≤ k := by
  by_contra hc
  rw [isDesc_lt_false (by omega)] at h
  exact Bool.noConfusion h

theorem isDesc_child {root r c : Nat} (h : isDesc root r = true)
    (hc : c = 2 * r + 1 ∨ c = 2 * r + 2) : isDesc root c = true := by
  have hr := isDesc_ge h
  have hparent : (c - 1) / 2 = r := by omega
  rw [isDesc_eq_parent (by omega), hparent]
  exact h

theorem isDesc_trans : ∀ {k root m : Nat}, isDesc root m = true → isDesc m k = true →
    isDesc root k = true := by
  intro k
  induction k using Nat.strong_induction_on with
  | _ k ih =>
    intro root m h1 h2
    rcases eq_or_ne k m with rfl | hne
    · exact h1
    · have hm := isDesc_ge h2
      have hmk : m < k := by omega
      rw [isDesc_eq_parent hmk] at h2
      have hp := ih ((k - 1) / 2) (by omega) h1 h2
      have hroot : root ≤ (k - 1) / 2 := isDesc_ge hp
      rw [isDesc_eq_parent (by omega)]
      exact hp

/-- In a max-heap on the range, every subtree value is at most the subtree
root's value. -/
theorem heap_path_le {lt : α → α → Bool}
    (hasym : ∀ x y, lt x y = true → lt y x = false)
    (hneg : ∀ x y z, lt x y = false → lt y z = false → lt x z = false)
    {l : List α} {first hi t : Nat}
    (hb : first + hi ≤ l.length)
    (hheap : ∀ r c x y, t ≤ r → c < hi → (c = 2 * r + 1 ∨ c = 2 * r + 2) →
      l.get? (first + r) = some x → l.get? (first + c) = some y → lt x y = false) :
    ∀ k, isDesc t k = true → k < hi → ∀ xt xk, l.get? (first + t) = some xt →
      l.get? (first + k) = some xk → lt xt xk = false := by
  intro k
  induction k using Nat.strong_induction_on with
  | _ k ih =>
    intro hdesc hk xt xk hxt hxk
    rcases eq_or_ne k t with rfl | hne
    · rw [hxt] at hxk
      injection hxk with hxk
      subst hxk
      exact lt_irrefl_of_asym hasym xt
    · have ht := isDesc_ge hdesc
      have htk : t < k := by omega
      have hdp : isDesc t ((k - 1) / 2) = true := by
        rw [isDesc_eq_parent htk] at hdesc
        exact hdesc
      obtain ⟨xp, hxp⟩ := exists_get?_eq (l := l) (i := first + (k - 1) / 2)
        (by omega)
      have h1 := ih ((k - 1) / 2) (by omega) hdp (by omega) xt xp hxt hxp
      have h2 := hheap ((k - 1) / 2) k xp xk (isDesc_ge hdp) hk (by omega) hxp hxk
      exact hneg xt xp xk h1 h2

theorem siftDown_step {lt : α → α → Bool}
    (hasym : ∀ x y, lt x y = true → lt y x = false)
    (hneg : ∀ x y z, lt x y = false → lt y z = false → lt x z = false)
    (l l' : List α) (first hi root sc : Nat)
    (hb : first + hi ≤ l.length)
    (hheap : ∀ r c x y, root < r → c < hi → (c = 2 * r + 1 ∨ c = 2 * r + 2) →
      l.get? (first + r) = some x → l.get? (first + c) = some y → lt x y = false)
    (hsc : sc = 2 * root + 1 ∨ sc = 2 * root + 2) (hschi : sc < hi)
    (x y : α) (hx : l.get? (first + root) = some x) (hy : l.get? (first + sc) = some y)
    (hswaplt : lt x y = true)
    (hother : ∀ c z, c < hi → (c = 2 * root + 1 ∨ c = 2 * root + 2) → c ≠ sc →
      l.get? (first + c) = some z → lt y z = false)
    (ih : (∀ r c xx yy, sc < r → c < hi → (c = 2 * r + 1 ∨ c = 2 * r + 2) →
        (swapL l (first + root) (first + sc)).get? (first + r) = some xx →
        (swapL l (first + root) (first + sc)).get? (first + c) = some yy →
        lt xx yy = false) →
      SiftDownConcl lt (swapL l (first + root) (first + sc)) l' first hi sc) :
    SiftDownConcl lt l l' first hi root := by
  have hrs : root < sc := by omega
  have hdsc : isDesc root sc = true := isDesc_child (isDesc_self root) hsc
  have hl2root : (swapL l (first + root) (first + sc)).get? (first + root) = some y :=
    swapL_get?_fst hx hy
  have hl2sc : (swapL l (first + root) (first + sc)).get? (first + sc) = some x :=
    swapL_get?_snd hx hy
  have hl2other : ∀ i, i ≠ first + root → i ≠ first + sc →
      (swapL l (first + root) (first + sc)).get? i = l.get? i := by
    intro i h1 h2
    exact swapL_get?_other h1 h2
  have hheap2 : ∀ r c xx yy, sc < r → c < hi → (c = 2 * r + 1 ∨ c = 2 * r + 2) →
      (swapL l (first + root) (first + sc)).get? (first + r) = some xx →
      (swapL l (first + root) (first + sc)).get? (first + c) = some yy →
      lt xx yy = false := by
    intro r c xx yy hr hc hcr hxx hyy
    rw [hl2other (first + r) (by omega) (by omega)] at hxx
    rw [hl2other (first + c) (by omega) (by omega)] at hyy
    exact hheap r c xx yy (by omega) hc hcr hxx hyy
  have s := ih hheap2
  have hrootkeep : l'.get? (first + root) = some y := by
    rw [s.2.1 (first + root) (fun k hk1 hk2 => by have := isDesc_ge hk1; omega)]
    exact hl2root
  refine ⟨s.1.trans (swapL_perm l (first + root) (first + sc)), ?_, ?_, ?_⟩
  · intro i hi2
    have h1 : l'.get? i = (swapL l (first + root) (first + sc)).get? i := by
      refine s.2.1 i (fun k hk1 hk2 => ?_)
      exact hi2 k (isDesc_trans hdsc hk1) hk2
    rw [h1]
    exact hl2other i (hi2 root (isDesc_self root) (by omega))
      (hi2 sc hdsc hschi)
  · intro P hP k v hk1 hk2 hv
    have hP2 : ∀ m w, isDesc root m = true → m < hi →
        (swapL l (first + root) (first + sc)).get? (first + m) = some w → P w := by
      intro m w hm1 hm2 hw
      rcases eq_or_ne m root with rfl | hmr
      · rw [hl2root] at hw
        injection hw with hw
        subst hw
        exact hP sc y hdsc hschi hy
      · rcases eq_or_ne m sc with rfl | hms
        · rw [hl2sc] at hw
          injection hw with hw
          subst hw
          exact hP root x (isDesc_self root) (by omega) hx
        · rw [hl2other (first + m) (by omega) (by omega)] at hw
          exact hP m w hm1 hm2 hw
    by_cases hdk : isDesc sc k = true
    · exact s.2.2.1 P (fun m w hm1 hm2 hw => hP2 m w (isDesc_trans hdsc hm1) hm2 hw)
        k v hdk hk2 hv
    · have hkeep : l'.get? (first + k) =
          (swapL l (first + root) (first + sc)).get? (first + k) := by
        refine s.2.1 (first + k) (fun m hm1 hm2 hne => ?_)
        have : k = m := by omega
        subst this
        exact hdk hm1
      rw [hkeep] at hv
      exact hP2 k v hk1 hk2 hv
  · intro r c xx yy hr hc hcr hxx hyy
    by_cases hrr : r = root
    · rw [hrr] at hxx hcr
      rw [hrootkeep] at hxx
      injection hxx with hxx
      rw [← hxx]
      by_cases hcc : c = sc
      · rw [hcc] at hyy
        refine s.2.2.1 (fun v => lt y v = false) ?_ sc yy (isDesc_self sc) hschi hyy
        intro m w hm1 hm2 hw
        by_cases hms : m = sc
        · rw [hms, hl2sc] at hw
          injection hw with hw
          rw [← hw]
          exact hasym x y hswaplt
        · have hmge := isDesc_ge hm1
          rw [hl2other (first + m) (by omega) (by omega)] at hw
          exact heap_path_le hasym hneg hb
            (fun r2 c2 x2 y2 h1 h2 h3 h4 h5 => hheap r2 c2 x2 y2 (by omega) h2 h3 h4 h5)
            m hm1 hm2 y w hy hw
      · have hcdesc : isDesc sc c = false := by
          rcases Nat.lt_or_ge c sc with hlt | hge
          · exact isDesc_lt_false hlt
          · have hcgt : sc < c := by omega
            rw [isDesc_eq_parent hcgt]
            have hpc : (c - 1) / 2 = root := by omega
            rw [hpc]
            exact isDesc_lt_false hrs
        have hkeep : l'.get? (first + c) =
            (swapL l (first + root) (first + sc)).get? (first + c) := by
          refine s.2.1 (first + c) (fun m hm1 hm2 hne => ?_)
          have hcm : c = m := by omega
          rw [hcm, hm1] at hcdesc
          exact Bool.noConfusion hcdesc
        rw [hkeep, hl2other (first + c) (by omega) (by omega)] at hyy
        exact hother c yy hc hcr hcc hyy
    · rcases Nat.lt_or_ge r sc with hrlt | hrge
      · have hrd : isDesc sc r = false := isDesc_lt_false hrlt
        have hcd : isDesc sc c = false := by
          have hcgt : sc < c := by omega
          rw [isDesc_eq_parent hcgt]
          have : (c - 1) / 2 = r := by omega
          rw [this]
          exact hrd
        have hkr : l'.get? (first + r) =
            (swapL l (first + root) (first + sc)).get? (first + r) := by
          refine s.2.1 (first + r) (fun m hm1 hm2 hne => ?_)
          have : r = m := by omega
          subst this
          rw [hm1] at hrd
          exact Bool.noConfusion hrd
        have hkc : l'.get? (first + c) =
            (swapL l (first + root) (first + sc)).get? (first + c) := by
          refine s.2.1 (first + c) (fun m hm1 hm2 hne => ?_)
          have : c = m := by omega
          subst this
          rw [hm1] at hcd
          exact Bool.noConfusion hcd
        rw [hkr, hl2other (first + r) (by omega) (by omega)] at hxx
        rw [hkc, hl2other (first + c) (by omega) (by omega)] at hyy
        exact hheap r c xx yy (by omega) hc hcr hxx hyy
      · exact s.2.2.2 r c xx yy hrge hc hcr hxx hyy

theorem siftDownGo_spec {lt : α → α → Bool}
    (hasym : ∀ x y, lt x y = true → lt y x = false)
    (hneg : ∀ x y z, lt x y = false → lt y z = false → lt x z = false)
    (l : List α) (first hi root : Nat)
    (hb : first + hi ≤ l.length)
    (hheap : ∀ r c x y, root < r → c < hi → (c = 2 * r + 1 ∨ c = 2 * r + 2) →
      l.get? (first + r) = some x → l.get? (first + c) = some y → lt x y = false) :
    SiftDownConcl lt l (siftDownGo lt first hi l root) first hi root := by
  unfold siftDownGo
  by_cases h1 : 2 * root + 1 < hi
  · rw [if_pos h1]
    obtain ⟨x, hx⟩ := exists_get?_eq (l := l) (i := first + root) (by omega)
    obtain ⟨y1, hy1⟩ := exists_get?_eq (l := l) (i := first + (2 * root + 1)) (by omega)
    by_cases h2 : 2 * root + 2 < hi ∧
        lessAt lt l (first + (2 * root + 1)) (first + (2 * root + 2)) = true
    · rw [if_pos h2]
      obtain ⟨y2, hy2⟩ := exists_get?_eq (l := l) (i := first + (2 * root + 2))
        (by omega)
      have h12 : lt y1 y2 = true := by
        have h2' := h2.2
        rw [lessAt_eq hy1 hy2] at h2'
        exact h2'
      by_cases h3 : lessAt lt l (first + root) (first + (2 * root + 2)) = true
      · rw [if_pos h3]
        have hx2 : lt x y2 = true := by
          rw [lessAt_eq hx hy2] at h3
          exact h3
        refine siftDown_step hasym hneg l _ first hi root (2 * root + 2) hb hheap
          (Or.inr rfl) h2.1 x y2 hx hy2 hx2 ?_ ?_
        · intro c z hc hcr hcs hz
          have hc1 : c = 2 * root + 1 := by omega
          rw [hc1, hy1] at hz
          injection hz with hz
          rw [← hz]
          exact hasym y1 y2 h12
        · intro hheap2
          exact siftDownGo_spec hasym hneg _ first hi (2 * root + 2)
            (by rw [swapL_length]; exact hb) hheap2
      · rw [if_neg h3]
        refine ⟨List.Perm.refl l, fun i _ => rfl, fun P hP => hP, ?_⟩
        intro r c xx yy hr hc hcr hxx hyy
        by_cases hrr : r = root
        · rw [hrr] at hxx hcr
          rw [hx] at hxx
          injection hxx with hxx
          rw [← hxx]
          have hx2f : lt x y2 = false := by
            rw [lessAt_eq hx hy2] at h3
            simpa using h3
          rcases hcr with hc1 | hc2
          · rw [hc1, hy1] at hyy
            injection hyy with hyy
            rw [← hyy]
            exact hneg x y2 y1 hx2f (hasym y1 y2 h12)
          · rw [hc2, hy2] at hyy
            injection hyy with hyy
            rw [← hyy]
            exact hx2f
        · exact hheap r c xx yy (by omega) hc hcr hxx hyy
    · rw [if_neg h2]
      by_cases h3 : lessAt lt l (first + root) (first + (2 * root + 1)) = true
      · rw [if_pos h3]
        have hx1 : lt x y1 = true := by
          rw [lessAt_eq hx hy1] at h3
          exact h3
        refine siftDown_step hasym hneg l _ first hi root (2 * root + 1) hb hheap
          (Or.inl rfl) h1 x y1 hx hy1 hx1 ?_ ?_
        · intro c z hc hcr hcs hz
          have hc2 : c = 2 * root + 2 := by omega
          rw [hc2] at hz hc
          have hl12 : lessAt lt l (first + (2 * root + 1)) (first + (2 * root + 2)) =
              false := by
            rcases Bool.eq_false_or_eq_true
              (lessAt lt l (first + (2 * root + 1)) (first + (2 * root + 2))) with
              ht | hf
            · exact absurd ⟨hc, ht⟩ h2
            · exact hf
          rw [lessAt_eq hy1 hz] at hl12
          exact hl12
        · intro hheap2
          exact siftDownGo_spec hasym hneg _ first hi (2 * root + 1)
            (by rw [swapL_length]; exact hb) hheap2
      · rw [if_neg h3]
        refine ⟨List.Perm.refl l, fun i _ => rfl, fun P hP => hP, ?_⟩
        intro r c xx yy hr hc hcr hxx hyy
        by_cases hrr : r = root
        · rw [hrr] at hxx hcr
          rw [hx] at hxx
          injection hxx with hxx
          rw [← hxx]
          have hx1f : lt x y1 = false := by
            rw [lessAt_eq hx hy1] at h3
            simpa using h3
          rcases hcr with hc1 | hc2
          · rw [hc1, hy1] at hyy
            injection hyy with hyy
            rw [← hyy]
            exact hx1f
          · rw [hc2] at hyy hc
            have hl12f : lessAt lt l (first + (2 * root + 1)) (first + (2 * root + 2)) =
                false := by
              rcases Bool.eq_false_or_eq_true
                (lessAt lt l (first + (2 * root + 1)) (first + (2 * root + 2))) with
                ht | hf
              · exact absurd ⟨hc, ht⟩ h2
              · exact hf
            rw [lessAt_eq hy1 hyy] at hl12f
            exact hneg x y1 yy hx1f hl12f
        · exact hheap r c xx yy (by omega) hc hcr hxx hyy
  · rw [if_neg h1]
    refine ⟨List.Perm.refl l, fun i _ => rfl, fun P hP => hP, ?_⟩
    intro r c xx yy hr hc hcr hxx hyy
    by_cases hrr : r = root
    · omega
    · exact hheap r c xx yy (by omega) hc hcr hxx hyy
termination_by hi - root
decreasing_by all_goals omega

theorem isDesc_zero : ∀ k : Nat, isDesc 0 k = true := by
  intro k
  induction k using Nat.strong_induction_on with
  | _ k ih =>
    rcases Nat.eq_zero_or_pos k with rfl | hk
    · exact isDesc_self 0
    · rw [isDesc_eq_parent (by omega)]
      exact ih ((k - 1) / 2) (by omega)

theorem swapL_self (l : List α) (i : Nat) : swapL l i i = l := by
  unfold swapL
  rcases Nat.lt_or_ge i l.length with h | h
  · obtain ⟨x, hx⟩ := exists_get?_eq (l := l) (i := i) h
    rw [hx]
    show (l.set i x).set i x = l
    rw [List.set_set]
    exact set_get?_self hx
  · rw [List.get?_eq_none.2 (by omega)]

theorem siftDownConcl_rangeOp {lt : α → α → Bool} {l l' : List α} {first hi root : Nat}
    (h : SiftDownConcl lt l l' first hi root) :
    RangeOp l l' first (first + hi) := by
  refine ⟨h.1, fun i hi2 => h.2.1 i (fun k hk1 hk2 => by omega), ?_⟩
  intro P hP k x hk1 hk2 hx
  have hke : first + (k - first) = k := by omega
  by_cases hdk : isDesc root (k - first) = true
  · refine h.2.2.1 P (fun m w hm1 hm2 hw => hP (first + m) w (by omega) (by omega) hw)
      (k - first) x hdk (by omega) (by rw [hke]; exact hx)
  · have hun : l'.get? k = l.get? k := by
      refine h.2.1 k (fun m hm1 hm2 => ?_)
      intro heq
      apply hdk
      have hkm : k - first = m := by omega
      rw [hkm]
      exact hm1
    rw [hun] at hx
    exact hP k x hk1 hk2 hx

theorem heapifyLoop_spec {lt : α → α → Bool}
    (hasym : ∀ x y, lt x y = true → lt y x = false)
    (hneg : ∀ x y z, lt x y = false → lt y z = false → lt x z = false) :
    ∀ (i : Nat) (l : List α) (first hi : Nat), first + hi ≤ l.length →
    (∀ r c x y, i < r → c < hi → (c = 2 * r + 1 ∨ c = 2 * r + 2) →
      l.get? (first + r) = some x → l.get? (first + c) = some y → lt x y = false) →
    RangeOp l (heapifyLoop lt first hi l i) first (first + hi) ∧
      (∀ r c x y, c < hi → (c = 2 * r + 1 ∨ c = 2 * r + 2) →
        (heapifyLoop lt first hi l i).get? (first + r) = some x →
        (heapifyLoop lt first hi l i).get? (first + c) = some y → lt x y = false) := by
  intro i
  induction i with
  | zero =>
    intro l first hi hb hpartial
    have sd := siftDownGo_spec hasym hneg l first hi 0 hb hpartial
    unfold heapifyLoop
    rw [if_pos rfl]
    exact ⟨siftDownConcl_rangeOp sd, fun r c x y hc hcr hx hy =>
      sd.2.2.2 r c x y (Nat.zero_le r) hc hcr hx hy⟩
  | succ n ih =>
    intro l first hi hb hpartial
    have sd := siftDownGo_spec hasym hneg l first hi (n + 1) hb hpartial
    have hheap2 : ∀ r c x y, n < r → c < hi → (c = 2 * r + 1 ∨ c = 2 * r + 2) →
        (siftDownGo lt first hi l (n + 1)).get? (first + r) = some x →
        (siftDownGo lt first hi l (n + 1)).get? (first + c) = some y →
        lt x y = false := by
      intro r c x y hr hc hcr hx hy
      exact sd.2.2.2 r c x y (by omega) hc hcr hx hy
    have hrec := ih (siftDownGo lt first hi l (n + 1)) first hi
      (by rw [(siftDownConcl_rangeOp sd).length]; exact hb) hheap2
    unfold heapifyLoop
    rw [if_neg (by omega)]
    exact ⟨(siftDownConcl_rangeOp sd).trans hrec.1, hrec.2⟩

theorem heapPopLoop_spec {lt : α → α → Bool}
    (hasym : ∀ x y, lt x y = true → lt y x = false)
    (hneg : ∀ x y z, lt x y = false → lt y z = false → lt x z = false) :
    ∀ (i : Nat) (l : List α) (first N : Nat), first + N ≤ l.length → i < N →
    (∀ r c x y, c < i + 1 → (c = 2 * r + 1 ∨ c = 2 * r + 2) →
      l.get? (first + r) = some x → l.get? (first + c) = some y → lt x y = false) →
    SortedRange lt l (first + i + 1) (first + N) →
    (∀ k m x y, k ≤ i → i + 1 ≤ m → m < N → l.get? (first + k) = some x →
      l.get? (first + m) = some y → lt y x = false) →
    RangeOp l (heapPopLoop lt first l i) first (first + i + 1) ∧
      SortedRange lt (heapPopLoop lt first l i) first (first + N) := by
  intro i
  induction i with
  | zero =>
    intro l first N hb hN hheap hsorted hsep
    have hstep : heapPopLoop lt first l 0 = l := by
      rw [heapPopLoop]
      rw [if_pos rfl, Nat.add_zero, swapL_self, siftDownGo]
      rw [if_neg (by omega)]
    rw [hstep]
    refine ⟨RangeOp.refl l first (first + 0 + 1), ?_⟩
    intro i' j' x y hi' hij hj' hx hy
    rcases eq_or_ne i' first with heq | hne
    · refine hsep 0 (j' - first) x y (by omega) (by omega) (by omega) ?_ ?_
      · rw [Nat.add_zero, ← heq]
        exact hx
      · rw [show first + (j' - first) = j' by omega]
        exact hy
    · exact hsorted i' j' x y (by omega) hij hj' hx hy
  | succ n ih =>
    intro l first N hb hN hheap hsorted hsep
    obtain ⟨x0, hx0⟩ := exists_get?_eq (l := l) (i := first) (by omega)
    obtain ⟨xi, hxi⟩ := exists_get?_eq (l := l) (i := first + (n + 1)) (by omega)
    have hmax : ∀ k v, k ≤ n + 1 → l.get? (first + k) = some v → lt x0 v = false := by
      intro k v hk hv
      refine heap_path_le hasym hneg (show first + (n + 2) ≤ l.length by omega)
        (fun r c xx yy _ hc hcr hxx hyy => hheap r c xx yy hc hcr hxx hyy)
        k (isDesc_zero k) (by omega) x0 v (by rw [Nat.add_zero]; exact hx0) hv
    have hl2a : (swapL l first (first + (n + 1))).get? first = some xi :=
      swapL_get?_fst hx0 hxi
    have hl2b : (swapL l first (first + (n + 1))).get? (first + (n + 1)) = some x0 :=
      swapL_get?_snd hx0 hxi
    have hl2other : ∀ p, p ≠ first → p ≠ first + (n + 1) →
        (swapL l first (first + (n + 1))).get? p = l.get? p :=
      fun p h1 h2 => swapL_get?_other h1 h2
    have hheapexc : ∀ r c xx yy, 0 < r → c < n + 1 → (c = 2 * r + 1 ∨ c = 2 * r + 2) →
        (swapL l first (first + (n + 1))).get? (first + r) = some xx →
        (swapL l first (first + (n + 1))).get? (first + c) = some yy →
        lt xx yy = false := by
      intro r c xx yy hr hc hcr hxx hyy
      rw [hl2other (first + r) (by omega) (by omega)] at hxx
      rw [hl2other (first + c) (by omega) (by omega)] at hyy
      exact hheap r c xx yy (by omega) hcr hxx hyy
    have sd := siftDownGo_spec hasym hneg (swapL l first (first + (n + 1))) first
      (n + 1) 0 (by rw [swapL_length]; omega) hheapexc
    set l3 := siftDownGo lt first (n + 1) (swapL l first (first + (n + 1))) 0 with hl3
    have hl3heap : ∀ r c x y, c < n + 1 → (c = 2 * r + 1 ∨ c = 2 * r + 2) →
        l3.get? (first + r) = some x → l3.get? (first + c) = some y → lt x y = false :=
      fun r c x y hc hcr hx hy => sd.2.2.2 r c x y (Nat.zero_le r) hc hcr hx hy
    have hl3top : l3.get? (first + (n + 1)) = some x0 := by
      rw [sd.2.1 (first + (n + 1)) (fun k hk1 hk2 => by omega)]
      exact hl2b
    have hl3tail : ∀ p, first + (n + 1) < p → l3.get? p = l.get? p := by
      intro p hp
      rw [sd.2.1 p (fun k hk1 hk2 => by omega)]
      exact hl2other p (by omega) (by omega)
    have hsorted3 : SortedRange lt l3 (first + (n + 1)) (first + N) := by
      intro i' j' x y hi' hij hj' hx hy
      rw [hl3tail j' (by omega)] at hy
      rcases eq_or_ne i' (first + (n + 1)) with rfl | hne
      · rw [hl3top] at hx
        injection hx with hx
        rw [← hx]
        refine hsep 0 (j' - first) x0 y (by omega) (by omega) (by omega)
          (by rw [Nat.add_zero]; exact hx0) ?_
        rw [show first + (j' - first) = j' by omega]
        exact hy
      · rw [hl3tail i' (by omega)] at hx
        exact hsorted i' j' x y (by omega) hij hj' hx hy
    have hsep3 : ∀ k m x y, k ≤ n → n + 1 ≤ m → m < N → l3.get? (first + k) = some x →
        l3.get? (first + m) = some y → lt y x = false := by
      intro k m x y hk hm hmN hx hy
      have hyval : lt y xi = false ∧ ∀ kk w, 1 ≤ kk → kk ≤ n + 1 →
          l.get? (first + kk) = some w → lt y w = false := by
        rcases eq_or_ne m (n + 1) with rfl | hmne
        · rw [hl3top] at hy
          injection hy with hy
          rw [← hy]
          exact ⟨hmax (n + 1) xi le_rfl hxi, fun kk w h1 h2 hw => hmax kk w h2 hw⟩
        · rw [hl3tail (first + m) (by omega)] at hy
          refine ⟨hsep (n + 1) m xi y le_rfl (by omega) hmN hxi hy,
            fun kk w h1 h2 hw => hsep kk m w y (by omega) (by omega) hmN hw hy⟩
      refine sd.2.2.1 (fun v => lt y v = false) ?_ k x (isDesc_zero k) (by omega) hx
      intro kk w _ hkk hw
      rcases Nat.eq_zero_or_pos kk with rfl | hkkpos
      · have hw2 : (swapL l first (first + (n + 1))).get? first = some w := hw
        rw [hl2a] at hw2
        injection hw2 with hw2
        rw [← hw2]
        exact hyval.1
      · rw [hl2other (first + kk) (by omega) (by omega)] at hw
        exact hyval.2 kk w hkkpos (by omega) hw
    have hlen3 : l3.length = l.length := by
      rw [hl3, (siftDownConcl_rangeOp sd).length, swapL_length]
    have hrec := ih l3 first N (by omega) (by omega) hl3heap hsorted3 hsep3
    have hstep : heapPopLoop lt first l (n + 1) = heapPopLoop lt first l3 n := by
      rw [heapPopLoop]
      rw [if_neg (by omega), ← hl3]
      rfl
    rw [hstep]
    have hswap : RangeOp l (swapL l first (first + (n + 1))) first (first + (n + 1) + 1) :=
      swapL_rangeOp (le_refl first) (by omega) (by omega) (by omega) (by omega)
    refine ⟨hswap.trans (((siftDownConcl_rangeOp sd).mono le_rfl (by omega)).trans
      (hrec.1.mono le_rfl (by omega))), hrec.2⟩

theorem heapSortGo_spec {lt : α → α → Bool}
    (hasym : ∀ x y, lt x y = true → lt y x = false)
    (hneg : ∀ x y z, lt x y = false → lt y z = false → lt x z = false)
    (l : List α) (a b : Nat) (hb : b ≤ l.length) :
    RangeOp l (heapSortGo lt l a b) a b ∧ SortedRange lt (heapSortGo lt l a b) a b := by
  by_cases h0 : b - a = 0
  · have heq : heapSortGo lt l a b = l := by
      rw [heapSortGo]
      rw [h0, if_pos rfl, heapifyLoop]
      rw [if_pos (by norm_num), siftDownGo]
      rw [if_neg (by omega)]
    rw [heq]
    exact ⟨RangeOp.refl l a b, sortedRange_vacuous (by omega)⟩
  · have hf := heapifyLoop_spec hasym hneg ((b - a - 1) / 2) l a (b - a)
      (by omega) (fun r c x y hr hc hcr hx hy => by omega)
    have hstep : heapSortGo lt l a b =
        heapPopLoop lt a (heapifyLoop lt a (b - a) l ((b - a - 1) / 2)) (b - a - 1) := by
      rw [heapSortGo]
      rw [if_neg h0]
    have hp := heapPopLoop_spec hasym hneg (b - a - 1)
      (heapifyLoop lt a (b - a) l ((b - a - 1) / 2)) a (b - a)
      (by rw [hf.1.length]; omega) (by omega)
      (fun r c x y hc hcr hx hy => hf.2 r c x y (by omega) hcr hx hy)
      (sortedRange_vacuous (by omega))
      (fun k m x y hk hm hmN hx hy => by omega)
    rw [hstep]
    have e1 : a + (b - a) = b := by omega
    have e2 : a + (b - a - 1) + 1 = b := by omega
    rw [e1] at hf
    rw [e2, e1] at hp
    exact ⟨(hf.1.mono le_rfl (by omega)).trans (hp.1.mono le_rfl le_rfl), hp.2⟩

theorem partitionLoop_spec (lt : α → α → Bool) (a b : Nat) (pv : α) :
    ∀ (fuel : Nat) (l : List α) (i j : Nat),
    b ≤ l.length → l.get? a = some pv → a + 1 ≤ i → a ≤ j → j < b →
    j + 2 ≤ i + fuel →
    (∀ k x, a + 1 ≤ k → k < i → l.get? k = some x → lt x pv = true) →
    (∀ k x, j < k → k < b → l.get? k = some x → lt x pv = false) →
    RangeOp l (partitionLoop lt a l i j fuel).2 a b ∧
      (partitionLoop lt a l i j fuel).2.get? a = some pv ∧
      a ≤ (partitionLoop lt a l i j fuel).1 ∧ (partitionLoop lt a l i j fuel).1 < b ∧
      (∀ k x, a + 1 ≤ k → k ≤ (partitionLoop lt a l i j fuel).1 →
        (partitionLoop lt a l i j fuel).2.get? k = some x → lt x pv = true) ∧
      (∀ k x, (partitionLoop lt a l i j fuel).1 < k → k < b →
        (partitionLoop lt a l i j fuel).2.get? k = some x → lt x pv = false) := by
  intro fuel
  induction fuel with
  | zero =>
    intro l i j hb hpv hi hja hjb hfuel hleft hright
    unfold partitionLoop
    rw [if_pos rfl]
    refine ⟨RangeOp.refl l a b, hpv, hja, hjb, fun k x hk1 hk2 hx => ?_,
      fun k x hk1 hk2 hx => hright k x hk1 hk2 hx⟩
    exact hleft k x hk1 (by omega) hx
  | succ fn ih =>
    intro l i j hb hpv hi hja hjb hfuel hleft hright
    have hstep : partitionLoop lt a l i j (fn + 1) =
        (if partScanLeft lt l a (partScanRight lt l a i j) j < partScanRight lt l a i j
         then (partScanLeft lt l a (partScanRight lt l a i j) j, l)
         else partitionLoop lt a
           (swapL l (partScanRight lt l a i j)
             (partScanLeft lt l a (partScanRight lt l a i j) j))
           (partScanRight lt l a i j + 1)
           (partScanLeft lt l a (partScanRight lt l a i j) j - 1) fn) := by
      rw [partitionLoop]
      rw [if_neg (by omega)]
      rfl
    rw [hstep]
    have sR := partScanRight_spec lt l a i j
    have sL := partScanLeft_spec lt l a (partScanRight lt l a i j) j
    set i2 := partScanRight lt l a i j with hi2def
    set j2 := partScanLeft lt l a i2 j with hj2def
    have hLnew : ∀ k x, a + 1 ≤ k → k < i2 → l.get? k = some x → lt x pv = true := by
      intro k x hk1 hk2 hx
      rcases Nat.lt_or_ge k i with hki | hki
      · exact hleft k x hk1 hki hx
      · have := sR.2.2.1 k hki hk2
        rw [lessAt_eq hx hpv] at this
        exact this
    have hRnew : ∀ k x, j2 < k → k < b → l.get? k = some x → lt x pv = false := by
      intro k x hk1 hk2 hx
      rcases Nat.lt_or_ge j k with hkj | hkj
      · exact hright k x hkj hk2 hx
      · have := sL.2.2.1 k hk1 (by omega)
        rw [lessAt_eq hx hpv] at this
        exact this
    by_cases hcross : j2 < i2
    · rw [if_pos hcross]
      refine ⟨RangeOp.refl l a b, hpv, ?_, by omega, fun k x hk1 hk2 hx => ?_,
        fun k x hk1 hk2 hx => hRnew k x hk1 hk2 hx⟩
      · rcases Nat.lt_or_ge j (i2 - 1) with hj1 | hj1
        · have h5 := sL.2.2.2.2 (by omega)
          omega
        · have h5 := sL.2.1 (by omega)
          omega
      · exact hLnew k x hk1 (by omega) hx
    · rw [if_neg hcross]
      have hij2 : i2 ≤ j2 := by omega
      have hj2j : j2 ≤ j := sL.1
      have hii2 : i ≤ i2 := sR.1
      obtain ⟨xi2, hxi2⟩ := exists_get?_eq (l := l) (i := i2) (by omega)
      obtain ⟨xj2, hxj2⟩ := exists_get?_eq (l := l) (i := j2) (by omega)
      have hxi2f : lt xi2 pv = false := by
        have := sR.2.2.2 (by omega)
        rw [lessAt_eq hxi2 hpv] at this
        exact this
      have hxj2t : lt xj2 pv = true := by
        have := sL.2.2.2.1 (by omega) (by omega)
        rw [lessAt_eq hxj2 hpv] at this
        exact this
      have hswap : RangeOp l (swapL l i2 j2) a b :=
        swapL_rangeOp (by omega) (by omega) (by omega) (by omega) hb
      have hpv2 : (swapL l i2 j2).get? a = some pv := by
        rw [swapL_get?_other (by omega) (by omega)]
        exact hpv
      have hleft2 : ∀ k x, a + 1 ≤ k → k < i2 + 1 → (swapL l i2 j2).get? k = some x →
          lt x pv = true := by
        intro k x hk1 hk2 hx
        rcases eq_or_ne k i2 with rfl | hki2
        · rw [swapL_get?_fst hxi2 hxj2] at hx
          injection hx with hx
          rw [← hx]
          exact hxj2t
        · rw [swapL_get?_other hki2 (by omega)] at hx
          exact hLnew k x hk1 (by omega) hx
      have hright2 : ∀ k x, j2 - 1 < k → k < b → (swapL l i2 j2).get? k = some x →
          lt x pv = false := by
        intro k x hk1 hk2 hx
        rcases eq_or_ne k j2 with rfl | hkj2
        · rw [swapL_get?_snd hxi2 hxj2] at hx
          injection hx with hx
          rw [← hx]
          exact hxi2f
        · rw [swapL_get?_other (by omega) hkj2] at hx
          exact hRnew k x (by omega) hk2 hx
      have hrec := ih (swapL l i2 j2) (i2 + 1) (j2 - 1)
        (by rw [swapL_length]; exact hb) hpv2 (by omega) (by omega) (by omega)
        (by omega) hleft2 hright2
      exact ⟨hswap.trans hrec.1, hrec.2.1, by omega, by omega, hrec.2.2.2.2.1,
        hrec.2.2.2.2.2⟩

theorem partitionGo_spec (lt : α → α → Bool)
    (l : List α) (a b pivot : Nat) (pv : α)
    (hb : b ≤ l.length) (hab : a + 2 ≤ b) (hp1 : a ≤ pivot) (hp2 : pivot < b)
    (hpv : l.get? pivot = some pv) :
    RangeOp l (partitionGo lt l a b pivot).2.2 a b ∧
      a ≤ (partitionGo lt l a b pivot).1 ∧ (partitionGo lt l a b pivot).1 < b ∧
      (partitionGo lt l a b pivot).2.2.get? (partitionGo lt l a b pivot).1 = some pv ∧
      (∀ k x, a ≤ k → k < (partitionGo lt l a b pivot).1 →
        (partitionGo lt l a b pivot).2.2.get? k = some x → lt x pv = true) ∧
      (∀ k x, (partitionGo lt l a b pivot).1 < k → k < b →
        (partitionGo lt l a b pivot).2.2.get? k = some x → lt x pv = false) := by
  simp only [partitionGo]
  obtain ⟨xa, hxa⟩ := exists_get?_eq (l := l) (i := a) (by omega)
  have hl1len : (swapL l a pivot).length = l.length := swapL_length l a pivot
  have hpv1 : (swapL l a pivot).get? a = some pv := swapL_get?_fst hxa hpv
  have hr1 : RangeOp l (swapL l a pivot) a b :=
    swapL_rangeOp (le_refl a) (by omega) hp1 hp2 hb
  have sR := partScanRight_spec lt (swapL l a pivot) a (a + 1) (b - 1)
  have sL := partScanLeft_spec lt (swapL l a pivot) a
    (partScanRight lt (swapL l a pivot) a (a + 1) (b - 1)) (b - 1)
  set l1 := swapL l a pivot with hl1def
  set i2 := partScanRight lt l1 a (a + 1) (b - 1) with hi2def
  set j2 := partScanLeft lt l1 a i2 (b - 1) with hj2def
  have hii2 : a + 1 ≤ i2 := sR.1
  have hi2b : i2 ≤ b := by
    have h5 := sR.2.1
    rw [Nat.max_eq_right (by omega : a + 1 ≤ b - 1 + 1)] at h5
    omega
  have hj2b : j2 ≤ b - 1 := sL.1
  have hj2lo : i2 - 1 ≤ j2 := sL.2.1 (by omega)
  have hLs : ∀ k x, a + 1 ≤ k → k < i2 → l1.get? k = some x → lt x pv = true := by
    intro k x hk1 hk2 hx
    have h5 := sR.2.2.1 k hk1 hk2
    rw [lessAt_eq hx hpv1] at h5
    exact h5
  have hRs : ∀ k x, j2 < k → k ≤ b - 1 → l1.get? k = some x → lt x pv = false := by
    intro k x hk1 hk2 hx
    have h5 := sL.2.2.1 k hk1 hk2
    rw [lessAt_eq hx hpv1] at h5
    exact h5
  by_cases hcross : j2 < i2
  · rw [if_pos hcross]
    obtain ⟨xj2v, hxj2v⟩ := exists_get?_eq (l := l1) (i := j2)
      (by rw [hl1len]; omega)
    have hmidpv : (swapL l1 j2 a).get? j2 = some pv := swapL_get?_fst hxj2v hpv1
    have hswapf : RangeOp l1 (swapL l1 j2 a) a b :=
      swapL_rangeOp (by omega) (by omega) (le_refl a) (by omega)
        (by rw [hl1len]; exact hb)
    refine ⟨hr1.trans hswapf, by omega, by omega, hmidpv, ?_, ?_⟩
    · intro k x hk1 hk2 hx
      rcases eq_or_ne k a with rfl | hka
      · rw [swapL_get?_snd hxj2v hpv1] at hx
        injection hx with hx
        rw [← hx]
        exact hLs j2 xj2v (by omega) (by omega) hxj2v
      · rw [swapL_get?_other (by omega) hka] at hx
        exact hLs k x (by omega) (by omega) hx
    · intro k x hk1 hk2 hx
      rw [swapL_get?_other (by omega) (by omega)] at hx
      exact hRs k x hk1 (by omega) hx
  · rw [if_neg hcross]
    have hij2 : i2 ≤ j2 := by omega
    obtain ⟨xi2, hxi2⟩ := exists_get?_eq (l := l1) (i := i2) (by rw [hl1len]; omega)
    obtain ⟨xj2, hxj2⟩ := exists_get?_eq (l := l1) (i := j2) (by rw [hl1len]; omega)
    have hxi2f : lt xi2 pv = false := by
      have h5 := sR.2.2.2 (by omega)
      rw [lessAt_eq hxi2 hpv1] at h5
      exact h5
    have hxj2t : lt xj2 pv = true := by
      have h5 := sL.2.2.2.1 (by omega) (by omega)
      rw [lessAt_eq hxj2 hpv1] at h5
      exact h5
    have hswapio : RangeOp l1 (swapL l1 i2 j2) a b :=
      swapL_rangeOp (by omega) (by omega) (by omega) (by omega)
        (by rw [hl1len]; exact hb)
    have hpv2 : (swapL l1 i2 j2).get? a = some pv := by
      rw [swapL_get?_other (by omega) (by omega)]
      exact hpv1
    have hleft2 : ∀ k x, a + 1 ≤ k → k < i2 + 1 → (swapL l1 i2 j2).get? k = some x →
        lt x pv = true := by
      intro k x hk1 hk2 hx
      rcases eq_or_ne k i2 with rfl | hki2
      · rw [swapL_get?_fst hxi2 hxj2] at hx
        injection hx with hx
        rw [← hx]
        exact hxj2t
      · rw [swapL_get?_other hki2 (by omega)] at hx
        exact hLs k x hk1 (by omega) hx
    have hright2 : ∀ k x, j2 - 1 < k → k < b → (swapL l1 i2 j2).get? k = some x →
        lt x pv = false := by
      intro k x hk1 hk2 hx
      rcases eq_or_ne k j2 with rfl | hkj2
      · rw [swapL_get?_snd hxi2 hxj2] at hx
        injection hx with hx
        rw [← hx]
        exact hxi2f
      · rw [swapL_get?_other (by omega) hkj2] at hx
        exact hRs k x (by omega) (by omega) hx
    have lp := partitionLoop_spec lt a b pv b
      (swapL l1 i2 j2) (i2 + 1) (j2 - 1)
      (by rw [swapL_length, hl1len]; exact hb) hpv2 (by omega) (by omega) (by omega)
      (by omega) hleft2 hright2
    have hlenR : (partitionLoop lt a (swapL l1 i2 j2) (i2 + 1) (j2 - 1) b).2.length =
        l.length := by
      rw [lp.1.length, swapL_length, hl1len]
    have hRa : (partitionLoop lt a (swapL l1 i2 j2) (i2 + 1) (j2 - 1) b).2.get? a =
        some pv := lp.2.1
    obtain ⟨xm, hxm⟩ := exists_get?_eq
      (l := (partitionLoop lt a (swapL l1 i2 j2) (i2 + 1) (j2 - 1) b).2)
      (i := (partitionLoop lt a (swapL l1 i2 j2) (i2 + 1) (j2 - 1) b).1)
      (by rw [hlenR]; have := lp.2.2.2.1; omega)
    have hswapf : RangeOp (partitionLoop lt a (swapL l1 i2 j2) (i2 + 1) (j2 - 1) b).2
        (swapL (partitionLoop lt a (swapL l1 i2 j2) (i2 + 1) (j2 - 1) b).2
          (partitionLoop lt a (swapL l1 i2 j2) (i2 + 1) (j2 - 1) b).1 a) a b := by
      refine swapL_rangeOp ?_ ?_ (le_refl a) (by omega) (by rw [hlenR]; exact hb)
      · exact lp.2.2.1
      · exact lp.2.2.2.1
    refine ⟨(hr1.trans hswapio).trans (lp.1.trans hswapf), lp.2.2.1, lp.2.2.2.1,
      swapL_get?_fst hxm hRa, ?_, ?_⟩
    · intro k x hk1 hk2 hx
      by_cases hka : k = a
      · rw [hka, swapL_get?_snd hxm hRa] at hx
        injection hx with hx
        rw [← hx]
        exact lp.2.2.2.2.1 (partitionLoop lt a (swapL l1 i2 j2) (i2 + 1) (j2 - 1) b).1
          xm (by omega) (le_refl _) hxm
      · rw [swapL_get?_other (by omega) hka] at hx
        exact lp.2.2.2.2.1 k x (by omega) (by omega) hx
    · intro k x hk1 hk2 hx
      rw [swapL_get?_other (by omega) (by omega)] at hx
      exact lp.2.2.2.2.2 k x hk1 hk2 hx

theorem partitionEqualLoop_spec (lt : α → α → Bool) (a b : Nat) (pv : α) :
    ∀ (fuel : Nat) (l : List α) (i j : Nat),
    b ≤ l.length → l.get? a = some pv → a + 1 ≤ i → i ≤ b → a ≤ j → j < b →
    j + 2 ≤ i + fuel →
    (∀ k x, a + 1 ≤ k → k < i → l.get? k = some x → lt pv x = false) →
    (∀ k x, j < k → k < b → l.get? k = some x → lt pv x = true) →
    RangeOp l (partitionEqualLoop lt a l i j fuel).2 a b ∧
      (partitionEqualLoop lt a l i j fuel).2.get? a = some pv ∧
      a + 1 ≤ (partitionEqualLoop lt a l i j fuel).1 ∧
      (partitionEqualLoop lt a l i j fuel).1 ≤ b ∧
      (∀ k x, a + 1 ≤ k → k < (partitionEqualLoop lt a l i j fuel).1 →
        (partitionEqualLoop lt a l i j fuel).2.get? k = some x → lt pv x = false) ∧
      (∀ k x, (partitionEqualLoop lt a l i j fuel).1 ≤ k → k < b →
        (partitionEqualLoop lt a l i j fuel).2.get? k = some x → lt pv x = true) := by
  intro fuel
  induction fuel with
  | zero =>
    intro l i j hb hpv hi hib hja hjb hfuel hleft hright
    unfold partitionEqualLoop
    rw [if_pos rfl]
    exact ⟨RangeOp.refl l a b, hpv, hi, hib,
      fun k x hk1 hk2 hx => hleft k x hk1 hk2 hx,
      fun k x hk1 hk2 hx => hright k x (by omega) hk2 hx⟩
  | succ fn ih =>
    intro l i j hb hpv hi hib hja hjb hfuel hleft hright
    have hstep : partitionEqualLoop lt a l i j (fn + 1) =
        (if partEqScanLeft lt l a (partEqScanRight lt l a i j) j <
            partEqScanRight lt l a i j
         then (partEqScanRight lt l a i j, l)
         else partitionEqualLoop lt a
           (swapL l (partEqScanRight lt l a i j)
             (partEqScanLeft lt l a (partEqScanRight lt l a i j) j))
           (partEqScanRight lt l a i j + 1)
           (partEqScanLeft lt l a (partEqScanRight lt l a i j) j - 1) fn) := by
      rw [partitionEqualLoop]
      rw [if_neg (by omega)]
      rfl
    rw [hstep]
    have sR := partEqScanRight_spec lt l a i j
    have sL := partEqScanLeft_spec lt l a (partEqScanRight lt l a i j) j
    set i2 := partEqScanRight lt l a i j with hi2def
    set j2 := partEqScanLeft lt l a i2 j with hj2def
    have hii2 : i ≤ i2 := sR.1
    have hi2ub : i2 ≤ max i (j + 1) := sR.2.1
    have hi2b : i2 ≤ b := by
      rcases Nat.le_total i (j + 1) with h5 | h5
      · rw [Nat.max_eq_right h5] at hi2ub
        omega
      · rw [Nat.max_eq_left h5] at hi2ub
        omega
    have hj2j : j2 ≤ j := sL.1
    have hLnew : ∀ k x, a + 1 ≤ k → k < i2 → l.get? k = some x → lt pv x = false := by
      intro k x hk1 hk2 hx
      rcases Nat.lt_or_ge k i with hki | hki
      · exact hleft k x hk1 hki hx
      · have h5 := sR.2.2.1 k hki hk2
        rw [lessAt_eq hpv hx] at h5
        exact h5
    have hRnew : ∀ k x, j2 < k → k < b → l.get? k = some x → lt pv x = true := by
      intro k x hk1 hk2 hx
      rcases Nat.lt_or_ge j k with hkj | hkj
      · exact hright k x hkj hk2 hx
      · have h5 := sL.2.2.1 k hk1 (by omega)
        rw [lessAt_eq hpv hx] at h5
        exact h5
    by_cases hcross : j2 < i2
    · rw [if_pos hcross]
      exact ⟨RangeOp.refl l a b, hpv, by omega, hi2b,
        fun k x hk1 hk2 hx => hLnew k x hk1 hk2 hx,
        fun k x hk1 hk2 hx => hRnew k x (by omega) hk2 hx⟩
    · rw [if_neg hcross]
      have hij2 : i2 ≤ j2 := by omega
      obtain ⟨xi2, hxi2⟩ := exists_get?_eq (l := l) (i := i2) (by omega)
      obtain ⟨xj2, hxj2⟩ := exists_get?_eq (l := l) (i := j2) (by omega)
      have hxi2t : lt pv xi2 = true := by
        have h5 := sR.2.2.2 (by omega)
        rw [lessAt_eq hpv hxi2] at h5
        exact h5
      have hxj2f : lt pv xj2 = false := by
        have h5 := sL.2.2.2 (by omega) (by omega)
        rw [lessAt_eq hpv hxj2] at h5
        exact h5
      have hswap : RangeOp l (swapL l i2 j2) a b :=
        swapL_rangeOp (by omega) (by omega) (by omega) (by omega) hb
      have hpv2 : (swapL l i2 j2).get? a = some pv := by
        rw [swapL_get?_other (by omega) (by omega)]
        exact hpv
      have hleft2 : ∀ k x, a + 1 ≤ k → k < i2 + 1 → (swapL l i2 j2).get? k = some x →
          lt pv x = false := by
        intro k x hk1 hk2 hx
        rcases eq_or_ne k i2 with rfl | hki2
        · rw [swapL_get?_fst hxi2 hxj2] at hx
          injection hx with hx
          rw [← hx]
          exact hxj2f
        · rw [swapL_get?_other hki2 (by omega)] at hx
          exact hLnew k x hk1 (by omega) hx
      have hright2 : ∀ k x, j2 - 1 < k → k < b → (swapL l i2 j2).get? k = some x →
          lt pv x = true := by
        intro k x hk1 hk2 hx
        rcases eq_or_ne k j2 with rfl | hkj2
        · rw [swapL_get?_snd hxi2 hxj2] at hx
          injection hx with hx
          rw [← hx]
          exact hxi2t
        · rw [swapL_get?_other (by omega) hkj2] at hx
          exact hRnew k x (by omega) hk2 hx
      have hrec := ih (swapL l i2 j2) (i2 + 1) (j2 - 1)
        (by rw [swapL_length]; exact hb) hpv2 (by omega) (by omega) (by omega)
        (by omega) (by omega) hleft2 hright2
      exact ⟨hswap.trans hrec.1, hrec.2.1, hrec.2.2.1, hrec.2.2.2.1,
        hrec.2.2.2.2.1, hrec.2.2.2.2.2⟩

theorem partitionEqualGo_spec {lt : α → α → Bool}
    (hasym : ∀ x y, lt x y = true → lt y x = false)
    (l : List α) (a b pivot : Nat) (pv : α)
    (hb : b ≤ l.length) (hab : a + 2 ≤ b) (hp1 : a ≤ pivot) (hp2 : pivot < b)
    (hpv : l.get? pivot = some pv) :
    RangeOp l (partitionEqualGo lt l a b pivot).2 a b ∧
      a + 1 ≤ (partitionEqualGo lt l a b pivot).1 ∧
      (partitionEqualGo lt l a b pivot).1 ≤ b ∧
      (∀ k x, a ≤ k → k < (partitionEqualGo lt l a b pivot).1 →
        (partitionEqualGo lt l a b pivot).2.get? k = some x → lt pv x = false) ∧
      (∀ k x, (partitionEqualGo lt l a b pivot).1 ≤ k → k < b →
        (partitionEqualGo lt l a b pivot).2.get? k = some x → lt pv x = true) := by
  simp only [partitionEqualGo]
  obtain ⟨xa, hxa⟩ := exists_get?_eq (l := l) (i := a) (by omega)
  have hpv1 : (swapL l a pivot).get? a = some pv := swapL_get?_fst hxa hpv
  have hr1 : RangeOp l (swapL l a pivot) a b :=
    swapL_rangeOp (le_refl a) (by omega) hp1 hp2 hb
  have lp := partitionEqualLoop_spec lt a b pv b
    (swapL l a pivot) (a + 1) (b - 1)
    (by rw [swapL_length]; exact hb) hpv1 (le_refl (a + 1)) (by omega) (by omega)
    (by omega) (by omega) (fun k x hk1 hk2 hx => by omega)
    (fun k x hk1 hk2 hx => by omega)
  refine ⟨hr1.trans lp.1, lp.2.2.1, lp.2.2.2.1, ?_, lp.2.2.2.2.2⟩
  intro k x hk1 hk2 hx
  rcases Nat.eq_or_lt_of_le hk1 with heq | hlt
  · rw [← heq] at hx
    rw [lp.2.1] at hx
    injection hx with hx
    rw [← hx]
    exact lt_irrefl_of_asym hasym pv
  · exact lp.2.2.2.2.1 k x (by omega) hk2 hx

theorem advanceWhileOrdered_spec (lt : α → α → Bool) (l : List α) (b i : Nat) :
    i ≤ advanceWhileOrdered lt l b i ∧ advanceWhileOrdered lt l b i ≤ max i b ∧
      (∀ k, i ≤ k → k < advanceWhileOrdered lt l b i → lessAt lt l k (k - 1) = false) ∧
      (advanceWhileOrdered lt l b i < b →
        lessAt lt l (advanceWhileOrdered lt l b i)
          (advanceWhileOrdered lt l b i - 1) = true) := by
  unfold advanceWhileOrdered
  by_cases h : i < b ∧ lessAt lt l i (i - 1) = false
  · obtain ⟨h1, h2⟩ := h
    rw [if_pos ⟨h1, h2⟩]
    have ih := advanceWhileOrdered_spec lt l b (i + 1)
    refine ⟨by omega, ?_, fun k hk1 hk2 => ?_, ih.2.2.2⟩
    · have h5 := ih.2.1
      rcases Nat.le_total (i + 1) b with h6 | h6
      · rw [Nat.max_eq_right h6] at h5
        omega
      · rw [Nat.max_eq_left h6] at h5
        omega
    · by_cases hne : k = i
      · rw [hne]
        exact h2
      · exact ih.2.2.1 k (by omega) hk2
  · rw [if_neg h]
    refine ⟨le_refl i, by omega, fun k hk1 hk2 => by omega, fun hib => ?_⟩
    rcases Bool.eq_false_or_eq_true (lessAt lt l i (i - 1)) with ht | hf
    · exact ht
    · exact absurd ⟨hib, hf⟩ h
termination_by b - i
decreasing_by omega

theorem shiftLeftLoop_spec {lt : α → α → Bool}
    (hasym : ∀ x y, lt x y = true → lt y x = false)
    (hneg : ∀ x y z, lt x y = false → lt y z = false → lt x z = false)
    {a b : Nat} :
    ∀ (j : Nat) (l : List α) (x : α), b ≤ l.length → a ≤ j → j < b →
    l.get? j = some x →
    (∀ w, 0 < a → l.get? (a - 1) = some w → lt x w = false) →
    (∀ k y z, a < k → k < j → l.get? (k - 1) = some y → l.get? k = some z →
      lt z y = false) →
    RangeOp l (shiftLeftLoop lt l j) a (j + 1) ∧
      (∀ k y z, a < k → k ≤ j → (shiftLeftLoop lt l j).get? (k - 1) = some y →
        (shiftLeftLoop lt l j).get? k = some z → lt z y = false) := by
  intro j
  induction j using Nat.strong_induction_on with
  | _ j ihj =>
    intro l x hb haj hjb hx hbar hconsec
    unfold shiftLeftLoop
    by_cases h1 : 1 ≤ j
    · rw [if_pos h1]
      obtain ⟨y, hy⟩ := exists_get?_eq (l := l) (i := j - 1) (by omega)
      by_cases h2 : lessAt lt l j (j - 1) = true
      · rw [if_pos h2]
        have hlt : lt x y = true := by
          rw [lessAt_eq hx hy] at h2
          exact h2
        have hja : a < j := by
          rcases Nat.lt_or_ge a j with h5 | h5
          · exact h5
          · have heqa : j = a := by omega
            have h6 := hbar y (by omega) (by rw [← heqa]; simpa using hy)
            rw [h6] at hlt
            exact Bool.noConfusion hlt
        have hx2 : (swapL l j (j - 1)).get? (j - 1) = some x := swapL_get?_snd hx hy
        have hy2 : (swapL l j (j - 1)).get? j = some y := swapL_get?_fst hx hy
        have hbar2 : ∀ w, 0 < a → (swapL l j (j - 1)).get? (a - 1) = some w →
            lt x w = false := by
          intro w ha0 hw
          rw [swapL_get?_other (by omega) (by omega)] at hw
          exact hbar w ha0 hw
        have hconsec2 : ∀ k y2 z2, a < k → k < j - 1 →
            (swapL l j (j - 1)).get? (k - 1) = some y2 →
            (swapL l j (j - 1)).get? k = some z2 → lt z2 y2 = false := by
          intro k y2 z2 hk1 hk2 hy2' hz2
          rw [swapL_get?_other (by omega) (by omega)] at hy2' hz2
          exact hconsec k y2 z2 hk1 (by omega) hy2' hz2
        have ih := ihj (j - 1) (by omega) (swapL l j (j - 1)) x
          (by rw [swapL_length]; exact hb) (by omega) (by omega) hx2 hbar2 hconsec2
        have hswap : RangeOp l (swapL l j (j - 1)) a (j + 1) :=
          swapL_rangeOp (by omega) (by omega) (by omega) (by omega) (by omega)
        have hjkeep : (shiftLeftLoop lt (swapL l j (j - 1)) (j - 1)).get? j = some y := by
          rw [ih.1.2.1 j (by omega)]
          exact hy2
        refine ⟨hswap.trans (ih.1.mono le_rfl (by omega)), ?_⟩
        intro k y2 z2 hk1 hk2 hy2' hz2
        by_cases hkj : k = j
        · rw [hkj] at hz2 hy2'
          rw [hjkeep] at hz2
          injection hz2 with hz2
          rw [← hz2]
          have hSR : SortedRange lt l a j := by
            refine sortedRange_of_adjacent hneg (fun k2 y3 z3 hk3 hk4 hy3 hz3 =>
              hconsec k2 y3 z3 hk3 hk4 hy3 hz3)
          refine ih.1.2.2 (fun v => lt y v = false) ?_ (j - 1) y2 (by omega)
            (by omega) hy2'
          intro m w hm1 hm2 hw
          by_cases hmj : m = j - 1
          · rw [hmj, hx2] at hw
            injection hw with hw
            rw [← hw]
            exact hasym x y hlt
          · rw [swapL_get?_other (by omega) hmj] at hw
            exact hSR m (j - 1) w y hm1 (by omega) (by omega) hw hy
        · exact ih.2 k y2 z2 hk1 (by omega) hy2' hz2
      · rw [if_neg h2]
        refine ⟨RangeOp.refl l a (j + 1), ?_⟩
        intro k y2 z2 hk1 hk2 hy2' hz2
        by_cases hkj : k = j
        · rw [hkj] at hz2 hy2'
          rw [hx] at hz2
          injection hz2 with hz2
          rw [hy] at hy2'
          injection hy2' with hy2'
          rw [← hz2, ← hy2']
          rw [lessAt_eq hx hy] at h2
          simpa using h2
        · exact hconsec k y2 z2 hk1 (by omega) hy2' hz2
    · rw [if_neg h1]
      refine ⟨RangeOp.refl l a (j + 1), ?_⟩
      intro k y2 z2 hk1 hk2 hy2' hz2
      omega

theorem shiftRightLoop_spec (lt : α → α → Bool) (b : Nat) (j : Nat) (l : List α)
    (hb : b ≤ l.length) (h1 : 1 ≤ j) :
    RangeOp l (shiftRightLoop lt b l j) (j - 1) b := by
  unfold shiftRightLoop
  by_cases hjb : j < b
  · rw [if_pos hjb]
    by_cases h2 : lessAt lt l j (j - 1) = true
    · rw [if_pos h2]
      have hswap : RangeOp l (swapL l j (j - 1)) (j - 1) b :=
        swapL_rangeOp (by omega) (by omega) (by omega) (by omega) hb
      have ih := shiftRightLoop_spec lt b (j + 1) (swapL l j (j - 1))
        (by rw [swapL_length]; exact hb) (by omega)
      exact hswap.trans (ih.mono (by omega) le_rfl)
    · rw [if_neg h2]
      exact RangeOp.refl l (j - 1) b
  · rw [if_neg hjb]
    exact RangeOp.refl l (j - 1) b
termination_by b - j
decreasing_by omega

theorem hctx_preserve {lt : α → α → Bool} {l l' : List α} {a b : Nat}
    (hop : RangeOp l l' a b)
    (hctx : ∀ q x w, 0 < a → a ≤ q → q < b → l.get? q = some x →
      l.get? (a - 1) = some w → lt x w = false) :
    ∀ q x w, 0 < a → a ≤ q → q < b → l'.get? q = some x →
      l'.get? (a - 1) = some w → lt x w = false := by
  intro q x w ha0 hq1 hq2 hx hw
  rw [hop.2.1 (a - 1) (by omega)] at hw
  exact hop.2.2 (fun v => lt v w = false)
    (fun k v hk1 hk2 hv => hctx k v w ha0 hk1 hk2 hv hw) q x hq1 hq2 hx

theorem maybeInsStep_spec {lt : α → α → Bool}
    (hasym : ∀ x y, lt x y = true → lt y x = false)
    (hneg : ∀ x y z, lt x y = false → lt y z = false → lt x z = false)
    {a b : Nat} :
    ∀ (steps : Nat) (l : List α) (i : Nat), b ≤ l.length → a + 1 ≤ i → i ≤ b →
    (∀ k y z, a < k → k < i → l.get? (k - 1) = some y → l.get? k = some z →
      lt z y = false) →
    (∀ q x w, 0 < a → a ≤ q → q < b → l.get? q = some x →
      l.get? (a - 1) = some w → lt x w = false) →
    RangeOp l (maybeInsStep lt a b l i steps).2 a b ∧
      ((maybeInsStep lt a b l i steps).1 = true →
        SortedRange lt (maybeInsStep lt a b l i steps).2 a b) := by
  intro steps
  induction steps with
  | zero =>
    intro l i hb hi hib hconsec hctx
    unfold maybeInsStep
    rw [if_pos rfl]
    exact ⟨RangeOp.refl l a b, fun h => Bool.noConfusion h⟩
  | succ sn ih =>
    intro l i hb hi hib hconsec hctx
    have hstep : maybeInsStep lt a b l i (sn + 1) =
        (if advanceWhileOrdered lt l b i = b then (true, l)
         else if b - a < 50 then (false, l)
         else maybeInsStep lt a b
           (if 2 ≤ b - advanceWhileOrdered lt l b i
            then shiftRightLoop lt b
              (if 2 ≤ advanceWhileOrdered lt l b i - a
               then shiftLeftLoop lt
                 (swapL l (advanceWhileOrdered lt l b i)
                   (advanceWhileOrdered lt l b i - 1))
                 (advanceWhileOrdered lt l b i - 1)
               else swapL l (advanceWhileOrdered lt l b i)
                 (advanceWhileOrdered lt l b i - 1))
              (advanceWhileOrdered lt l b i + 1)
            else
              (if 2 ≤ advanceWhileOrdered lt l b i - a
               then shiftLeftLoop lt
                 (swapL l (advanceWhileOrdered lt l b i)
                   (advanceWhileOrdered lt l b i - 1))
                 (advanceWhileOrdered lt l b i - 1)
               else swapL l (advanceWhileOrdered lt l b i)
                 (advanceWhileOrdered lt l b i - 1)))
           (advanceWhileOrdered lt l b i) sn) := by
      rw [maybeInsStep]
      rw [if_neg (by omega)]
      rfl
    rw [hstep]
    have adv := advanceWhileOrdered_spec lt l b i
    set i2 := advanceWhileOrdered lt l b i with hi2def
    have hconsec2 : ∀ k y z, a < k → k < i2 → l.get? (k - 1) = some y →
        l.get? k = some z → lt z y = false := by
      intro k y z hk1 hk2 hy hz
      rcases Nat.lt_or_ge k i with h5 | h5
      · exact hconsec k y z hk1 h5 hy hz
      · have h6 := adv.2.2.1 k h5 hk2
        rw [lessAt_eq hz hy] at h6
        exact h6
    by_cases hib2 : i2 = b
    · rw [if_pos hib2]
      refine ⟨RangeOp.refl l a b, fun _ => ?_⟩
      refine sortedRange_of_adjacent hneg ?_
      intro k y z hk1 hk2 hy hz
      exact hconsec2 k y z hk1 (by omega) hy hz
    · rw [if_neg hib2]
      by_cases h50 : b - a < 50
      · rw [if_pos h50]
        exact ⟨RangeOp.refl l a b, fun h => Bool.noConfusion h⟩
      · rw [if_neg h50]
        have hii2 : i ≤ i2 := adv.1
        have hi2b : i2 < b := by
          have h5 := adv.2.1
          rw [Nat.max_eq_right hib] at h5
          omega
        obtain ⟨x, hx⟩ := exists_get?_eq (l := l) (i := i2) (by omega)
        obtain ⟨y, hy⟩ := exists_get?_eq (l := l) (i := i2 - 1) (by omega)
        have hlt : lt x y = true := by
          have h5 := adv.2.2.2 hi2b
          rw [lessAt_eq hx hy] at h5
          exact h5
        have hswap : RangeOp l (swapL l i2 (i2 - 1)) a b :=
          swapL_rangeOp (by omega) (by omega) (by omega) (by omega) hb
        have hx2 : (swapL l i2 (i2 - 1)).get? (i2 - 1) = some x := swapL_get?_snd hx hy
        have hy2 : (swapL l i2 (i2 - 1)).get? i2 = some y := swapL_get?_fst hx hy
        have hconsec3 : ∀ k y2 z2, a < k → k < i2 - 1 →
            (swapL l i2 (i2 - 1)).get? (k - 1) = some y2 →
            (swapL l i2 (i2 - 1)).get? k = some z2 → lt z2 y2 = false := by
          intro k y2 z2 hk1 hk2 hy2' hz2'
          rw [swapL_get?_other (by omega) (by omega)] at hy2' hz2'
          exact hconsec2 k y2 z2 hk1 (by omega) hy2' hz2'
        set l2 := swapL l i2 (i2 - 1) with hl2def
        have hl3 : RangeOp l2 (if 2 ≤ i2 - a then shiftLeftLoop lt l2 (i2 - 1) else l2)
            a i2 ∧
            (∀ k y2 z2, a < k → k < i2 →
              (if 2 ≤ i2 - a then shiftLeftLoop lt l2 (i2 - 1) else l2).get? (k - 1) =
                some y2 →
              (if 2 ≤ i2 - a then shiftLeftLoop lt l2 (i2 - 1) else l2).get? k =
                some z2 → lt z2 y2 = false) := by
          by_cases hcase : 2 ≤ i2 - a
          · rw [if_pos hcase]
            have hbar : ∀ w, 0 < a → l2.get? (a - 1) = some w → lt x w = false := by
              intro w ha0 hw
              rw [hl2def] at hw
              rw [swapL_get?_other (by omega) (by omega)] at hw
              exact hctx i2 x w ha0 (by omega) (by omega) hx hw
            have hsl := shiftLeftLoop_spec hasym hneg (a := a) (b := b) (i2 - 1) l2 x
              (by rw [hl2def, swapL_length]; exact hb) (by omega) (by omega) hx2 hbar
              hconsec3
            constructor
            · exact hsl.1.mono le_rfl (by omega)
            · intro k y2 z2 hk1 hk2 hy2' hz2'
              exact hsl.2 k y2 z2 hk1 (by omega) hy2' hz2'
          · rw [if_neg hcase]
            refine ⟨RangeOp.refl l2 a i2, ?_⟩
            intro k y2 z2 hk1 hk2 hy2' hz2'
            omega
        set l3 := if 2 ≤ i2 - a then shiftLeftLoop lt l2 (i2 - 1) else l2 with hl3def
        have hop34 : RangeOp l3 (if 2 ≤ b - i2 then shiftRightLoop lt b l3 (i2 + 1)
            else l3) i2 b := by
          by_cases hcase : 2 ≤ b - i2
          · rw [if_pos hcase]
            have hlen3 : b ≤ l3.length := by
              rw [hl3.1.length, hl2def, swapL_length]
              exact hb
            exact shiftRightLoop_spec lt b (i2 + 1) l3 hlen3 (by omega)
          · rw [if_neg hcase]
            exact RangeOp.refl l3 i2 b
        set l4 := if 2 ≤ b - i2 then shiftRightLoop lt b l3 (i2 + 1) else l3 with hl4def
        have hchain : RangeOp l l4 a b :=
          (hswap.trans (hl3.1.mono le_rfl (by omega))).trans
            (hop34.mono (by omega) le_rfl)
        have hconsec4 : ∀ k y2 z2, a < k → k < i2 → l4.get? (k - 1) = some y2 →
            l4.get? k = some z2 → lt z2 y2 = false := by
          intro k y2 z2 hk1 hk2 hy2' hz2'
          rw [hop34.2.1 (k - 1) (by omega)] at hy2'
          rw [hop34.2.1 k (by omega)] at hz2'
          exact hl3.2 k y2 z2 hk1 hk2 hy2' hz2'
        have hctx4 := hctx_preserve hchain hctx
        have hrec := ih l4 i2 (by rw [hchain.length]; exact hb) (by omega) (by omega)
          hconsec4 hctx4
        exact ⟨hchain.trans hrec.1, hrec.2⟩

theorem maybeInsertionSortGo_spec {lt : α → α → Bool}
    (hasym : ∀ x y, lt x y = true → lt y x = false)
    (hneg : ∀ x y z, lt x y = false → lt y z = false → lt x z = false)
    (l : List α) (a b : Nat) (hb : b ≤ l.length) (hab : a + 1 ≤ b)
    (hctx : ∀ q x w, 0 < a → a ≤ q → q < b → l.get? q = some x →
      l.get? (a - 1) = some w → lt x w = false) :
    RangeOp l (maybeInsertionSortGo lt l a b).2 a b ∧
      ((maybeInsertionSortGo lt l a b).1 = true →
        SortedRange lt (maybeInsertionSortGo lt l a b).2 a b) := by
  unfold maybeInsertionSortGo
  exact maybeInsStep_spec hasym hneg 5 l (a + 1) hb (le_refl (a + 1)) hab
    (fun k y z hk1 hk2 hy hz => by omega) hctx

theorem reverseRangeLoop_rangeOp {a b : Nat} :
    ∀ (j i : Nat) (l : List α), b ≤ l.length → a ≤ i → j < b →
    RangeOp l (reverseRangeLoop l i j) a b := by
  intro j
  induction j using Nat.strong_induction_on with
  | _ j ihj =>
    intro i l hb hi hjb
    unfold reverseRangeLoop
    by_cases hij : i < j
    · rw [if_pos hij]
      have hswap : RangeOp l (swapL l i j) a b :=
        swapL_rangeOp hi (by omega) (by omega) hjb hb
      have ih := ihj (j - 1) (by omega) (i + 1) (swapL l i j)
        (by rw [swapL_length]; exact hb) (by omega) (by omega)
      exact hswap.trans ih
    · rw [if_neg hij]
      exact RangeOp.refl l a b

theorem reverseRangeGo_rangeOp (l : List α) (a b : Nat) (hb : b ≤ l.length)
    (hab : a < b) : RangeOp l (reverseRangeGo l a b) a b := by
  unfold reverseRangeGo
  exact reverseRangeLoop_rangeOp (b - 1) a l hb (le_refl a) (by omega)

theorem pick_lt (rv len : Nat) (h8 : 8 ≤ len) :
    (if len ≤ rv % 2 ^ bitsLen len then rv % 2 ^ bitsLen len - len
     else rv % 2 ^ bitsLen len) < len := by
  have hmod : rv % 2 ^ bitsLen len < 2 ^ bitsLen len := Nat.mod_lt _ (by positivity)
  have hble : 2 ^ bitsLen len ≤ 2 * len := by
    unfold bitsLen
    rw [if_neg (by omega)]
    rw [pow_succ]
    have h5 := Nat.log2_self_le (n := len) (by omega)
    omega
  by_cases hc : len ≤ rv % 2 ^ bitsLen len
  · rw [if_pos hc]
    omega
  · rw [if_neg hc]
    omega

theorem breakPatternsGo_rangeOp (l : List α) (a b : Nat) (hb : b ≤ l.length) :
    RangeOp l (breakPatternsGo l a b) a b := by
  simp only [breakPatternsGo]
  by_cases h8 : 8 ≤ b - a
  · rw [if_pos h8]
    have hq : 2 ≤ (b - a) / 4 := by omega
    have hp1 := pick_lt (xorshiftNext (b - a)) (b - a) h8
    have hp2 := pick_lt (xorshiftNext (xorshiftNext (b - a))) (b - a) h8
    have hp3 := pick_lt (xorshiftNext (xorshiftNext (xorshiftNext (b - a)))) (b - a) h8
    refine ((swapL_rangeOp (by omega) (by omega) (by omega) (by omega) hb).trans
      (swapL_rangeOp (by omega) (by omega) (by omega) (by omega)
        (by rw [swapL_length]; exact hb))).trans
      (swapL_rangeOp (by omega) (by omega) (by omega) (by omega)
        (by rw [swapL_length, swapL_length]; exact hb))
  · rw [if_neg h8]
    exact RangeOp.refl l a b

theorem order2Go_cases (lt : α → α → Bool) (l : List α) (a b s : Nat) :
    ((order2Go lt l a b s).1 = a ∨ (order2Go lt l a b s).1 = b) ∧
    ((order2Go lt l a b s).2.1 = a ∨ (order2Go lt l a b s).2.1 = b) := by
  unfold order2Go
  split
  · exact ⟨Or.inr rfl, Or.inl rfl⟩
  · exact ⟨Or.inl rfl, Or.inr rfl⟩

theorem medianGo_mem (lt : α → α → Bool) (l : List α) (a b c s : Nat) :
    (medianGo lt l a b c s).1 = a ∨ (medianGo lt l a b c s).1 = b ∨
      (medianGo lt l a b c s).1 = c := by
  simp only [medianGo]
  rcases (order2Go_cases lt l (order2Go lt l a b s).1
      (order2Go lt l (order2Go lt l a b s).2.1 c (order2Go lt l a b s).2.2).1
      (order2Go lt l (order2Go lt l a b s).2.1 c
        (order2Go lt l a b s).2.2).2.2).2 with h3 | h3 <;> rw [h3]
  · rcases (order2Go_cases lt l a b s).1 with h1 | h1 <;> rw [h1]
    · exact Or.inl rfl
    · exact Or.inr (Or.inl rfl)
  · rcases (order2Go_cases lt l (order2Go lt l a b s).2.1 c
        (order2Go lt l a b s).2.2).1 with h2 | h2 <;> rw [h2]
    · rcases (order2Go_cases lt l a b s).2 with h1 | h1 <;> rw [h1]
      · exact Or.inl rfl
      · exact Or.inr (Or.inl rfl)
    · exact Or.inr (Or.inr rfl)

theorem medianAdjacentGo_mem (lt : α → α → Bool) (l : List α) (a s : Nat) :
    (medianAdjacentGo lt l a s).1 = a - 1 ∨ (medianAdjacentGo lt l a s).1 = a ∨
      (medianAdjacentGo lt l a s).1 = a + 1 := by
  unfold medianAdjacentGo
  exact medianGo_mem lt l (a - 1) a (a + 1) s

theorem choosePivotGo_bounds (lt : α → α → Bool) (l : List α) (a b : Nat)
    (hab : a < b) :
    a ≤ (choosePivotGo lt l a b).1 ∧ (choosePivotGo lt l a b).1 < b := by
  simp only [choosePivotGo]
  by_cases h8 : 8 ≤ b - a
  · rw [if_pos h8]
    by_cases h50 : 50 ≤ b - a
    · rw [if_pos h50]
      have hmi := medianAdjacentGo_mem lt l (a + (b - a) / 4 * 1) 0
      have hmj := medianAdjacentGo_mem lt l (a + (b - a) / 4 * 2)
        (medianAdjacentGo lt l (a + (b - a) / 4 * 1) 0).2
      have hmk := medianAdjacentGo_mem lt l (a + (b - a) / 4 * 3)
        (medianAdjacentGo lt l (a + (b - a) / 4 * 2)
          (medianAdjacentGo lt l (a + (b - a) / 4 * 1) 0).2).2
      have hjs := medianGo_mem lt l
        (medianAdjacentGo lt l (a + (b - a) / 4 * 1) 0).1
        (medianAdjacentGo lt l (a + (b - a) / 4 * 2)
          (medianAdjacentGo lt l (a + (b - a) / 4 * 1) 0).2).1
        (medianAdjacentGo lt l (a + (b - a) / 4 * 3)
          (medianAdjacentGo lt l (a + (b - a) / 4 * 2)
            (medianAdjacentGo lt l (a + (b - a) / 4 * 1) 0).2).2).1
        (medianAdjacentGo lt l (a + (b - a) / 4 * 3)
          (medianAdjacentGo lt l (a + (b - a) / 4 * 2)
            (medianAdjacentGo lt l (a + (b - a) / 4 * 1) 0).2).2).2
      omega
    · rw [if_neg h50]
      have hjs := medianGo_mem lt l (a + (b - a) / 4 * 1) (a + (b - a) / 4 * 2)
        (a + (b - a) / 4 * 3) 0
      omega
  · rw [if_neg h8]
    exact ⟨(by omega : a ≤ a + (b - a) / 4 * 2), (by omega : a + (b - a) / 4 * 2 < b)⟩

theorem sorted_glue {lt : α → α → Bool}
    (hasym : ∀ x y, lt x y = true → lt y x = false)
    (hneg : ∀ x y z, lt x y = false → lt y z = false → lt x z = false)
    {res : List α} {a b : Nat} (m : Nat) (pvv : α)
    (hmid : res.get? m = some pvv)
    (hsl : SortedRange lt res a m)
    (hsr : SortedRange lt res (m + 1) b)
    (hvl : ∀ k x, a ≤ k → k < m → res.get? k = some x → lt x pvv = true)
    (hvr : ∀ k x, m < k → k < b → res.get? k = some x → lt x pvv = false) :
    SortedRange lt res a b := by
  intro i j x y hi hij hj hx hy
  rcases Nat.lt_trichotomy j m with hjm | hjm | hjm
  · exact hsl i j x y hi hij hjm hx hy
  · rw [hjm] at hy
    rw [hmid] at hy
    injection hy with hy
    rw [← hy]
    exact hasym x pvv (hvl i x hi (by omega) hx)
  · have hyj : lt y pvv = false := hvr j y hjm hj hy
    rcases Nat.lt_trichotomy i m with him | him | him
    · exact hneg y pvv x hyj (hasym x pvv (hvl i x hi him hx))
    · rw [him] at hx
      rw [hmid] at hx
      injection hx with hx
      rw [← hx]
      exact hyj
    · exact hsr i j x y (by omega) hij hj hx hy

theorem sorted_glue_equal {lt : α → α → Bool}
    (hasym : ∀ x y, lt x y = true → lt y x = false)
    (hneg : ∀ x y z, lt x y = false → lt y z = false → lt x z = false)
    {res : List α} {a m b : Nat} {pvv w : α}
    (hw : lt w pvv = false)
    (hsr : SortedRange lt res m b)
    (hvl : ∀ k x, a ≤ k → k < m → res.get? k = some x →
      lt pvv x = false ∧ lt x w = false)
    (hvr : ∀ k x, m ≤ k → k < b → res.get? k = some x → lt pvv x = true) :
    SortedRange lt res a b := by
  intro i j x y hi hij hj hx hy
  rcases Nat.lt_or_ge j m with hjm | hjm
  · have hxl := hvl i x hi (by omega) hx
    have hyl := hvl j y (by omega) hjm hy
    have hypv : lt y pvv = false := hneg y w pvv hyl.2 hw
    exact hneg y pvv x hypv hxl.1
  · have hypv : lt y pvv = false := hasym pvv y (hvr j y hjm hj hy)
    rcases Nat.lt_or_ge i m with him | him
    · exact hneg y pvv x hypv (hvl i x hi him hx).1
    · exact hsr i j x y him hij hj hx hy

theorem pdqsortGo_spec {lt : α → α → Bool}
    (hasym : ∀ x y, lt x y = true → lt y x = false)
    (hneg : ∀ x y z, lt x y = false → lt y z = false → lt x z = false) :
    ∀ (fuel : Nat) (l : List α) (a b limit : Nat) (wb wp : Bool),
    b ≤ l.length → b - a < fuel →
    (∀ q x w, 0 < a → a ≤ q → q < b → l.get? q = some x →
      l.get? (a - 1) = some w → lt x w = false) →
    RangeOp l (pdqsortGo lt fuel l a b limit wb wp) a b ∧
      SortedRange lt (pdqsortGo lt fuel l a b limit wb wp) a b := by
  intro fuel
  induction fuel with
  | zero =>
    intro l a b limit wb wp hb hfuel hctx
    exact absurd hfuel (by omega)
  | succ fn ih =>
    intro l a b limit wb wp hb hfuel hctx
    by_cases hsmall : b - a ≤ 12
    · rw [pdqsortGo]
      rw [dif_neg (show ¬(fn + 1 = 0) by omega), if_pos hsmall]
      exact insertionSortGo_rangeSpec hasym hneg l a b hb
    · by_cases hlim : limit = 0
      · rw [pdqsortGo]
        rw [dif_neg (show ¬(fn + 1 = 0) by omega), if_neg hsmall, if_pos hlim]
        exact heapSortGo_spec hasym hneg l a b hb
      · rw [pdqsortGo]
        rw [dif_neg (show ¬(fn + 1 = 0) by omega), if_neg hsmall, if_neg hlim]
        set L1 := if wb = true then l else breakPatternsGo l a b with hL1def
        have hopL1 : RangeOp l L1 a b := by
          rw [hL1def]
          by_cases hwb : wb = true
          · rw [if_pos hwb]
            exact RangeOp.refl l a b
          · rw [if_neg hwb]
            exact breakPatternsGo_rangeOp l a b hb
        have hlenL1 : L1.length = l.length := hopL1.length
        set lim2 := if wb = true then limit else limit - 1 with hlim2def
        set pv := choosePivotGo lt L1 a b with hpvdef
        have hpvb : a ≤ pv.1 ∧ pv.1 < b := by
          have h5 := choosePivotGo_bounds lt L1 a b (by omega)
          rw [← hpvdef] at h5
          exact h5
        set l2 := if pv.2 = SortHint.decreasing then reverseRangeGo L1 a b else L1
          with hl2def
        set pivot := if pv.2 = SortHint.decreasing then b - 1 - (pv.1 - a) else pv.1
          with hpivotdef
        set hint := if pv.2 = SortHint.decreasing then SortHint.increasing else pv.2
          with hhintdef
        have hopl2 : RangeOp L1 l2 a b := by
          rw [hl2def]
          by_cases hdec : pv.2 = SortHint.decreasing
          · rw [if_pos hdec]
            exact reverseRangeGo_rangeOp L1 a b (by omega) (by omega)
          · rw [if_neg hdec]
            exact RangeOp.refl L1 a b
        have hpivb : a ≤ pivot ∧ pivot < b := by
          rw [hpivotdef]
          by_cases hdec : pv.2 = SortHint.decreasing
          · rw [if_pos hdec]
            omega
          · rw [if_neg hdec]
            exact hpvb
        have hopl2' : RangeOp l l2 a b := hopL1.trans hopl2
        have hlen2 : l2.length = l.length := hopl2'.length
        have hctx2 := hctx_preserve hopl2' hctx
        have hrest : ∀ (l3 res : List α) (wb2 wp2 : Bool),
            l3.length = l.length →
            (∀ q x w, 0 < a → a ≤ q → q < b → l3.get? q = some x →
              l3.get? (a - 1) = some w → lt x w = false) →
            res = (if 0 < a ∧ lessAt lt l3 (a - 1) pivot = false then
                pdqsortGo lt fn (partitionEqualGo lt l3 a b pivot).2
                  (partitionEqualGo lt l3 a b pivot).1 b lim2 wb2 wp2
              else
                if (partitionGo lt l3 a b pivot).1 - a <
                    b - (partitionGo lt l3 a b pivot).1 then
                  pdqsortGo lt fn
                    (pdqsortGo lt fn (partitionGo lt l3 a b pivot).2.2 a
                      (partitionGo lt l3 a b pivot).1 lim2 true true)
                    ((partitionGo lt l3 a b pivot).1 + 1) b lim2
                    (decide ((b - a) / 8 ≤
                      min ((partitionGo lt l3 a b pivot).1 - a)
                        (b - (partitionGo lt l3 a b pivot).1)))
                    (partitionGo lt l3 a b pivot).2.1
                else
                  pdqsortGo lt fn
                    (pdqsortGo lt fn (partitionGo lt l3 a b pivot).2.2
                      ((partitionGo lt l3 a b pivot).1 + 1) b lim2 true true)
                    a (partitionGo lt l3 a b pivot).1 lim2
                    (decide ((b - a) / 8 ≤
                      min ((partitionGo lt l3 a b pivot).1 - a)
                        (b - (partitionGo lt l3 a b pivot).1)))
                    (partitionGo lt l3 a b pivot).2.1) →
            RangeOp l3 res a b ∧ SortedRange lt res a b := by
          intro l3 res wb2 wp2 hlen3 hctx3 hres
          subst hres
          by_cases hpe : 0 < a ∧ lessAt lt l3 (a - 1) pivot = false
          · rw [if_pos hpe]
            obtain ⟨pvv, hpvv⟩ := exists_get?_eq (l := l3) (i := pivot)
              (by rw [hlen3]; omega)
            have pe := partitionEqualGo_spec hasym l3 a b pivot pvv
              (by rw [hlen3]; exact hb) (by omega) hpivb.1 hpivb.2 hpvv
            obtain ⟨w, hwv⟩ := exists_get?_eq (l := l3) (i := a - 1)
              (by rw [hlen3]; omega)
            have hwpv : lt w pvv = false := by
              have h5 := hpe.2
              rw [lessAt_eq hwv hpvv] at h5
              exact h5
            have hvl2 : ∀ k x, a ≤ k → k < (partitionEqualGo lt l3 a b pivot).1 →
                (partitionEqualGo lt l3 a b pivot).2.get? k = some x →
                lt pvv x = false ∧ lt x w = false := by
              intro k x hk1 hk2 hx
              refine ⟨pe.2.2.2.1 k x hk1 hk2 hx, ?_⟩
              refine pe.1.2.2 (fun v => lt v w = false) ?_ k x hk1
                (by have := pe.2.2.1; omega) hx
              intro q v hq1 hq2 hv
              exact hctx3 q v w hpe.1 hq1 hq2 hv hwv
            have hmid1 : a + 1 ≤ (partitionEqualGo lt l3 a b pivot).1 := pe.2.1
            have hmidb : (partitionEqualGo lt l3 a b pivot).1 ≤ b := pe.2.2.1
            have hctxpe : ∀ q x w2, 0 < (partitionEqualGo lt l3 a b pivot).1 →
                (partitionEqualGo lt l3 a b pivot).1 ≤ q → q < b →
                (partitionEqualGo lt l3 a b pivot).2.get? q = some x →
                (partitionEqualGo lt l3 a b pivot).2.get?
                  ((partitionEqualGo lt l3 a b pivot).1 - 1) = some w2 →
                lt x w2 = false := by
              intro q x w2 h0 hq1 hq2 hx hw2
              have hxgt : lt pvv x = true := pe.2.2.2.2 q x hq1 hq2 hx
              have hw2f := hvl2 ((partitionEqualGo lt l3 a b pivot).1 - 1) w2
                (by omega) (by omega) hw2
              exact hneg x pvv w2 (hasym pvv x hxgt) hw2f.1
            have hlenpe : (partitionEqualGo lt l3 a b pivot).2.length = l.length := by
              rw [pe.1.length, hlen3]
            have hrec := ih (partitionEqualGo lt l3 a b pivot).2
              (partitionEqualGo lt l3 a b pivot).1 b lim2 wb2 wp2
              (by rw [hlenpe]; exact hb) (by omega) hctxpe
            constructor
            · exact pe.1.trans (hrec.1.mono (by omega) le_rfl)
            · refine sorted_glue_equal hasym hneg hwpv hrec.2 ?_ ?_
              · intro k x hk1 hk2 hx
                rw [hrec.1.2.1 k (by omega)] at hx
                exact hvl2 k x hk1 hk2 hx
              · intro k x hk1 hk2 hx
                exact hrec.1.2.2 (fun v => lt pvv v = true)
                  (fun q v hq1 hq2 hv => pe.2.2.2.2 q v hq1 hq2 hv) k x hk1 hk2 hx
          · rw [if_neg hpe]
            obtain ⟨pvv, hpvv⟩ := exists_get?_eq (l := l3) (i := pivot)
              (by rw [hlen3]; omega)
            have pr := partitionGo_spec lt l3 a b pivot pvv
              (by rw [hlen3]; exact hb) (by omega) hpivb.1 hpivb.2 hpvv
            set m := (partitionGo lt l3 a b pivot).1 with hmdef
            set lp := (partitionGo lt l3 a b pivot).2.2 with hlpdef
            have hopp : RangeOp l3 lp a b := pr.1
            have hma : a ≤ m := pr.2.1
            have hmb : m < b := pr.2.2.1
            have hmpv : lp.get? m = some pvv := pr.2.2.2.1
            have hlft : ∀ k x, a ≤ k → k < m → lp.get? k = some x →
                lt x pvv = true := pr.2.2.2.2.1
            have hrgt : ∀ k x, m < k → k < b → lp.get? k = some x →
                lt x pvv = false := pr.2.2.2.2.2
            have hlenlp : lp.length = l.length := by rw [hopp.length, hlen3]
            have hctxlp := hctx_preserve hopp hctx3
            by_cases hlr : m - a < b - m
            · rw [if_pos hlr]
              have hctxl4 : ∀ q x w2, 0 < a → a ≤ q → q < m → lp.get? q = some x →
                  lp.get? (a - 1) = some w2 → lt x w2 = false :=
                fun q x w2 h0 hq1 hq2 hx hw2 =>
                  hctxlp q x w2 h0 hq1 (by omega) hx hw2
              have hrec1 := ih lp a m lim2 true true (by rw [hlenlp]; omega)
                (by omega) hctxl4
              set l5 := pdqsortGo lt fn lp a m lim2 true true with hl5def
              have hlenl5 : l5.length = l.length := by rw [hrec1.1.length, hlenlp]
              have hl5mid : l5.get? m = some pvv := by
                rw [hrec1.1.2.1 m (by omega)]
                exact hmpv
              have hctxl5 : ∀ q x w2, 0 < m + 1 → m + 1 ≤ q → q < b →
                  l5.get? q = some x → l5.get? (m + 1 - 1) = some w2 →
                  lt x w2 = false := by
                intro q x w2 h0 hq1 hq2 hx hw2
                have he : m + 1 - 1 = m := by omega
                rw [he, hl5mid] at hw2
                injection hw2 with hw2
                rw [hrec1.1.2.1 q (by omega)] at hx
                rw [← hw2]
                exact hrgt q x (by omega) hq2 hx
              have hrec2 := ih l5 (m + 1) b lim2
                (decide ((b - a) / 8 ≤ min (m - a) (b - m)))
                (partitionGo lt l3 a b pivot).2.1
                (by rw [hlenl5]; exact hb) (by omega) hctxl5
              constructor
              · exact (hopp.trans (hrec1.1.mono le_rfl (by omega))).trans
                  (hrec2.1.mono (by omega) le_rfl)
              · refine sorted_glue hasym hneg m pvv ?_ ?_ ?_ ?_ ?_
                · rw [hrec2.1.2.1 m (by omega)]
                  exact hl5mid
                · exact sortedRange_congr
                    (fun i hi1 hi2 => hrec2.1.2.1 i (by omega)) hrec1.2
                · exact hrec2.2
                · intro k x hk1 hk2 hx
                  rw [hrec2.1.2.1 k (by omega)] at hx
                  exact hrec1.1.2.2 (fun v => lt v pvv = true)
                    (fun q v hq1 hq2 hv => hlft q v hq1 hq2 hv) k x hk1 hk2 hx
                · intro k x hk1 hk2 hx
                  refine hrec2.1.2.2 (fun v => lt v pvv = false) ?_ k x (by omega)
                    hk2 hx
                  intro q v hq1 hq2 hv
                  rw [hrec1.1.2.1 q (by omega)] at hv
                  exact hrgt q v (by omega) hq2 hv
            · rw [if_neg hlr]
              have hctxR : ∀ q x w2, 0 < m + 1 → m + 1 ≤ q → q < b →
                  lp.get? q = some x → lp.get? (m + 1 - 1) = some w2 →
                  lt x w2 = false := by
                intro q x w2 h0 hq1 hq2 hx hw2
                have he : m + 1 - 1 = m := by omega
                rw [he, hmpv] at hw2
                injection hw2 with hw2
                rw [← hw2]
                exact hrgt q x (by omega) hq2 hx
              have hrec1 := ih lp (m + 1) b lim2 true true
                (by rw [hlenlp]; exact hb) (by omega) hctxR
              set l5 := pdqsortGo lt fn lp (m + 1) b lim2 true true with hl5def
              have hlenl5 : l5.length = l.length := by rw [hrec1.1.length, hlenlp]
              have hl5mid : l5.get? m = some pvv := by
                rw [hrec1.1.2.1 m (by omega)]
                exact hmpv
              have hctxL : ∀ q x w2, 0 < a → a ≤ q → q < m → l5.get? q = some x →
                  l5.get? (a - 1) = some w2 → lt x w2 = false := by
                intro q x w2 h0 hq1 hq2 hx hw2
                rw [hrec1.1.2.1 q (by omega)] at hx
                rw [hrec1.1.2.1 (a - 1) (by omega)] at hw2
                exact hctxlp q x w2 h0 hq1 (by omega) hx hw2
              have hrec2 := ih l5 a m lim2
                (decide ((b - a) / 8 ≤ min (m - a) (b - m)))
                (partitionGo lt l3 a b pivot).2.1
                (by rw [hlenl5]; omega) (by omega) hctxL
              constructor
              · exact (hopp.trans (hrec1.1.mono (by omega) le_rfl)).trans
                  (hrec2.1.mono le_rfl (by omega))
              · refine sorted_glue hasym hneg m pvv ?_ ?_ ?_ ?_ ?_
                · rw [hrec2.1.2.1 m (by omega)]
                  exact hl5mid
                · exact hrec2.2
                · exact sortedRange_congr
                    (fun i hi1 hi2 => hrec2.1.2.1 i (by omega)) hrec1.2
                · intro k x hk1 hk2 hx
                  refine hrec2.1.2.2 (fun v => lt v pvv = true) ?_ k x hk1 hk2 hx
                  intro q v hq1 hq2 hv
                  rw [hrec1.1.2.1 q (by omega)] at hv
                  exact hlft q v hq1 hq2 hv
                · intro k x hk1 hk2 hx
                  rw [hrec2.1.2.1 k (by omega)] at hx
                  exact hrec1.1.2.2 (fun v => lt v pvv = false)
                    (fun q v hq1 hq2 hv => hrgt q v (by omega) hq2 hv) k x
                    (by omega) hk2 hx
        by_cases hC3 : wb = true ∧ wp = true ∧ hint = SortHint.increasing
        · rw [if_pos hC3]
          have hms := maybeInsertionSortGo_spec hasym hneg l2 a b (by omega)
            (by omega) hctx2
          set ms := maybeInsertionSortGo lt l2 a b with hmsdef
          by_cases hflag : ms.1 = true
          · rw [if_pos hflag]
            exact ⟨hopl2'.trans hms.1, hms.2 hflag⟩
          · rw [if_neg hflag]
            have hlen3 : ms.2.length = l.length := by rw [hms.1.length, hlen2]
            have hctx3 := hctx_preserve hms.1 hctx2
            have hr := hrest ms.2 _ wb wp hlen3 hctx3 rfl
            exact ⟨(hopl2'.trans hms.1).trans hr.1, hr.2⟩
        · rw [if_neg hC3]
          have hr := hrest l2 _ wb wp hlen2 hctx2 rfl
          exact ⟨hopl2'.trans hr.1, hr.2⟩

theorem sortSliceGo_spec {lt : α → α → Bool}
    (hasym : ∀ x y, lt x y = true → lt y x = false)
    (hneg : ∀ x y z, lt x y = false → lt y z = false → lt x z = false)
    (l : List α) :
    (sortSliceGo lt l).Perm l ∧
      List.Pairwise (fun x y => lt y x = false) (sortSliceGo lt l) := by
  unfold sortSliceGo
  have h := pdqsortGo_spec hasym hneg (2 * l.length + 2) l 0 l.length
    (bitsLen l.length) true true (le_refl l.length) (by omega)
    (fun q x w h0 => absurd h0 (by omega))
  refine ⟨h.1.1, ?_⟩
  rw [List.pairwise_iff_getElem]
  intro i j hi hj hij
  have hlen : (pdqsortGo lt (2 * l.length + 2) l 0 l.length (bitsLen l.length)
      true true).length = l.length := h.1.1.length_eq
  refine h.2 i j _ _ (Nat.zero_le i) hij (by omega) ?_ ?_
  · rw [List.get?_eq_getElem?, List.getElem?_eq_getElem hi]
  · rw [List.get?_eq_getElem?, List.getElem?_eq_getElem hj]


/-- Folding the running total equals summing price times quantity. -/
theorem calculateTotalPrice_eq_sum (items : List OrderItem) :
    calculateTotalPrice items = (items.map fun i => i.Price * (i.Quantity : ℚ)).sum := by
  have h : ∀ init : ℚ,
      items.foldl (fun total item => total + item.Price * (item.Quantity : ℚ)) init =
        init + (items.map fun i => i.Price * (i.Quantity : ℚ)).sum := by
    induction items with
    | nil => intro init; simp
    | cons x xs ih => intro init; simp [ih, add_assoc]
  simpa [calculateTotalPrice] using h 0

/-- Evaluation of CreateOrder on the concrete pricing scenario. -/
theorem createOrder_concrete_eval :
    OrderService.CreateOrder exCreateReq "order-1" 7 = Except.ok exCreatedOrder := by
  simp only [OrderService.CreateOrder, exCreateReq]
  rw [if_neg (by decide), if_neg (by simp)]
  norm_num [convertOrderItems, calculateTotalPrice, Order.CalculateFees, convertOrderType,
    convertPaymentMethod, convertLocation, exCreatedOrder, exLoc]

/-- C1: every order created by CreateOrder has total price equal to the sum of
price times quantity over its items, platform fee a tenth and provider fee
eight tenths of the total, status CREATED and a one-entry status history; the
concrete two-item scenario yields 25, 2.5 and 20. -/
theorem createOrder_pricing :
    (∀ (req : CreateOrderRequest) (orderID : String) (now : Nat) (o : Order),
      OrderService.CreateOrder req orderID now = Except.ok o →
      o.TotalPrice = (o.Items.map fun i => i.Price * (i.Quantity : ℚ)).sum ∧
      o.PlatformFee = 0.1 * o.TotalPrice ∧
      o.ProviderFee = 0.8 * o.TotalPrice ∧
      o.Status = StatusCreated ∧
      o.StatusHistory.length = 1) ∧
    OrderService.CreateOrder exCreateReq "order-1" 7 = Except.ok exCreatedOrder ∧
    exCreatedOrder.TotalPrice = 25 ∧ exCreatedOrder.PlatformFee = 2.5 ∧
    exCreatedOrder.ProviderFee = 20 ∧ exCreatedOrder.Status = StatusCreated ∧
    exCreatedOrder.StatusHistory.length = 1 := by
  refine ⟨?_, createOrder_concrete_eval, rfl, rfl, rfl, rfl, rfl⟩
  intro req orderID now o h
  simp only [OrderService.CreateOrder] at h
  split at h
  · exact absurd h (by simp)
  · split at h
    · exact absurd h (by simp)
    · simp only [Except.ok.injEq] at h
      subst h
      refine ⟨?_, ?_, ?_, rfl, rfl⟩ <;>
        simp [Order.CalculateFees, calculateTotalPrice_eq_sum, mul_comm]

/-- Witness for C1: the universal part applied to the concrete scenario. -/
theorem createOrder_pricing_witness :
    exCreatedOrder.TotalPrice =
      (exCreatedOrder.Items.map fun i => i.Price * (i.Quantity : ℚ)).sum ∧
    exCreatedOrder.PlatformFee = 0.1 * exCreatedOrder.TotalPrice ∧
    exCreatedOrder.ProviderFee = 0.8 * exCreatedOrder.TotalPrice ∧
    exCreatedOrder.Status = StatusCreated ∧
    exCreatedOrder.StatusHistory.length = 1 :=
  createOrder_pricing.1 exCreateReq "order-1" 7 exCreatedOrder createOrder_concrete_eval

/-- The ETA is 222 times the squared angular difference. -/
theorem estimateArrival_eq (location : OrderLocation) (destination : Location) :
    estimateArrivalMinutes location destination = angularDistSq location destination * 222 := by
  simp only [estimateArrivalMinutes, angularDistSq]
  ring

/-- C9: the ETA equals the squared-coordinate pseudo-distance scaled by 111,
divided by the constant speed 30 and converted to minutes, and it is monotone
non-decreasing in the angular distance between report and target. -/
theorem estimateArrival_formula_monotone :
    (∀ (location : OrderLocation) (destination : Location),
      estimateArrivalMinutes location destination =
        angularDistSq location destination * 111 / 30 * 60) ∧
    (∀ (l1 l2 : OrderLocation) (d1 d2 : Location),
      angularDistSq l1 d1 ≤ angularDistSq l2 d2 →
      estimateArrivalMinutes l1 d1 ≤ estimateArrivalMinutes l2 d2) := by
  constructor
  · intro location destination
    rfl
  · intro l1 l2 d1 d2 h
    rw [estimateArrival_eq, estimateArrival_eq]
    linarith

/-- Witness for C9: monotonicity applied to two concrete reports toward the
origin, the nearer one first. -/
theorem estimateArrival_monotone_witness :
    angularDistSq (exReport "r1" 1 1) (exLoc "d" 0 0) ≤
      angularDistSq (exReport "r2" 2 2) (exLoc "d" 0 0) ∧
    estimateArrivalMinutes (exReport "r1" 1 1) (exLoc "d" 0 0) ≤
      estimateArrivalMinutes (exReport "r2" 2 2) (exLoc "d" 0 0) :=
  ⟨by norm_num [angularDistSq, exReport, exLoc],
   estimateArrival_formula_monotone.2 (exReport "r1" 1 1) (exReport "r2" 2 2)
     (exLoc "d" 0 0) (exLoc "d" 0 0) (by norm_num [angularDistSq, exReport, exLoc])⟩

/-- C10: order types outside the five recognized proto values (including the
unspecified value 0) silently become RIDE, payment methods outside the five
recognized values silently become CREDIT_CARD, and CreateOrder never rejects a
request over them. -/
theorem convert_defaults_never_reject :
    (∀ ot : Int, ot ≠ 1 → ot ≠ 2 → ot ≠ 3 → ot ≠ 4 → ot ≠ 5 →
      convertOrderType ot = TypeRide) ∧
    (∀ pm : Int, pm ≠ 1 → pm ≠ 2 → pm ≠ 3 → pm ≠ 4 → pm ≠ 5 →
      convertPaymentMethod pm = PaymentCreditCard) ∧
    (∀ (req : CreateOrderRequest) (orderID : String) (now : Nat),
      req.UserId ≠ "" → req.PickupLocation ≠ none → req.DestinationLocation ≠ none →
      (OrderService.CreateOrder req orderID now).isOk = true ∧
      ∀ o, OrderService.CreateOrder req orderID now = Except.ok o →
        o.OrderType = convertOrderType req.OrderType ∧
        o.PaymentMethod = convertPaymentMethod req.PaymentMethod) := by
  refine ⟨?_, ?_, ?_⟩
  · intro ot h1 h2 h3 h4 h5
    simp [convertOrderType, h1, h2, h3, h4, h5]
  · intro pm h1 h2 h3 h4 h5
    simp [convertPaymentMethod, h1, h2, h3, h4, h5]
  · intro req orderID now h1 h2 h3
    simp only [OrderService.CreateOrder]
    rw [if_neg h1, if_neg (by simp [h2, h3])]
    refine ⟨rfl, ?_⟩
    intro o h
    simp only [Except.ok.injEq] at h
    subst h
    exact ⟨by simp [Order.CalculateFees], by simp [Order.CalculateFees]⟩

/-- A found order carries the looked-up ID. -/
theorem getOrder_id (store : List Order) (orderID : String) (o : Order)
    (h : OrderRepository.GetOrderByID store orderID = some o) : o.ID = orderID := by
  have := List.find?_some h
  simpa using this

/-- Looking up an ID through a row-map that rewrites exactly the rows with
that ID (keeping it) finds the rewritten row. -/
theorem getOrder_map_rows (store : List Order) (orderID : String) (g : Order → Order)
    (hg : ∀ x : Order, x.ID = orderID → (g x).ID = orderID) (o : Order)
    (h : OrderRepository.GetOrderByID store orderID = some o) :
    OrderRepository.GetOrderByID (store.map fun x => if x.ID = orderID then g x else x)
      orderID = some (g o) := by
  induction store with
  | nil => simp [OrderRepository.GetOrderByID] at h
  | cons x rest ih =>
    by_cases hx : x.ID = orderID
    · simp only [OrderRepository.GetOrderByID, List.map, if_pos hx] at h ⊢
      rw [List.find?_cons_of_pos _ (by simpa using hx)] at h
      rw [List.find?_cons_of_pos _ (by simpa using hg x hx)]
      simp only [Option.some.injEq] at h
      rw [h]
    · simp only [OrderRepository.GetOrderByID, List.map, if_neg hx] at h ⊢
      rw [List.find?_cons_of_neg _ (by simpa using hx)] at h
      rw [List.find?_cons_of_neg _ (by simpa using hx)]
      exact ih h

/-- Looking up an order after the locked status transaction finds the row
with the entry appended. -/
theorem getOrder_updateStatus (store : List Order) (orderID : String)
    (status : OrderStatus) (updatedBy notes : String) (now : Nat) (o : Order)
    (h : OrderRepository.GetOrderByID store orderID = some o) :
    OrderRepository.GetOrderByID
        (OrderRepository.UpdateOrderStatus store orderID status updatedBy notes now) orderID =
      some (OrderRepository.updateStatusRow o status updatedBy notes now) := by
  exact getOrder_map_rows store orderID
    (fun x => OrderRepository.updateStatusRow x status updatedBy notes now)
    (fun x hx => hx) o h

/-- Looking up an order after a whole-row UpdateOrder write finds the written
row (with its bumped update time). -/
theorem getOrder_updateOrder (store : List Order) (orderID : String) (u : Order)
    (now : Nat) (o : Order) (hu : u.ID = orderID)
    (h : OrderRepository.GetOrderByID store orderID = some o) :
    OrderRepository.GetOrderByID (OrderRepository.UpdateOrder store u now) orderID =
      some { u with UpdatedAt := now } := by
  have := getOrder_map_rows store orderID (fun _ => { u with UpdatedAt := now })
    (fun x _ => hu) o h
  simpa [OrderRepository.UpdateOrder, hu] using this

/-- C7: a successful RejectOrder call returns and persists, before the call
returns and independently of the asynchronous rematch, an order whose
provider ID is cleared and whose history gained one PROVIDER_REJECTED entry. -/
theorem rejectOrder_clears_provider :
    ∀ (store : List Order) (orderID providerID reason : String) (now : Nat)
      (o u : Order) (store2 : List Order),
    OrderRepository.GetOrderByID store orderID = some o →
    OrderService.RejectOrder store orderID providerID reason now = (.ok u, store2) →
    u.ProviderID = "" ∧
    u.Status = StatusProviderRejected ∧
    u.StatusHistory = o.StatusHistory ++
      [{ Status := StatusProviderRejected, UpdatedBy := providerID, Notes := reason,
         Timestamp := now }] ∧
    OrderRepository.GetOrderByID store2 orderID = some { u with UpdatedAt := now } := by
  intro store orderID providerID reason now o u store2 hfind h
  simp only [OrderService.RejectOrder] at h
  by_cases hempty : orderID = "" ∨ providerID = ""
  · rw [if_pos hempty] at h
    exact absurd h (by simp)
  · rw [if_neg hempty] at h
    simp only [hfind] at h
    by_cases hperm : o.ProviderID ≠ providerID
    · simp only [OrderService.RejectOrderLocal, if_pos hperm] at h
      exact absurd h (by simp)
    · simp only [OrderService.RejectOrderLocal, if_neg hperm] at h
      simp only [Prod.mk.injEq, Except.ok.injEq] at h
      obtain ⟨hu, hstore⟩ := h
      subst hu
      refine ⟨rfl, rfl, by simp [Order.AddStatusHistory], ?_⟩
      rw [← hstore]
      exact getOrder_updateOrder store orderID _ now o
        (getOrder_id store orderID o hfind) hfind

/-- Witness for C7: a permitted rejection of the fixture order. -/
theorem rejectOrder_clears_provider_witness :
    (OrderService.RejectOrder [exAssigned] "order-1" "prov-1" "too far" 9).1 =
      Except.ok ({ exAssigned.AddStatusHistory StatusProviderRejected "prov-1" "too far" 9
        with ProviderID := "" }) ∧
    ({ exAssigned.AddStatusHistory StatusProviderRejected "prov-1" "too far" 9
        with ProviderID := "" } : Order).ProviderID = "" ∧
    ({ exAssigned.AddStatusHistory StatusProviderRejected "prov-1" "too far" 9
        with ProviderID := "" } : Order).StatusHistory = exAssigned.StatusHistory ++
      [{ Status := StatusProviderRejected, UpdatedBy := "prov-1", Notes := "too far",
         Timestamp := 9 }] := by
  have h := rejectOrder_clears_provider [exAssigned] "order-1" "prov-1" "too far" 9
    exAssigned
    ({ exAssigned.AddStatusHistory StatusProviderRejected "prov-1" "too far" 9
        with ProviderID := "" })
    (OrderService.RejectOrder [exAssigned] "order-1" "prov-1" "too far" 9).2
    (by simp [OrderRepository.GetOrderByID, exAssigned])
    (by simp [OrderService.RejectOrder, OrderService.RejectOrderLocal,
          OrderRepository.GetOrderByID, exAssigned])
  exact ⟨by simp [OrderService.RejectOrder, OrderService.RejectOrderLocal,
          OrderRepository.GetOrderByID, exAssigned], h.1, h.2.2.1⟩

/-- C6: for an existing order (a fetchable row, whose ID is then non-empty as
the repository enforces at creation), Cancel fails with FailedPrecondition and
leaves the table untouched exactly when the status is COMPLETED, CANCELLED or
REFUNDED, and otherwise succeeds, transitioning to CANCELLED with the supplied
actor and reason. -/
theorem cancelOrder_terminal_guard :
    ∀ (store : List Order) (orderID cancelledBy reason : String) (now : Nat) (o : Order),
    orderID ≠ "" →
    OrderRepository.GetOrderByID store orderID = some o →
    ((o.Status = StatusCompleted ∨ o.Status = StatusCancelled ∨ o.Status = StatusRefunded) →
      OrderService.CancelOrder store orderID cancelledBy reason now =
        (.error .failedPrecondition, store)) ∧
    (¬ (o.Status = StatusCompleted ∨ o.Status = StatusCancelled ∨ o.Status = StatusRefunded) →
      OrderService.CancelOrder store orderID cancelledBy reason now =
        (.ok (OrderRepository.updateStatusRow o StatusCancelled cancelledBy reason now),
         OrderRepository.UpdateOrderStatus store orderID StatusCancelled cancelledBy reason now) ∧
      (OrderRepository.updateStatusRow o StatusCancelled cancelledBy reason now).Status =
        StatusCancelled ∧
      (OrderRepository.updateStatusRow o StatusCancelled cancelledBy reason now).StatusHistory =
        o.StatusHistory ++
          [{ Status := StatusCancelled, UpdatedBy := cancelledBy, Notes := reason,
             Timestamp := now }]) := by
  intro store orderID cancelledBy reason now o hid hfind
  constructor
  · intro hterm
    simp only [OrderService.CancelOrder, if_neg hid, hfind]
    rw [if_pos hterm]
  · intro hterm
    have hget := getOrder_updateStatus store orderID StatusCancelled cancelledBy reason now o hfind
    simp only [OrderService.CancelOrder, if_neg hid, hfind]
    rw [if_neg hterm]
    simp [hget, OrderRepository.updateStatusRow]

/-- Witness for C6: the fixture order is cancellable, and the same order with
a COMPLETED status is not. -/
theorem cancelOrder_terminal_guard_witness :
    (OrderService.CancelOrder [exAssigned] "order-1" "user-1" "changed my mind" 9 =
      (.ok (OrderRepository.updateStatusRow exAssigned StatusCancelled "user-1"
          "changed my mind" 9),
       OrderRepository.UpdateOrderStatus [exAssigned] "order-1" StatusCancelled "user-1"
          "changed my mind" 9)) ∧
    (OrderService.CancelOrder [{ exAssigned with Status := StatusCompleted }] "order-1"
        "user-1" "too late" 9 =
      (.error .failedPrecondition, [{ exAssigned with Status := StatusCompleted }])) :=
  ⟨((cancelOrder_terminal_guard [exAssigned] "order-1" "user-1" "changed my mind" 9 exAssigned
      (by decide) (by simp [OrderRepository.GetOrderByID, exAssigned])).2
      (by simp [exAssigned, StatusProviderAssigned, StatusCompleted, StatusCancelled,
        StatusRefunded])).1,
   (cancelOrder_terminal_guard [{ exAssigned with Status := StatusCompleted }] "order-1"
      "user-1" "too late" 9 { exAssigned with Status := StatusCompleted }
      (by decide) (by simp [OrderRepository.GetOrderByID, exAssigned])).1
      (by simp)⟩

/-- C2: creation installs a one-entry history whose entry carries the current
status, and every accepted state-changing operation (the model's
AddStatusHistory, the locked transaction row update, the matcher assignment,
and the UpdateStatus, Cancel, Accept and Reject handlers) appends exactly one
entry whose status equals the new current status, extending the old history
as a prefix, so the length strictly increases and nothing is truncated or
reordered. -/
theorem statusHistory_append_invariant :
    (∀ (req : CreateOrderRequest) (orderID : String) (now : Nat) (o : Order),
      OrderService.CreateOrder req orderID now = Except.ok o →
      o.StatusHistory =
        [{ Status := StatusCreated, UpdatedBy := "system",
           Notes := "Order created", Timestamp := now }] ∧
      o.Status = StatusCreated ∧ o.StatusHistory.length = 1) ∧
    (∀ (o : Order) (status : OrderStatus) (updatedBy notes : String) (now : Nat),
      (o.AddStatusHistory status updatedBy notes now).StatusHistory =
        o.StatusHistory ++
          [{ Status := status, UpdatedBy := updatedBy, Notes := notes,
             Timestamp := now }] ∧
      (o.AddStatusHistory status updatedBy notes now).Status = status ∧
      (o.AddStatusHistory status updatedBy notes now).StatusHistory.length =
        o.StatusHistory.length + 1) ∧
    (∀ (o : Order) (status : OrderStatus) (updatedBy notes : String) (now : Nat),
      (OrderRepository.updateStatusRow o status updatedBy notes now).StatusHistory =
        o.StatusHistory ++
          [{ Status := status, UpdatedBy := updatedBy, Notes := notes,
             Timestamp := now }] ∧
      (OrderRepository.updateStatusRow o status updatedBy notes now).Status = status ∧
      (OrderRepository.updateStatusRow o status updatedBy notes now).StatusHistory.length =
        o.StatusHistory.length + 1) ∧
    (∀ (o : Order) (pid : String) (now : Nat),
      (ProviderMatcher.AssignProvider o pid now).StatusHistory =
        o.StatusHistory ++
          [{ Status := StatusProviderAssigned, UpdatedBy := "system",
             Notes := "Provider " ++ pid ++ " assigned", Timestamp := now }] ∧
      (ProviderMatcher.AssignProvider o pid now).Status = StatusProviderAssigned ∧
      (ProviderMatcher.AssignProvider o pid now).StatusHistory.length =
        o.StatusHistory.length + 1) ∧
    (∀ (store : List Order) (orderID : String) (statusRaw : Int) (updatedBy notes : String)
      (now : Nat) (o u : Order),
      OrderRepository.GetOrderByID store orderID = some o →
      (OrderService.UpdateOrderStatus store orderID statusRaw updatedBy notes now).1 =
        Except.ok u →
      ∃ e, u.StatusHistory = o.StatusHistory ++ [e] ∧ e.Status = u.Status ∧
        u.StatusHistory.length = o.StatusHistory.length + 1) ∧
    (∀ (store : List Order) (orderID cancelledBy reason : String) (now : Nat) (o u : Order),
      OrderRepository.GetOrderByID store orderID = some o →
      (OrderService.CancelOrder store orderID cancelledBy reason now).1 = Except.ok u →
      ∃ e, u.StatusHistory = o.StatusHistory ++ [e] ∧ e.Status = u.Status ∧
        u.StatusHistory.length = o.StatusHistory.length + 1) ∧
    (∀ (store : List Order) (orderID providerID : String) (now : Nat) (o u : Order),
      OrderRepository.GetOrderByID store orderID = some o →
      (OrderService.AcceptOrder store orderID providerID now).1 = Except.ok u →
      ∃ e, u.StatusHistory = o.StatusHistory ++ [e] ∧ e.Status = u.Status ∧
        u.StatusHistory.length = o.StatusHistory.length + 1) ∧
    (∀ (store : List Order) (orderID providerID reason : String) (now : Nat) (o u : Order),
      OrderRepository.GetOrderByID store orderID = some o →
      (OrderService.RejectOrder store orderID providerID reason now).1 = Except.ok u →
      ∃ e, u.StatusHistory = o.StatusHistory ++ [e] ∧ e.Status = u.Status ∧
        u.StatusHistory.length = o.StatusHistory.length + 1) := by
  refine ⟨?_, ?_, ?_, ?_, ?_, ?_, ?_, ?_⟩
  · intro req orderID now o h
    simp only [OrderService.CreateOrder] at h
    split at h
    · exact absurd h (by simp)
    · split at h
      · exact absurd h (by simp)
      · simp only [Except.ok.injEq] at h
        subst h
        exact ⟨rfl, rfl, rfl⟩
  · intro o status updatedBy notes now
    exact ⟨rfl, rfl, by simp [Order.AddStatusHistory]⟩
  · intro o status updatedBy notes now
    exact ⟨rfl, rfl, by simp [OrderRepository.updateStatusRow]⟩
  · intro o pid now
    exact ⟨rfl, rfl, by simp [ProviderMatcher.AssignProvider, Order.AddStatusHistory]⟩
  · intro store orderID statusRaw updatedBy notes now o u hfind hok
    simp only [OrderService.UpdateOrderStatus] at hok
    by_cases he : orderID = ""
    · rw [if_pos he] at hok
      exact absurd hok (by simp)
    · rw [if_neg he] at hok
      simp only [hfind,
        getOrder_updateStatus store orderID _ updatedBy notes now o hfind] at hok
      simp only [Except.ok.injEq] at hok
      subst hok
      exact ⟨_, rfl, rfl, by simp [OrderRepository.updateStatusRow]⟩
  · intro store orderID cancelledBy reason now o u hfind hok
    simp only [OrderService.CancelOrder] at hok
    by_cases he : orderID = ""
    · rw [if_pos he] at hok
      exact absurd hok (by simp)
    · rw [if_neg he] at hok
      simp only [hfind] at hok
      by_cases hterm : o.Status = StatusCompleted ∨ o.Status = StatusCancelled ∨
          o.Status = StatusRefunded
      · rw [if_pos hterm] at hok
        exact absurd hok (by simp)
      · rw [if_neg hterm] at hok
        simp only [getOrder_updateStatus store orderID StatusCancelled cancelledBy reason
          now o hfind] at hok
        simp only [Except.ok.injEq] at hok
        subst hok
        exact ⟨_, rfl, rfl, by simp [OrderRepository.updateStatusRow]⟩
  · intro store orderID providerID now o u hfind hok
    simp only [OrderService.AcceptOrder] at hok
    by_cases he : orderID = "" ∨ providerID = ""
    · rw [if_pos he] at hok
      exact absurd hok (by simp)
    · rw [if_neg he] at hok
      simp only [hfind] at hok
      by_cases hperm : o.ProviderID ≠ providerID
      · simp only [OrderService.AcceptOrderLocal, if_pos hperm] at hok
        exact absurd hok (by simp)
      · simp only [OrderService.AcceptOrderLocal, if_neg hperm] at hok
        simp only [Except.ok.injEq] at hok
        subst hok
        exact ⟨_, rfl, rfl, by simp [Order.AddStatusHistory]⟩
  · intro store orderID providerID reason now o u hfind hok
    simp only [OrderService.RejectOrder] at hok
    by_cases he : orderID = "" ∨ providerID = ""
    · rw [if_pos he] at hok
      exact absurd hok (by simp)
    · rw [if_neg he] at hok
      simp only [hfind] at hok
      by_cases hperm : o.ProviderID ≠ providerID
      · simp only [OrderService.RejectOrderLocal, if_pos hperm] at hok
        exact absurd hok (by simp)
      · simp only [OrderService.RejectOrderLocal, if_neg hperm] at hok
        simp only [Except.ok.injEq] at hok
        subst hok
        exact ⟨_, rfl, rfl, by simp [Order.AddStatusHistory]⟩

/-- Witness for C2: the handler conjuncts applied to the fixture order. -/
theorem statusHistory_append_invariant_witness :
    (∃ e, (OrderRepository.updateStatusRow exAssigned StatusCancelled "user-1" "bye"
        9).StatusHistory = exAssigned.StatusHistory ++ [e]) ∧
    (∃ u, (OrderService.AcceptOrder [exAssigned] "order-1" "prov-1" 9).1 = Except.ok u ∧
      ∃ e, u.StatusHistory = exAssigned.StatusHistory ++ [e] ∧ e.Status = u.Status ∧
        u.StatusHistory.length = exAssigned.StatusHistory.length + 1) := by
  constructor
  · exact ⟨_, (statusHistory_append_invariant.2.2.1 exAssigned StatusCancelled
      "user-1" "bye" 9).1⟩
  · refine ⟨exAssigned.AddStatusHistory StatusProviderAccepted "prov-1"
      "Provider accepted the order" 9, ?_, ?_⟩
    · simp [OrderService.AcceptOrder, OrderService.AcceptOrderLocal,
        OrderRepository.GetOrderByID, exAssigned]
    · exact statusHistory_append_invariant.2.2.2.2.2.2.1 [exAssigned] "order-1" "prov-1" 9
        exAssigned _
        (by simp [OrderRepository.GetOrderByID, exAssigned])
        (by simp [OrderService.AcceptOrder, OrderService.AcceptOrderLocal,
          OrderRepository.GetOrderByID, exAssigned])

/-- C3 counterexample: AcceptOrder is a GetOrderByID followed by a plain
UpdateOrder, with no transaction locking the row across the two, so two
concurrent AcceptOrder calls on the fixture order (both of which report
success) can both read first and then write, leaving a three-entry history
where the serial execution leaves four: one appended PROVIDER_ACCEPTED entry
is lost. -/
theorem accept_interleaving_loses_history :
    (acceptInterleavedRRWW [exAssigned] "order-1" "prov-1" "prov-1" 8 9).1.1.isOk = true ∧
    (acceptInterleavedRRWW [exAssigned] "order-1" "prov-1" "prov-1" 8 9).1.2.isOk = true ∧
    ((acceptInterleavedRRWW [exAssigned] "order-1" "prov-1" "prov-1" 8 9).2.map
      fun o => o.StatusHistory.length) = [3] ∧
    exAssigned.StatusHistory.length = 2 ∧
    ((OrderService.AcceptOrder (OrderService.AcceptOrder [exAssigned] "order-1" "prov-1" 8).2
        "order-1" "prov-1" 9).2.map fun o => o.StatusHistory.length) = [4] := by
  refine ⟨?_, ?_, ?_, rfl, ?_⟩ <;>
    simp [acceptInterleavedRRWW, OrderService.AcceptOrder, OrderService.AcceptOrderLocal,
      OrderRepository.GetOrderByID, OrderRepository.UpdateOrder, Order.AddStatusHistory,
      exAssigned, Except.isOk, Except.toBool]

/-- C3 amended: UpdateStatus and Cancel mutate the order through the locked
repository transaction, one atomic step whose serializations each append both
entries; AcceptOrder, RejectOrder and AssignProvider's final write instead
perform an unlocked read followed by a whole-row UpdateOrder, and under the
read-read-write-write interleaving two such permitted calls both succeed while
only one appended history entry survives. -/
theorem status_mutation_atomicity_amended :
    (∀ (o : Order) (st1 : OrderStatus) (ub1 n1 : String) (t1 : Nat)
      (st2 : OrderStatus) (ub2 n2 : String) (t2 : Nat),
      (OrderRepository.updateStatusRow (OrderRepository.updateStatusRow o st1 ub1 n1 t1)
          st2 ub2 n2 t2).StatusHistory =
        o.StatusHistory ++
          [{ Status := st1, UpdatedBy := ub1, Notes := n1, Timestamp := t1 },
           { Status := st2, UpdatedBy := ub2, Notes := n2, Timestamp := t2 }]) ∧
    (∀ (store : List Order) (orderID pid : String) (now1 now2 : Nat) (o : Order),
      OrderRepository.GetOrderByID store orderID = some o →
      o.ProviderID = pid →
      (acceptInterleavedRRWW store orderID pid pid now1 now2).1.1.isOk = true ∧
      (acceptInterleavedRRWW store orderID pid pid now1 now2).1.2.isOk = true ∧
      OrderRepository.GetOrderByID
          (acceptInterleavedRRWW store orderID pid pid now1 now2).2 orderID =
        some { o.AddStatusHistory StatusProviderAccepted pid "Provider accepted the order"
            now2 with UpdatedAt := now2 } ∧
      ({ o.AddStatusHistory StatusProviderAccepted pid "Provider accepted the order"
          now2 with UpdatedAt := now2 } : Order).StatusHistory.length =
        o.StatusHistory.length + 1) ∧
    (∀ (store : List Order) (orderID pid1 pid2 : String) (now1 now2 : Nat) (o : Order),
      OrderRepository.GetOrderByID store orderID = some o →
      OrderRepository.GetOrderByID
          (assignInterleavedRRWW store orderID pid1 pid2 now1 now2) orderID =
        some { ProviderMatcher.AssignProvider o pid2 now2 with UpdatedAt := now2 } ∧
      ({ ProviderMatcher.AssignProvider o pid2 now2 with UpdatedAt := now2 } :
          Order).StatusHistory.length = o.StatusHistory.length + 1) := by
  refine ⟨?_, ?_, ?_⟩
  · intro o st1 ub1 n1 t1 st2 ub2 n2 t2
    simp [OrderRepository.updateStatusRow]
  · intro store orderID pid now1 now2 o hfind hpid
    have hid := getOrder_id store orderID o hfind
    simp only [acceptInterleavedRRWW, hfind]
    have hperm : ¬ o.ProviderID ≠ pid := by simp [hpid]
    simp only [OrderService.AcceptOrderLocal, if_neg hperm]
    have h1 := getOrder_updateOrder store orderID
      (o.AddStatusHistory StatusProviderAccepted pid "Provider accepted the order" now1)
      now1 o hid hfind
    have h2 := getOrder_updateOrder
      (OrderRepository.UpdateOrder store
        (o.AddStatusHistory StatusProviderAccepted pid "Provider accepted the order" now1)
        now1)
      orderID
      (o.AddStatusHistory StatusProviderAccepted pid "Provider accepted the order" now2)
      now2 _ hid h1
    exact ⟨rfl, rfl, h2, by simp [Order.AddStatusHistory]⟩
  · intro store orderID pid1 pid2 now1 now2 o hfind
    have hid := getOrder_id store orderID o hfind
    simp only [assignInterleavedRRWW, hfind]
    have h1 := getOrder_updateOrder store orderID
      (ProviderMatcher.AssignProvider o pid1 now1) now1 o hid hfind
    have h2 := getOrder_updateOrder
      (OrderRepository.UpdateOrder store (ProviderMatcher.AssignProvider o pid1 now1) now1)
      orderID (ProviderMatcher.AssignProvider o pid2 now2) now2 _ hid h1
    exact ⟨h2, by simp [ProviderMatcher.AssignProvider, Order.AddStatusHistory]⟩

/-- Witness for C3 amended: the interleaved conjuncts applied to the fixture
order and its assigned provider. -/
theorem status_mutation_atomicity_amended_witness :
    (acceptInterleavedRRWW [exAssigned] "order-1" "prov-1" "prov-1" 8 9).1.1.isOk = true ∧
    OrderRepository.GetOrderByID
        (assignInterleavedRRWW [exAssigned] "order-1" "prov-2" "prov-3" 8 9) "order-1" =
      some { ProviderMatcher.AssignProvider exAssigned "prov-3" 9 with UpdatedAt := 9 } :=
  ⟨(status_mutation_atomicity_amended.2.1 [exAssigned] "order-1" "prov-1" 8 9 exAssigned
      (by simp [OrderRepository.GetOrderByID, exAssigned]) rfl).1,
   (status_mutation_atomicity_amended.2.2 [exAssigned] "order-1" "prov-2" "prov-3" 8 9
      exAssigned (by simp [OrderRepository.GetOrderByID, exAssigned])).1⟩

/-- C5: FindBestProviders first queries the directory at radius 5 around the
order's pickup point; it queries again at radius 10 exactly when the first
query returned fewer than the requested count, and then the second result
replaces the first (which also propagates a second-query error). The radii
log records the queries performed, in order. -/
theorem findBest_widening :
    ∀ (find : Location → ℚ → String → Except String (List Provider)) (order : Order)
      (maxProviders : Nat) (l5 : List Provider),
    find order.PickupLocation 5 (orderTypeToServiceType order.OrderType) = .ok l5 →
    (maxProviders ≤ l5.length →
      FindBestProviders find order maxProviders =
        .ok (limitProviders maxProviders (sortProvidersByScore l5), [5])) ∧
    (l5.length < maxProviders →
      ∀ l10, find order.PickupLocation 10 (orderTypeToServiceType order.OrderType) = .ok l10 →
        FindBestProviders find order maxProviders =
          .ok (limitProviders maxProviders (sortProvidersByScore l10), [5, 10])) ∧
    (l5.length < maxProviders →
      ∀ e, find order.PickupLocation 10 (orderTypeToServiceType order.OrderType) = .error e →
        FindBestProviders find order maxProviders = .error e) := by
  intro find order maxProviders l5 h5
  refine ⟨?_, ?_, ?_⟩
  · intro hge
    simp only [FindBestProviders, h5]
    rw [if_neg (by omega)]
  · intro hlt l10 h10
    simp only [FindBestProviders, h5]
    rw [if_pos hlt]
    simp only [h10]
  · intro hlt e h10
    simp only [FindBestProviders, h5]
    rw [if_pos hlt]
    simp only [h10]

/-- Witness for C5: with the fixture directory, radius 5 returns nobody for
three requested candidates, so the widened query supplies the result. -/
theorem findBest_widening_witness :
    exFind exAssigned.PickupLocation 5 (orderTypeToServiceType exAssigned.OrderType) =
      .ok [] ∧
    FindBestProviders exFind exAssigned 3 =
      .ok (limitProviders 3 (sortProvidersByScore [exProvider "pw" 0 ((4 : ℕ) : ℚ)]),
        [5, 10]) :=
  ⟨by norm_num [exFind],
   (findBest_widening exFind exAssigned 3 [] (by norm_num [exFind])).2.1 (by decide)
     [exProvider "pw" 0 ((4 : ℕ) : ℚ)] (by norm_num [exFind])⟩

/-- C8: both list queries filter by the subject and the optional exact status,
count all matching rows before paginating, order the page by creation time
descending, default the page to 1 when it is below 1, and replace a limit
outside 1 to 100 with the in-range default 10. -/
theorem list_orders_pagination :
    ∀ (store : List Order) (userID providerID : String) (page limit : Int)
      (status : OrderStatus),
    (ListUserOrders store userID page limit status =
      (((sortByCreatedAtDesc (store.filter (matchesUser userID status))).drop
          ((normalizePage page - 1) * normalizeLimit limit).toNat).take
          (normalizeLimit limit).toNat,
       (store.filter (matchesUser userID status)).length)) ∧
    (ListProviderOrders store providerID page limit status =
      (((sortByCreatedAtDesc (store.filter (matchesProvider providerID status))).drop
          ((normalizePage page - 1) * normalizeLimit limit).toNat).take
          (normalizeLimit limit).toNat,
       (store.filter (matchesProvider providerID status)).length)) ∧
    (1 ≤ normalizeLimit limit ∧ normalizeLimit limit ≤ 100 ∧ 1 ≤ normalizePage page) ∧
    ((limit < 1 ∨ 100 < limit) → normalizeLimit limit = 10) ∧
    (page < 1 → normalizePage page = 1) ∧
    List.Pairwise (fun a b => b.CreatedAt ≤ a.CreatedAt)
      (ListUserOrders store userID page limit status).1 ∧
    List.Pairwise (fun a b => b.CreatedAt ≤ a.CreatedAt)
      (ListProviderOrders store providerID page limit status).1 := by
  intro store userID providerID page limit status
  have hsorted : ∀ l : List Order,
      List.Pairwise (fun a b : Order => b.CreatedAt ≤ a.CreatedAt) (sortByCreatedAtDesc l) := by
    intro l
    have h := @List.sorted_mergeSort Order
      (fun x y : Order => decide (y.CreatedAt ≤ x.CreatedAt))
      (fun a b c hab hbc => by
        simp only [decide_eq_true_eq] at hab hbc ⊢
        omega)
      (fun a b => by
        simp only [Bool.or_eq_true, decide_eq_true_eq]
        omega)
      l
    exact h.imp (by intro a b hab; simpa using hab)
  have hpage : ∀ l : List Order, List.Pairwise (fun a b : Order => b.CreatedAt ≤ a.CreatedAt)
      ((sortByCreatedAtDesc l).drop ((normalizePage page - 1) * normalizeLimit limit).toNat
        |>.take (normalizeLimit limit).toNat) := by
    intro l
    exact List.Pairwise.sublist
      ((List.take_sublist _ _).trans (List.drop_sublist _ _)) (hsorted l)
  refine ⟨rfl, rfl, ?_, ?_, ?_, hpage _, hpage _⟩
  · unfold normalizeLimit normalizePage
    refine ⟨?_, ?_, ?_⟩ <;> split <;> omega
  · intro h
    unfold normalizeLimit
    rw [if_pos (by omega)]
  · intro h
    unfold normalizePage
    rw [if_pos h]

/-- Witness for C8: a page below 1 defaults to 1 and an out-of-range limit
becomes 10 on the fixture store. -/
theorem list_orders_pagination_witness :
    normalizeLimit 200 = 10 ∧ normalizePage 0 = 1 ∧
    ListUserOrders [exAssigned] "user-1" 0 200 "" =
      (((sortByCreatedAtDesc ([exAssigned].filter (matchesUser "user-1" ""))).drop
          ((normalizePage 0 - 1) * normalizeLimit 200).toNat).take (normalizeLimit 200).toNat,
       ([exAssigned].filter (matchesUser "user-1" "")).length) :=
  ⟨(list_orders_pagination [exAssigned] "user-1" "prov-1" 0 200 "").2.2.2.1
      (by omega),
   (list_orders_pagination [exAssigned] "user-1" "prov-1" 0 200 "").2.2.2.2.1
      (by omega),
   (list_orders_pagination [exAssigned] "user-1" "prov-1" 0 200 "").1⟩

/-- The weighted-score comparator on two distance-0 providers compares their
ratings. -/
theorem scoreLess_dist0 (x y : String) (q r : ℚ) :
    scoreLess (exProvider x 0 q) (exProvider y 0 r) = decide (q > r) := by
  have hiff : providerScore (exProvider x 0 q) > providerScore (exProvider y 0 r) ↔
      q > r := by
    simp only [providerScore, distanceScore, ratingScore, exProvider]
    rw [show ((0 : ℚ) / 10) = 0 by norm_num, min_eq_left (by norm_num : (0 : ℚ) ≤ 1)]
    constructor <;> intro h <;> linarith
  simp only [scoreLess]
  exact decide_eq_decide.mpr hiff

/-- Swapping two successor positions skips the head. -/
theorem swapL_cons (a : α) (l : List α) (n m : Nat) :
    swapL (a :: l) (n + 1) (m + 1) = a :: swapL l n m := by
  simp only [swapL, List.get?_cons_succ]
  cases h1 : l.get? n <;> cases h2 : l.get? m <;> simp [List.set]

/-- Swapping the two first positions (in bubble order). -/
theorem swapL_one_zero (y x : α) (s : List α) :
    swapL (y :: x :: s) 1 0 = x :: y :: s := by
  simp [swapL, List.set]

/-- Swapping a prefix-end pair of adjacent positions exchanges them. -/
theorem swapL_adjacent (p : List α) (y x : α) (s : List α) :
    swapL (p ++ y :: x :: s) (p.length + 1) p.length = p ++ x :: y :: s := by
  induction p with
  | nil => exact swapL_one_zero y x s
  | cons a q ih =>
    have : (a :: q).length + 1 = q.length + 1 + 1 := by simp
    rw [this]
    simpa [swapL_cons] using congrArg (a :: ·) ih

/-- The comparator read at a prefix-end pair of adjacent positions. -/
theorem lessAt_adjacent (lt : α → α → Bool) (p : List α) (y x : α) (s : List α) :
    lessAt lt (p ++ y :: x :: s) (p.length + 1) p.length = lt x y := by
  induction p with
  | nil => simp [lessAt]
  | cons a q ih =>
    simpa [lessAt, List.get?_cons_succ] using ih

/-- Appending a strictly greater element before inserting bubbles past it. -/
theorem insertRight_snoc_lt (lt : α → α → Bool) (p : List α) (x y : α)
    (h : lt x y = true) :
    insertRight lt (p ++ [y]) x = insertRight lt p x ++ [y] := by
  simp [insertRight, insertRevAux, h]

/-- Appending an element the new one is not less than stops the bubble. -/
theorem insertRight_snoc_ge (lt : α → α → Bool) (p : List α) (x y : α)
    (h : lt x y = false) :
    insertRight lt (p ++ [y]) x = p ++ [y, x] := by
  simp [insertRight, insertRevAux, h]

/-- insertRevAux adds exactly one element. -/
theorem insertRevAux_length (lt : α → α → Bool) (x : α) (r : List α) :
    (insertRevAux lt x r).length = r.length + 1 := by
  induction r with
  | nil => rfl
  | cons y ys ih =>
    by_cases h : lt x y = true
    · simp [insertRevAux, h, ih]
    · simp [insertRevAux, h]

/-- insertRight adds exactly one element. -/
theorem insertRight_length (lt : α → α → Bool) (p : List α) (x : α) :
    (insertRight lt p x).length = p.length + 1 := by
  simp [insertRight, insertRevAux_length]

/-- The insertion-sort inner loop started at the end of a prefix performs the
right-end insertion into that prefix. -/
theorem insertionSortInner_spec (lt : α → α → Bool) (p : List α) (x : α) (s : List α) :
    insertionSortInner lt 0 (p ++ x :: s) p.length = insertRight lt p x ++ s := by
  induction p using List.reverseRecOn generalizing s with
  | nil => simp [insertionSortInner, insertRight, insertRevAux]
  | append_singleton q y ih =>
    have hq : (q ++ [y]) ++ x :: s = q ++ y :: x :: s := by simp
    have hlen : (q ++ [y]).length = q.length + 1 := by simp
    rw [hq, hlen, insertionSortInner]
    rw [if_pos (by omega : (0 : Nat) < q.length + 1)]
    have hread : lessAt lt (q ++ y :: x :: s) (q.length + 1) (q.length + 1 - 1) = lt x y := by
      simpa using lessAt_adjacent lt q y x s
    rw [hread]
    by_cases h : lt x y = true
    · rw [if_pos h]
      have hswap : swapL (q ++ y :: x :: s) (q.length + 1) (q.length + 1 - 1) =
          q ++ x :: y :: s := by
        simpa using swapL_adjacent q y x s
      rw [hswap]
      have := ih (y :: s)
      simp only [Nat.add_sub_cancel]
      rw [this, insertRight_snoc_lt lt q x y h]
      simp
    · rw [if_neg (by simpa using h), insertRight_snoc_ge lt q x y (by simpa using h)]
      simp

/-- The insertion-sort outer loop folds right-end insertions of the remaining
elements into the prefix. -/
theorem insertionSortOuter_spec (lt : α → α → Bool) :
    ∀ (s p : List α),
      insertionSortOuter lt 0 (p.length + s.length) (p ++ s) p.length =
        s.foldl (insertRight lt) p := by
  intro s
  induction s with
  | nil =>
    intro p
    rw [insertionSortOuter]
    simp
  | cons x s' ih =>
    intro p
    rw [insertionSortOuter]
    rw [if_pos (by simp)]
    rw [insertionSortInner_spec]
    have hb : p.length + (x :: s').length = (insertRight lt p x).length + s'.length := by
      simp [insertRight_length]
      omega
    have hi : p.length + 1 = (insertRight lt p x).length := by
      simp [insertRight_length]
    rw [hb, hi, ih (insertRight lt p x)]
    simp

/-- Go's insertionSort_func on a whole list is the fold of right-end
insertions. -/
theorem insertionSortGo_eq (lt : α → α → Bool) (l : List α) :
    insertionSortGo lt l 0 l.length = insertSortedRight lt l := by
  cases l with
  | nil =>
    rw [insertionSortGo, insertionSortOuter]
    simp [insertSortedRight]
  | cons x rest =>
    have h := insertionSortOuter_spec lt rest [x]
    simp only [List.length_singleton, List.singleton_append] at h
    rw [insertionSortGo]
    have hb : (x :: rest).length = 1 + rest.length := by simp; omega
    rw [hb, h]
    rfl

/-- On ranges of at most 12 elements sort.Slice is its insertion sort. -/
theorem sortSliceGo_small (lt : α → α → Bool) (l : List α) (h : l.length ≤ 12) :
    sortSliceGo lt l = insertSortedRight lt l := by
  rw [sortSliceGo, pdqsortGo]
  rw [dif_neg (by omega : ¬ (2 * l.length + 2 = 0))]
  rw [if_pos (by omega : l.length - 0 ≤ 12)]
  exact insertionSortGo_eq lt l

/-- Inserting from the right splits a sorted prefix: the new element lands
after every element it is not less than (ties included) and before every
element it is less than. The comparator is assumed asymmetric and negatively
transitive, as a strict comparison by score is. -/
theorem insertRight_split (lt : α → α → Bool)
    (hA : ∀ x y : α, lt x y = true → lt y x = false)
    (hN : ∀ x y z : α, lt x y = false → lt y z = false → lt x z = false)
    (p : List α) (x : α)
    (hs : List.Pairwise (fun a b => lt b a = false) p) :
    ∃ p₁ p₂, p = p₁ ++ p₂ ∧ insertRight lt p x = p₁ ++ x :: p₂ ∧
      (∀ z ∈ p₁, lt x z = false) ∧ (∀ z ∈ p₂, lt x z = true ∧ lt z x = false) := by
  induction p using List.reverseRecOn with
  | nil => exact ⟨[], [], rfl, rfl, by simp, by simp⟩
  | append_singleton q y ih =>
    have hq : List.Pairwise (fun a b => lt b a = false) q := (List.pairwise_append.mp hs).1
    have hcross : ∀ z ∈ q, lt y z = false := by
      have hc := (List.pairwise_append.mp hs).2.2
      intro z hz
      simpa using hc z hz y (by simp)
    by_cases h : lt x y = true
    · obtain ⟨q₁, q₂, hqeq, hins, h1, h2⟩ := ih hq
      refine ⟨q₁, q₂ ++ [y], by simp [hqeq], ?_, h1, ?_⟩
      · rw [insertRight_snoc_lt lt q x y h, hins]
        simp
      · intro z hz
        rcases (by simpa using hz : z ∈ q₂ ∨ z = y) with hz2 | rfl
        · exact h2 z hz2
        · exact ⟨h, hA x z h⟩
    · have hfalse : lt x y = false := by simpa using h
      refine ⟨q ++ [y], [], by simp, ?_, ?_, by simp⟩
      · rw [insertRight_snoc_ge lt q x y hfalse]
        simp
      · intro z hz
        rcases (by simpa using hz : z ∈ q ∨ z = y) with hz2 | rfl
        · exact hN x y z hfalse (hcross z hz2)
        · exact hfalse

/-- Right-end insertion into a sorted prefix keeps it sorted. -/
theorem insertRight_sorted (lt : α → α → Bool)
    (hA : ∀ x y : α, lt x y = true → lt y x = false)
    (hN : ∀ x y z : α, lt x y = false → lt y z = false → lt x z = false)
    (p : List α) (x : α)
    (hs : List.Pairwise (fun a b => lt b a = false) p) :
    List.Pairwise (fun a b => lt b a = false) (insertRight lt p x) := by
  obtain ⟨p₁, p₂, hpeq, hins, h1, h2⟩ := insertRight_split lt hA hN p x hs
  subst hpeq
  rw [hins]
  rw [List.pairwise_append] at hs ⊢
  obtain ⟨hp1, hp2, hcross⟩ := hs
  refine ⟨hp1, ?_, ?_⟩
  · rw [List.pairwise_cons]
    exact ⟨fun z hz => (h2 z hz).2, hp2⟩
  · intro a ha b hb
    rcases (by simpa using hb : b = x ∨ b ∈ p₂) with rfl | hb2
    · exact h1 a ha
    · exact hcross a ha b hb2

/-- insertRevAux is a permutation of consing the new element. -/
theorem insertRevAux_perm (lt : α → α → Bool) (x : α) (r : List α) :
    (insertRevAux lt x r).Perm (x :: r) := by
  induction r with
  | nil => exact List.Perm.refl _
  | cons y ys ih =>
    by_cases h : lt x y = true
    · simp only [insertRevAux, h, if_true]
      exact (ih.cons y).trans (List.Perm.swap x y ys)
    · simp [insertRevAux, h]

/-- Right-end insertion is a permutation of consing. -/
theorem insertRight_perm (lt : α → α → Bool) (p : List α) (x : α) :
    (insertRight lt p x).Perm (x :: p) :=
  (List.reverse_perm _).trans
    ((insertRevAux_perm lt x p.reverse).trans ((p.reverse_perm).cons x))

/-- Right-end insertion into a sorted prefix preserves the filtered
subsequence of any class the new element cannot dominate: the new element
appends to the class when it belongs to it and leaves it untouched
otherwise. -/
theorem insertRight_filter (lt : α → α → Bool)
    (hA : ∀ x y : α, lt x y = true → lt y x = false)
    (hN : ∀ x y z : α, lt x y = false → lt y z = false → lt x z = false)
    (p : List α) (x : α)
    (hs : List.Pairwise (fun a b => lt b a = false) p) (f : α → Bool)
    (hf : f x = true → ∀ z, lt x z = true → f z = false) :
    (insertRight lt p x).filter f =
      if f x then p.filter f ++ [x] else p.filter f := by
  obtain ⟨p₁, p₂, hpeq, hins, _h1, h2⟩ := insertRight_split lt hA hN p x hs
  subst hpeq
  rw [hins]
  by_cases hx : f x = true
  · rw [if_pos hx]
    have hp2 : p₂.filter f = [] := by
      rw [List.filter_eq_nil_iff]
      intro z hz
      simp [hf hx z (h2 z hz).1]
    simp [List.filter_append, List.filter_cons, hx, hp2]
  · rw [if_neg hx]
    simp [List.filter_append, List.filter_cons, hx]

/-- Folding right-end insertions keeps the accumulator sorted. -/
theorem foldl_insertRight_sorted (lt : α → α → Bool)
    (hA : ∀ x y : α, lt x y = true → lt y x = false)
    (hN : ∀ x y z : α, lt x y = false → lt y z = false → lt x z = false) :
    ∀ (l acc : List α), List.Pairwise (fun a b => lt b a = false) acc →
      List.Pairwise (fun a b => lt b a = false) (l.foldl (insertRight lt) acc) := by
  intro l
  induction l with
  | nil => intro acc hacc; exact hacc
  | cons x l' ih =>
    intro acc hacc
    exact ih (insertRight lt acc x) (insertRight_sorted lt hA hN acc x hacc)

/-- The functional insertion sort is sorted. -/
theorem insertSortedRight_sorted (lt : α → α → Bool)
    (hA : ∀ x y : α, lt x y = true → lt y x = false)
    (hN : ∀ x y z : α, lt x y = false → lt y z = false → lt x z = false)
    (l : List α) :
    List.Pairwise (fun a b => lt b a = false) (insertSortedRight lt l) :=
  foldl_insertRight_sorted lt hA hN l [] (by simp)

/-- Folding right-end insertions permutes the accumulator and the input. -/
theorem foldl_insertRight_perm (lt : α → α → Bool) :
    ∀ (l acc : List α), (l.foldl (insertRight lt) acc).Perm (acc ++ l) := by
  intro l
  induction l with
  | nil => intro acc; simp
  | cons x l' ih =>
    intro acc
    exact (ih (insertRight lt acc x)).trans
      (((insertRight_perm lt acc x).append_right l').trans List.perm_middle.symm)

/-- The functional insertion sort is a permutation of its input. -/
theorem insertSortedRight_perm (lt : α → α → Bool) (l : List α) :
    (insertSortedRight lt l).Perm l := by
  simpa using foldl_insertRight_perm lt l []

/-- Folding right-end insertions preserves, in order, the filtered
subsequence of any comparator-class of the inputs: stability for ties. -/
theorem foldl_insertRight_filter (lt : α → α → Bool)
    (hA : ∀ x y : α, lt x y = true → lt y x = false)
    (hN : ∀ x y z : α, lt x y = false → lt y z = false → lt x z = false)
    (f : α → Bool) :
    ∀ (l acc : List α), List.Pairwise (fun a b => lt b a = false) acc →
      (∀ x ∈ l, f x = true → ∀ z, lt x z = true → f z = false) →
      (l.foldl (insertRight lt) acc).filter f = acc.filter f ++ l.filter f := by
  intro l
  induction l with
  | nil => intro acc hacc _; simp
  | cons x l' ih =>
    intro acc hacc hf
    rw [List.foldl_cons,
      ih (insertRight lt acc x) (insertRight_sorted lt hA hN acc x hacc)
        (fun z hz => hf z (by simp [hz])),
      insertRight_filter lt hA hN acc x hacc f (hf x (by simp))]
    by_cases hx : f x = true
    · simp [List.filter_cons, hx]
    · simp [List.filter_cons, hx]

/-- The functional insertion sort is stable on comparator classes. -/
theorem insertSortedRight_filter (lt : α → α → Bool)
    (hA : ∀ x y : α, lt x y = true → lt y x = false)
    (hN : ∀ x y z : α, lt x y = false → lt y z = false → lt x z = false)
    (f : α → Bool) (l : List α)
    (hf : ∀ x ∈ l, f x = true → ∀ z, lt x z = true → f z = false) :
    (insertSortedRight lt l).filter f = l.filter f := by
  simpa using foldl_insertRight_filter lt hA hN f l [] (by simp) hf

/-- The score comparator is asymmetric. -/
theorem scoreLess_asym (x y : Provider) (h : scoreLess x y = true) :
    scoreLess y x = false := by
  simp only [scoreLess, decide_eq_true_eq] at h
  simp only [scoreLess, decide_eq_false_iff_not]
  intro h2
  linarith

/-- The score comparator is negatively transitive. -/
theorem scoreLess_negtrans (x y z : Provider) (h1 : scoreLess x y = false)
    (h2 : scoreLess y z = false) : scoreLess x z = false := by
  simp only [scoreLess, decide_eq_false_iff_not, not_lt] at h1 h2 ⊢
  linarith

/-- Rating comparison fact used to evaluate the sort. -/
theorem rateCmp_0_0 : ¬ (((0:ℚ)) > 0) := by norm_num

/-- Rating comparison fact used to evaluate the sort. -/
theorem rateCmp_0_1 : ¬ (((0:ℚ)) > 1) := by norm_num

/-- Rating comparison fact used to evaluate the sort. -/
theorem rateCmp_0_2 : ¬ (((0:ℚ)) > 2) := by norm_num

/-- Rating comparison fact used to evaluate the sort. -/
theorem rateCmp_0_3 : ¬ (((0:ℚ)) > 3) := by norm_num

/-- Rating comparison fact used to evaluate the sort. -/
theorem rateCmp_0_4 : ¬ (((0:ℚ)) > 4) := by norm_num

/-- Rating comparison fact used to evaluate the sort. -/
theorem rateCmp_0_5 : ¬ (((0:ℚ)) > 5) := by norm_num

/-- Rating comparison fact used to evaluate the sort. -/
theorem rateCmp_1_0 : ((1:ℚ) > 0) := by norm_num

/-- Rating comparison fact used to evaluate the sort. -/
theorem rateCmp_1_1 : ¬ (((1:ℚ)) > 1) := by norm_num

/-- Rating comparison fact used to evaluate the sort. -/
theorem rateCmp_1_2 : ¬ (((1:ℚ)) > 2) := by norm_num

/-- Rating comparison fact used to evaluate the sort. -/
theorem rateCmp_1_3 : ¬ (((1:ℚ)) > 3) := by norm_num

/-- Rating comparison fact used to evaluate the sort. -/
theorem rateCmp_1_4 : ¬ (((1:ℚ)) > 4) := by norm_num

/-- Rating comparison fact used to evaluate the sort. -/
theorem rateCmp_1_5 : ¬ (((1:ℚ)) > 5) := by norm_num

/-- Rating comparison fact used to evaluate the sort. -/
theorem rateCmp_2_0 : ((2:ℚ) > 0) := by norm_num

/-- Rating comparison fact used to evaluate the sort. -/
theorem rateCmp_2_1 : ((2:ℚ) > 1) := by norm_num

/-- Rating comparison fact used to evaluate the sort. -/
theorem rateCmp_2_2 : ¬ (((2:ℚ)) > 2) := by norm_num

/-- Rating comparison fact used to evaluate the sort. -/
theorem rateCmp_2_3 : ¬ (((2:ℚ)) > 3) := by norm_num

/-- Rating comparison fact used to evaluate the sort. -/
theorem rateCmp_2_4 : ¬ (((2:ℚ)) > 4) := by norm_num

/-- Rating comparison fact used to evaluate the sort. -/
theorem rateCmp_2_5 : ¬ (((2:ℚ)) > 5) := by norm_num

/-- Rating comparison fact used to evaluate the sort. -/
theorem rateCmp_3_0 : ((3:ℚ) > 0) := by norm_num

/-- Rating comparison fact used to evaluate the sort. -/
theorem rateCmp_3_1 : ((3:ℚ) > 1) := by norm_num

/-- Rating comparison fact used to evaluate the sort. -/
theorem rateCmp_3_2 : ((3:ℚ) > 2) := by norm_num

/-- Rating comparison fact used to evaluate the sort. -/
theorem rateCmp_3_3 : ¬ (((3:ℚ)) > 3) := by norm_num

/-- Rating comparison fact used to evaluate the sort. -/
theorem rateCmp_3_4 : ¬ (((3:ℚ)) > 4) := by norm_num

/-- Rating comparison fact used to evaluate the sort. -/
theorem rateCmp_3_5 : ¬ (((3:ℚ)) > 5) := by norm_num

/-- Rating comparison fact used to evaluate the sort. -/
theorem rateCmp_4_0 : ((4:ℚ) > 0) := by norm_num

/-- Rating comparison fact used to evaluate the sort. -/
theorem rateCmp_4_1 : ((4:ℚ) > 1) := by norm_num

/-- Rating comparison fact used to evaluate the sort. -/
theorem rateCmp_4_2 : ((4:ℚ) > 2) := by norm_num

/-- Rating comparison fact used to evaluate the sort. -/
theorem rateCmp_4_3 : ((4:ℚ) > 3) := by norm_num

/-- Rating comparison fact used to evaluate the sort. -/
theorem rateCmp_4_4 : ¬ (((4:ℚ)) > 4) := by norm_num

/-- Rating comparison fact used to evaluate the sort. -/
theorem rateCmp_4_5 : ¬ (((4:ℚ)) > 5) := by norm_num

/-- Rating comparison fact used to evaluate the sort. -/
theorem rateCmp_5_0 : ((5:ℚ) > 0) := by norm_num

/-- Rating comparison fact used to evaluate the sort. -/
theorem rateCmp_5_1 : ((5:ℚ) > 1) := by norm_num

/-- Rating comparison fact used to evaluate the sort. -/
theorem rateCmp_5_2 : ((5:ℚ) > 2) := by norm_num

/-- Rating comparison fact used to evaluate the sort. -/
theorem rateCmp_5_3 : ((5:ℚ) > 3) := by norm_num

/-- Rating comparison fact used to evaluate the sort. -/
theorem rateCmp_5_4 : ((5:ℚ) > 4) := by norm_num

/-- Rating comparison fact used to evaluate the sort. -/
theorem rateCmp_5_5 : ¬ (((5:ℚ)) > 5) := by norm_num

set_option maxHeartbeats 4000000 in
set_option maxRecDepth 4000 in
/-- C4 counterexample. First half: sortProvidersByScore runs Go's pdqsort, and
on a 13-element candidate list (all ratings on the 0 to 5 scale, equal
distances) the partitioning step reorders the three providers tied at rating
3: they enter as pa, pb, pc and leave as pb, pa, pc, so ties do not preserve
input order. Second half: the claim's clamped-factors reading of the score
disagrees with the code on out-of-scale ratings: with rating 15 the code's
unclamped score ranks pB above pA even though the clamped score ranks pA
first. -/
theorem matcher_tie_and_clamp_counterexample :
    ((exTieProviders.filter fun p =>
        p.ID = "pa" ∨ p.ID = "pb" ∨ p.ID = "pc").map (fun p => p.ID)) =
      ["pa", "pb", "pc"] ∧
    (((sortProvidersByScore exTieProviders).filter fun p =>
        p.ID = "pa" ∨ p.ID = "pb" ∨ p.ID = "pc").map (fun p => p.ID)) =
      ["pb", "pa", "pc"] ∧
    providerScore (exProvider "pa" 0 3) = providerScore (exProvider "pb" 0 3) ∧
    providerScore (exProvider "pa" 0 3) = providerScore (exProvider "pc" 0 3) ∧
    clampedScoreSpec (exProvider "pA" 0 5) > clampedScoreSpec (exProvider "pB" 5 15) ∧
    sortProvidersByScore [exProvider "pA" 0 5, exProvider "pB" 5 15] =
      [exProvider "pB" 5 15, exProvider "pA" 0 5] := by
  have hsort : sortProvidersByScore exTieProviders =
      [exProvider "q01" 0 5, exProvider "q07" 0 5, exProvider "q06" 0 4,
       exProvider "q02" 0 4, exProvider "pb" 0 3, exProvider "pa" 0 3,
       exProvider "pc" 0 3, exProvider "q04" 0 2, exProvider "q08" 0 2,
       exProvider "q05" 0 1, exProvider "q10" 0 1, exProvider "q09" 0 0,
       exProvider "q12" 0 0] := by
    simp [sortProvidersByScore, sortSliceGo, exTieProviders, bitsLen, Nat.log2, pdqsortGo,
      insertionSortGo, insertionSortOuter, insertionSortInner, heapSortGo, heapifyLoop,
      heapPopLoop, siftDownGo, reverseRangeGo, reverseRangeLoop, order2Go, medianGo,
      medianAdjacentGo, choosePivotGo, advanceWhileOrdered, shiftLeftLoop, shiftRightLoop,
      maybeInsStep, maybeInsertionSortGo, partScanRight, partScanLeft, partitionLoop,
      partitionGo, partEqScanRight, partEqScanLeft, partitionEqualLoop, partitionEqualGo,
      breakPatternsGo, xorshiftNext, swapL, lessAt, scoreLess_dist0, List.set,
      decide_eq_true_eq, decide_eq_false_iff_not,
      rateCmp_0_0, rateCmp_0_1, rateCmp_0_2, rateCmp_0_3, rateCmp_0_4, rateCmp_0_5, rateCmp_1_0, rateCmp_1_1, rateCmp_1_2, rateCmp_1_3, rateCmp_1_4, rateCmp_1_5, rateCmp_2_0, rateCmp_2_1, rateCmp_2_2, rateCmp_2_3, rateCmp_2_4, rateCmp_2_5, rateCmp_3_0, rateCmp_3_1, rateCmp_3_2, rateCmp_3_3, rateCmp_3_4, rateCmp_3_5, rateCmp_4_0, rateCmp_4_1, rateCmp_4_2, rateCmp_4_3, rateCmp_4_4, rateCmp_4_5, rateCmp_5_0, rateCmp_5_1, rateCmp_5_2, rateCmp_5_3, rateCmp_5_4, rateCmp_5_5]
  have hBA : scoreLess (exProvider "pB" 5 15) (exProvider "pA" 0 5) = true := by
    simp only [scoreLess, decide_eq_true_eq, providerScore, distanceScore, ratingScore,
      exProvider]
    rw [min_eq_left (by norm_num : (5 : ℚ)/10 ≤ 1),
      min_eq_left (by norm_num : (0 : ℚ)/10 ≤ 1)]
    norm_num
  refine ⟨by simp [exTieProviders, exProvider], ?_, ?_, ?_, ?_, ?_⟩
  · rw [hsort]
    simp [exProvider]
  · norm_num [providerScore, distanceScore, ratingScore, exProvider]
  · norm_num [providerScore, distanceScore, ratingScore, exProvider]
  · simp only [clampedScoreSpec, exProvider]
    rw [min_eq_left (by norm_num : (5 : ℚ)/10 ≤ 1),
      min_eq_left (by norm_num : (0 : ℚ)/10 ≤ 1)]
    norm_num
  · rw [sortProvidersByScore, sortSliceGo_small scoreLess _ (by simp)]
    simp [insertSortedRight, insertRight, insertRevAux, hBA]

/-- C4 amended: each candidate's score is 0.7 times the distance factor
(1 minus min(distance/10, 1)) plus 0.3 times the rating factor (rating/5);
the factors lie between 0 and 1 whenever the distance is non-negative and the
rating is on the 0 to 5 scale, but out-of-range ratings are not clamped. For
every candidate list the returned list is sorted descending by score and is a
permutation of the candidates, and it is then truncated to at most the
requested count. Candidates of equal score keep their input order for lists of
at most 12 providers, where sort.Slice runs its insertion-sort path; for
longer lists pdqsort can reorder equal-score candidates (see the
counterexample). -/
theorem matcher_scoring_truncation_amended :
    (∀ p : Provider,
      providerScore p = 0.7 * (1 - min (p.Distance / 10) 1) + 0.3 * (p.Rating / 5)) ∧
    (∀ p : Provider, 0 ≤ p.Distance → 0 ≤ p.Rating → p.Rating ≤ 5 →
      0 ≤ distanceScore p ∧ distanceScore p ≤ 1 ∧
      0 ≤ ratingScore p ∧ ratingScore p ≤ 1) ∧
    (∀ l : List Provider,
      (sortProvidersByScore l).Perm l ∧
      List.Pairwise (fun a b => providerScore b ≤ providerScore a)
        (sortProvidersByScore l)) ∧
    (∀ l : List Provider, l.length ≤ 12 →
      sortProvidersByScore l = insertSortedRight scoreLess l ∧
      List.Pairwise (fun a b => providerScore b ≤ providerScore a)
        (sortProvidersByScore l) ∧
      (sortProvidersByScore l).Perm l ∧
      (∀ c : ℚ, (sortProvidersByScore l).filter (fun p => providerScore p = c) =
        l.filter (fun p => providerScore p = c))) ∧
    (∀ (maxProviders : Nat) (l : List Provider),
      limitProviders maxProviders l = l.take maxProviders ∧
      (limitProviders maxProviders l).length ≤ maxProviders) := by
  refine ⟨?_, ?_, ?_, ?_, ?_⟩
  · intro p
    simp [providerScore, distanceScore, ratingScore]
  · intro p h1 h2 h3
    refine ⟨?_, ?_, ?_, ?_⟩
    · simp only [distanceScore]
      linarith [min_le_right (p.Distance / 10) (1 : ℚ)]
    · simp only [distanceScore]
      have h0 : (0 : ℚ) ≤ min (p.Distance / 10) 1 :=
        le_min (by positivity) (by norm_num)
      linarith
    · simp only [ratingScore]
      positivity
    · simp only [ratingScore]
      rw [div_le_one (by norm_num : (0 : ℚ) < 5)]
      linarith
  · intro l
    have h := sortSliceGo_spec scoreLess_asym scoreLess_negtrans l
    rw [sortProvidersByScore]
    refine ⟨h.1, h.2.imp ?_⟩
    intro a b hab
    simp only [scoreLess, decide_eq_false_iff_not, not_lt] at hab
    exact hab
  · intro l hl
    have heq : sortProvidersByScore l = insertSortedRight scoreLess l := by
      rw [sortProvidersByScore]
      exact sortSliceGo_small scoreLess l hl
    refine ⟨heq, ?_, ?_, ?_⟩
    · rw [heq]
      refine (insertSortedRight_sorted scoreLess scoreLess_asym scoreLess_negtrans l).imp ?_
      intro a b h
      simpa [scoreLess, not_lt] using h
    · rw [heq]
      exact insertSortedRight_perm scoreLess l
    · intro c
      rw [heq]
      apply insertSortedRight_filter scoreLess scoreLess_asym scoreLess_negtrans _ l
      intro x _ hfx z hlt
      simp only [decide_eq_true_eq] at hfx
      simp only [scoreLess, decide_eq_true_eq] at hlt
      simp only [decide_eq_false_iff_not]
      intro hzc
      rw [hfx] at hlt
      rw [hzc] at hlt
      exact lt_irrefl c hlt
  · intro maxProviders l
    have heq : limitProviders maxProviders l = l.take maxProviders := by
      unfold limitProviders
      by_cases h : maxProviders < l.length
      · rw [if_pos h]
      · rw [if_neg h]
        exact (List.take_of_length_le (by omega)).symm
    refine ⟨heq, ?_⟩
    rw [heq, List.length_take]
    exact min_le_left _ _

/-- Witness for C4 amended: the factor bounds at an in-range provider, the
insertion-sort path at a one-element list, and truncation at count 3. -/
theorem matcher_scoring_truncation_amended_witness :
    (0 ≤ distanceScore (exProvider "pa" 0 3) ∧ distanceScore (exProvider "pa" 0 3) ≤ 1 ∧
      0 ≤ ratingScore (exProvider "pa" 0 3) ∧ ratingScore (exProvider "pa" 0 3) ≤ 1) ∧
    sortProvidersByScore [exProvider "pa" 0 3] =
      insertSortedRight scoreLess [exProvider "pa" 0 3] ∧
    limitProviders 3 [exProvider "pa" 0 3] = [exProvider "pa" 0 3].take 3 :=
  ⟨matcher_scoring_truncation_amended.2.1 (exProvider "pa" 0 3)
      (by norm_num [exProvider]) (by norm_num [exProvider]) (by norm_num [exProvider]),
   (matcher_scoring_truncation_amended.2.2.2.1 [exProvider "pa" 0 3] (by simp)).1,
   (matcher_scoring_truncation_amended.2.2.2.2 3 [exProvider "pa" 0 3]).1⟩

/-- Witness for C10: unknown enum values 17 and 99 on an otherwise valid
request default to RIDE and CREDIT_CARD and the request is accepted. -/
theorem convert_defaults_never_reject_witness :
    convertOrderType 17 = TypeRide ∧
    convertPaymentMethod 99 = PaymentCreditCard ∧
    (OrderService.CreateOrder
      { exCreateReq with OrderType := 17, PaymentMethod := 99 } "order-2" 3).isOk = true :=
  ⟨convert_defaults_never_reject.1 17 (by decide) (by decide) (by decide) (by decide) (by decide),
   convert_defaults_never_reject.2.1 99 (by decide) (by decide) (by decide) (by decide) (by decide),
   (convert_defaults_never_reject.2.2
     { exCreateReq with OrderType := 17, PaymentMethod := 99 } "order-2" 3
     (by decide) (by decide) (by decide)).1⟩

end OrderApi
